import Mathlib

/-!
Verification of the `repocutter` Subversion dump-stream surgery engine
(src/cutter/repocutter.go) against its natural-language specification.

The Go source is shallowly embedded: byte streams are `List Char` (each
`Char` standing for one byte; the engine treats bytes opaquely, so chars
above 127 model non-ASCII bytes faithfully), line-oriented input is the
`LineBufferedSource` structure below, fallible operations return
`Except Unit` (`.error ()` models `os.Exit(1)` / `croak`), and loops are
given explicit fuel so that every definition is executable by the kernel.
Go regular-expression calls on fixed patterns are translated into
equivalent explicit scanners, one per pattern shape, documented at each
definition.
-/

namespace Repocutter

/-! ## Byte-string basics -/

/-- Byte strings: one `Char` per byte. -/
abbrev Bytes := List Char

/-- Convert a Lean string literal to the byte string it denotes. -/
def bytes (s : String) : Bytes := s.toList

/-- The line separator used throughout repocutter (`const linesep = "\n"`). -/
def linesepC : Char := '\n'

/-- Decimal digit character for a digit value 0-9 (values ≥ 10 are clamped,
never used). -/
def digitChar (d : Nat) : Char :=
  match d with
  | 0 => '0' | 1 => '1' | 2 => '2' | 3 => '3' | 4 => '4'
  | 5 => '5' | 6 => '6' | 7 => '7' | 8 => '8' | _ => '9'

/-- Fuel-driven decimal rendering of a natural number, most significant
digit first: the digit list produced by Go's `strconv.Itoa`/`fmt %d` on a
non-negative value. -/
def natDigsAux (fuel n : Nat) : Bytes :=
  match fuel with
  | 0 => []
  | f + 1 =>
    if n < 10 then [digitChar n]
    else natDigsAux f (n / 10) ++ [digitChar (n % 10)]

/-- Decimal rendering of a natural number (`strconv.Itoa` on values ≥ 0). -/
def natDigits (n : Nat) : Bytes := natDigsAux (n + 1) n

/-- Decimal rendering of a Go `int` (`strconv.Itoa` / `fmt %d`). -/
def intDigits (i : Int) : Bytes :=
  if i < 0 then '-' :: natDigits i.natAbs else natDigits i.natAbs

/-- Numeric value of a digit string (no sign handling). -/
def digsVal (l : Bytes) : Nat :=
  l.foldl (fun a c => 10 * a + (c.toNat - 48)) 0

/-- Go `strconv.Atoi`: optional single sign, then one or more decimal
digits; anything else is a parse error (`none`).  Integer overflow of
Go's 64-bit `int` is not modelled; no claim exercises it. -/
def goAtoi (l : Bytes) : Option Int :=
  match l with
  | [] => none
  | '-' :: rest =>
    if rest ≠ [] ∧ rest.all Char.isDigit then some (-(digsVal rest : Int)) else none
  | '+' :: rest =>
    if rest ≠ [] ∧ rest.all Char.isDigit then some (digsVal rest : Int) else none
  | _ =>
    if l.all Char.isDigit then some (digsVal l : Nat) else none

/-- `strconv.Atoi` with its error discarded, as in `n, _ := strconv.Atoi(s)`:
the Go idiom leaves `n = 0` when parsing fails. -/
def goAtoi0 (l : Bytes) : Int := (goAtoi l).getD 0

/-- Go `strings.Split` / `bytes.Split` with a single-byte separator:
the separator-free chunks, in order (never empty output). -/
def goSplitCh (sep : Char) : Bytes → List Bytes
  | [] => [[]]
  | c :: rest =>
    if c = sep then [] :: goSplitCh sep rest
    else
      match goSplitCh sep rest with
      | [] => [[c]]
      | chunk :: more => (c :: chunk) :: more

/-- Go `strings.Split` by a multi-byte separator is only used with the
separators `","`, `":"`, `"="`, `"->"` and `"\n"`; all but `"->"` are a
single byte. -/
def goSplitArrow : Bytes → List Bytes
  | [] => [[]]
  | '-' :: '>' :: rest =>
    [] :: goSplitArrow rest
  | c :: rest =>
    match goSplitArrow rest with
    | [] => [[c]]
    | chunk :: more => (c :: chunk) :: more

/-- Whitespace as recognized by Go's `unicode.IsSpace` on the bytes that
occur in dump headers (space, tab, CR, LF). -/
def isSpaceB (c : Char) : Bool := c = ' ' ∨ c = '\t' ∨ c = '\r' ∨ c = '\n'

/-- Go `bytes.Fields`: maximal runs of non-whitespace bytes. -/
def goFields : Bytes → List Bytes
  | [] => []
  | c :: rest =>
    if isSpaceB c then goFields rest
    else
      match goFields rest with
      | [] => [[c]]
      | f :: fs =>
        match rest with
        | [] => [[c]]
        | r0 :: _ => if isSpaceB r0 then [c] :: f :: fs else (c :: f) :: fs

/-- Go `strings.TrimRight(s, "\n")`: drop every trailing newline byte. -/
def trimNlRight (l : Bytes) : Bytes :=
  (l.reverse.dropWhile (· = '\n')).reverse

/-- Go `strings.Contains` / `bytes.Contains` for a fixed needle:
does `pat` occur as a contiguous substring? -/
def containsSeq (pat : Bytes) : Bytes → Bool
  | [] => pat.isPrefixOf ([] : Bytes)
  | c :: rest => pat.isPrefixOf (c :: rest) || containsSeq pat rest

/-- Go `bytes.Index` for a fixed needle: offset of the leftmost
occurrence, `none` standing for Go's `-1`. -/
def idxOfSeq (pat : Bytes) : Bytes → Option Nat
  | [] => if pat = [] then some 0 else none
  | c :: rest =>
    if pat.isPrefixOf (c :: rest) then some 0
    else (idxOfSeq pat rest).map (· + 1)

/-! ## Line-Buffered Source (repocutter.go, `LineBufferedSource`)

The Go structure wraps a `bufio.Reader`; here the unread part of the
underlying stream is carried explicitly.  The `linenumber` field is used
by the source only in diagnostics and is omitted. -/

structure LineBufferedSource where
  Linebuffer : Bytes
  stream : Bytes
  deriving Repr, DecidableEq

/-- `NewLineBufferedSource`. -/
def NewLineBufferedSource (source : Bytes) : LineBufferedSource :=
  { Linebuffer := [], stream := source }

/-- `bufio.Reader.ReadBytes('\n')`: the bytes up to and including the
next newline; the Bool records whether the delimiter was found (`false`
models the `io.EOF` return, with the partial data still delivered). -/
def readBytesNl : Bytes → Bytes × Bytes × Bool
  | [] => ([], [], false)
  | c :: rest =>
    if c = '\n' then ([c], rest, true)
    else
      match readBytesNl rest with
      | (data, remaining, found) => (c :: data, remaining, found)

/-- `Readline`: pop the pushback buffer if nonempty, else read one line;
on end-of-stream (`io.EOF`, i.e. no delimiter found) return the empty
slice, the partial data having been consumed from the reader. -/
def LineBufferedSource.Readline (lbs : LineBufferedSource) :
    Bytes × LineBufferedSource :=
  if lbs.Linebuffer ≠ [] then (lbs.Linebuffer, { lbs with Linebuffer := [] })
  else
    match readBytesNl lbs.stream with
    | (data, remaining, found) =>
      if found then (data, { lbs with stream := remaining })
      else ([], { lbs with stream := [] })

/-- `Require(prefix)`: read a line and abort (`os.Exit(1)`) unless it
starts with the prefix. -/
def LineBufferedSource.Require (lbs : LineBufferedSource) (pre : String) :
    Except Unit (Bytes × LineBufferedSource) :=
  match lbs.Readline with
  | (line, lbs) =>
    if (bytes pre).isPrefixOf line then .ok (line, lbs) else .error ()

/-- `Read(rlen)`: raw fixed-length read.  Go croaks when the pushback
buffer is nonempty; a negative length would make `make([]byte, rlen)`
panic, and a stream shorter than `rlen` puts the Go loop into an
unbounded retry against EOF — both are modelled as `.error`. -/
def LineBufferedSource.Read (lbs : LineBufferedSource) (rlen : Int) :
    Except Unit (Bytes × LineBufferedSource) :=
  if lbs.Linebuffer ≠ [] then .error ()
  else if rlen < 0 then .error ()
  else if lbs.stream.length < rlen.toNat then .error ()
  else .ok (lbs.stream.take rlen.toNat,
            { lbs with stream := lbs.stream.drop rlen.toNat })

/-- `Peek`: read the next line (or partial final line) into the
single-slot pushback buffer and return it. -/
def LineBufferedSource.Peek (lbs : LineBufferedSource) :
    Bytes × LineBufferedSource :=
  match readBytesNl lbs.stream with
  | (data, remaining, _) => (data, { Linebuffer := data, stream := remaining })

/-- `Flush`: return and clear the pushback slot. -/
def LineBufferedSource.Flush (lbs : LineBufferedSource) :
    Bytes × LineBufferedSource :=
  (lbs.Linebuffer, { lbs with Linebuffer := [] })

/-- `Push(line)`. -/
def LineBufferedSource.Push (lbs : LineBufferedSource) (line : Bytes) :
    LineBufferedSource :=
  { lbs with Linebuffer := line }

/-- `HasLineBuffered`. -/
def LineBufferedSource.HasLineBuffered (lbs : LineBufferedSource) : Bool :=
  lbs.Linebuffer ≠ []

/-! ## Property Block Codec (repocutter.go, `Properties`) -/

/-- Lookup in the model of a Go `map[string]string`. -/
def mapGet (m : List (Bytes × Bytes)) (k : Bytes) : Option Bytes :=
  match m with
  | [] => none
  | (k', v) :: rest => if k' = k then some v else mapGet rest k

/-- Insert-or-replace in the model of a Go `map[string]string`. -/
def mapSet (m : List (Bytes × Bytes)) (k v : Bytes) : List (Bytes × Bytes) :=
  match m with
  | [] => [(k, v)]
  | (k', v') :: rest =>
    if k' = k then (k', v) :: rest else (k', v') :: mapSet rest k v

/-- `delete(m, k)` on the model of a Go `map[string]string`. -/
def mapDel (m : List (Bytes × Bytes)) (k : Bytes) : List (Bytes × Bytes) :=
  match m with
  | [] => []
  | (k', v') :: rest => if k' = k then rest else (k', v') :: mapDel rest k

/-- `Properties` — revision or node properties.  The Go `map` is modelled
as an association list keyed by byte strings. -/
structure Properties where
  properties : List (Bytes × Bytes)
  propkeys : List Bytes
  propdelkeys : List Bytes
  deriving Repr, DecidableEq

/-- One iteration step of the `NewProperties` read loop; fuel bounds the
number of loop iterations (each iteration consumes input, so any fuel of
at least the stream length is enough; exhaustion is an `.error`). -/
def newPropsLoop (fuel : Nat) (props : Properties)
    (lbs : LineBufferedSource) : Except Unit (Properties × LineBufferedSource) :=
  match fuel with
  | 0 => .error ()
  | fuel + 1 =>
    match lbs.Peek with
    | (currentline, lbs) =>
      if (bytes "PROPS-END").isPrefixOf currentline then
        .ok (props, (lbs.Flush).2)
      else if (bytes "D ").isPrefixOf currentline then
        match lbs.Require "D" with
        | .error _ => .error ()
        | .ok (_, lbs) =>
          match lbs.Readline with
          | (keyhd, lbs) =>
            let key := trimNlRight keyhd
            newPropsLoop fuel
              { props with propdelkeys := props.propdelkeys ++ [key] } lbs
      else
        match lbs.Require "K" with
        | .error _ => .error ()
        | .ok (_, lbs) =>
          match lbs.Readline with
          | (keyhd, lbs) =>
            let key := trimNlRight keyhd
            match lbs.Require "V" with
            | .error _ => .error ()
            | .ok (valhd, lbs) =>
              -- vlen, _ := strconv.Atoi(string(bytes.Fields(valhd)[1]));
              -- a missing second field makes Go panic.
              match (goFields valhd).get? 1 with
              | none => .error ()
              | some f1 =>
                let vlen := goAtoi0 f1
                match lbs.Read vlen with
                | .error _ => .error ()
                | .ok (value, lbs) =>
                  match lbs.Require "\n" with
                  | .error _ => .error ()
                  | .ok (_, lbs) =>
                    newPropsLoop fuel
                      { props with
                        properties := mapSet props.properties key value,
                        propkeys := props.propkeys ++ [key] } lbs

/-- `NewProperties` — parse a property block from the source.  The Go
function takes the enclosing `DumpfileSource` but touches only its
`Lbs` field, which is what is passed here. -/
def NewProperties (lbs : LineBufferedSource) :
    Except Unit (Properties × LineBufferedSource) :=
  newPropsLoop (lbs.stream.length + lbs.Linebuffer.length + 1)
    { properties := [], propkeys := [], propdelkeys := [] } lbs

/-- `Properties.Stringer` — serialize a property block. -/
def Stringer (props : Properties) : Bytes :=
  (props.propkeys.foldl (fun acc key =>
      acc ++ bytes "K " ++ natDigits key.length ++ [linesepC]
          ++ key ++ [linesepC]
          ++ bytes "V " ++ natDigits ((mapGet props.properties key).getD []).length ++ [linesepC]
          ++ ((mapGet props.properties key).getD []) ++ [linesepC]) [])
  ++ (props.propdelkeys.foldl (fun acc key =>
      acc ++ bytes "D " ++ natDigits key.length ++ [linesepC]
          ++ key ++ [linesepC]) [])
  ++ bytes "PROPS-END\n"

/-- `Properties.Contains`. -/
def Properties.ContainsKey (props : Properties) (key : Bytes) : Bool :=
  (mapGet props.properties key).isSome

/-! ## Fixed-pattern scanners

Each Go regular expression in repocutter.go is built from a fixed
pattern; each is translated into an explicit scanner with the same
leftmost, non-overlapping, greedy-digit-run semantics. -/

/-- Does the byte string start with a decimal digit? -/
def digitHead (l : Bytes) : Bool :=
  match l with
  | c :: _ => c.isDigit
  | [] => false

/-- Does the byte string start with a digit 1-9? -/
def nzDigitHead (l : Bytes) : Bool :=
  match l with
  | c :: _ => '1' ≤ c && c ≤ '9'
  | [] => false

/-- `regexp.ReplaceAll` for the pattern `PAT([0-9]+)` with the digit run
replaced by the decimal form of `v`: scan left to right; at a match emit
the pattern and the new digits, skip the old (maximal) digit run, and
resume after it.  Fuel bounds loop iterations; each iteration consumes
at least one byte, so `l.length` is always enough. -/
def setLenAux (fuel : Nat) (pat : Bytes) (v : Nat) (l : Bytes) : Bytes :=
  match fuel with
  | 0 => l
  | f + 1 =>
    match l with
    | [] => []
    | c :: r =>
      if pat.isPrefixOf (c :: r) && digitHead ((c :: r).drop pat.length) then
        pat ++ natDigits v
            ++ setLenAux f pat v (((c :: r).drop pat.length).dropWhile Char.isDigit)
      else c :: setLenAux f pat v r

/-- `SetLength` — alter the length field of a specified header.  The Go
body is `regexp.MustCompile("(" + header + "-length:) ([0-9]+)")`
followed by `ReplaceAll(data, "$1 " + strconv.Itoa(val))`; the header
names passed in (`"Text-content"`, `"Prop-content"`, `"Content"`)
contain no regex metacharacters, and `val` is always a non-negative
length. -/
def SetLength (header : String) (data : Bytes) (val : Nat) : Bytes :=
  setLenAux data.length (bytes (header ++ "-length: ")) val data

/-- `regexp.ReplaceAll` of `PAT.*\n` with the empty string: delete, for
every occurrence of the pattern, the bytes from the pattern through the
first following newline inclusive (`.` does not match a newline, so a
match requires a newline after the pattern). -/
def delLineAux (fuel : Nat) (pat : Bytes) (l : Bytes) : Bytes :=
  match fuel with
  | 0 => l
  | f + 1 =>
    match l with
    | [] => []
    | c :: r =>
      if pat.isPrefixOf (c :: r) && ((c :: r).drop pat.length).contains '\n' then
        delLineAux f pat
          ((((c :: r).drop pat.length).dropWhile (· ≠ '\n')).drop 1)
      else c :: delLineAux f pat r

/-- Delete every line carrying the given header pattern. -/
def delLine (pat : String) (l : Bytes) : Bytes :=
  delLineAux l.length (bytes pat) l

/-- `stripChecksums` — remove checksum headers from a blob header. -/
def stripChecksums (header : Bytes) : Bytes :=
  let header := delLine "Text-content-md5:" header
  let header := delLine "Text-content-sha1:" header
  let header := delLine "Text-copy-source-md5:" header
  let header := delLine "Text-copy-source-sha1:" header
  header

/-- `FindSubmatch` for a pattern `PAT([1-9][0-9]*)`: the digit run of
the leftmost occurrence of the pattern followed by a nonzero digit.
Models the `textContentLength` and `nodeCopyfrom` regexes. -/
def findNumAfter (pat : Bytes) : Bytes → Option Bytes
  | [] => none
  | c :: r =>
    if pat.isPrefixOf (c :: r) && nzDigitHead ((c :: r).drop pat.length) then
      some (((c :: r).drop pat.length).takeWhile Char.isDigit)
    else findNumAfter pat r

/-- `FindSubmatch` for the `revisionLine` regex
`"Revision-number: ([0-9])"`: note the capture is a single digit — for a
multi-digit revision number only its first digit is captured. -/
def findRevDigit : Bytes → Option Char
  | [] => none
  | c :: r =>
    if (bytes "Revision-number: ").isPrefixOf (c :: r)
        && digitHead ((c :: r).drop (bytes "Revision-number: ").length) then
      ((c :: r).drop (bytes "Revision-number: ").length).head?
    else findRevDigit r

/-- `payload` — extract content of a specified header: the bytes between
the first occurrence of `hd ++ ": "` and the next newline.  When the
pattern occurs but no newline follows, Go computes a negative slice
bound and panics; that case is returned as `none` (it is never reached
on newline-terminated lines). -/
def payload (hd : String) (header : Bytes) : Option Bytes :=
  (idxOfSeq (bytes (hd ++ ": ")) header).bind fun offs =>
    (idxOfSeq [linesepC] (header.drop (offs + (bytes (hd ++ ": ")).length))).map
      fun e => (header.drop (offs + (bytes (hd ++ ": ")).length)).take e

/-- `getHeader` — extract a given field from a header string by lines. -/
def getHeader (txt : Bytes) (hdr : String) : Option Bytes :=
  (goSplitCh '\n' txt).foldr
    (fun line acc =>
      if (bytes (hdr ++ ": ")).isPrefixOf line then
        some (line.drop (bytes (hdr ++ ": ")).length)
      else acc) none

/-! ## Selection Range (repocutter.go, `SubversionRange`) -/

/-- `math.MaxInt32`, the value standing in for `HEAD`. -/
def maxInt32 : Int := 2147483647

/-- `SubversionRange` — a polyrange of Subversion commit numbers. -/
structure SubversionRange where
  intervals : List (Int × Int)
  deriving Repr, DecidableEq

/-- The `parts` computation for one item of a range spec (the body of
the `NewSubversionRange` loop before the monotonicity check); `none`
models the `croak` on `HEAD` as a lower bound.  `Contains ":"`
guarantees at least two colon-separated fields, so the `getD`
defaults are never consulted. -/
def parseRangeItem (item : Bytes) : Option (Int × Int) :=
  if containsSeq (bytes ":") item then
    (if (goSplitCh ':' item).headD [] = bytes "HEAD" then none
     else some (goAtoi0 ((goSplitCh ':' item).headD []),
       if ((goSplitCh ':' item).get? 1).getD [] = bytes "HEAD" then maxInt32
       else goAtoi0 (((goSplitCh ':' item).get? 1).getD [])))
  else some (goAtoi0 item, goAtoi0 item)

/-- The per-item loop of `NewSubversionRange`, with the running
`upperbound` accumulator (which, despite its name, holds the lower bound
of the previous item). -/
def rangeItemsLoop (items : List Bytes) (upperbound : Int)
    (acc : List (Int × Int)) : Except Unit (List (Int × Int)) :=
  match items with
  | [] => .ok acc
  | item :: rest =>
    if containsSeq (bytes "-") item then .error ()
    else
      match parseRangeItem item with
      | none => .error ()
      | some p =>
        if p.1 ≥ upperbound then rangeItemsLoop rest p.1 (acc ++ [p])
        else .error ()

/-- `NewSubversionRange` — create a new polyrange object.  `.error ()`
models `croak`, which prints a diagnostic and exits with status 1. -/
def NewSubversionRange (txt : Bytes) : Except Unit SubversionRange :=
  (rangeItemsLoop (goSplitCh ',' txt) 0 []).map fun l => { intervals := l }

/-- `SubversionRange.Contains`. -/
def SubversionRange.ContainsRev (s : SubversionRange) (rev : Int) : Bool :=
  s.intervals.any fun interval => interval.1 ≤ rev && rev ≤ interval.2

/-- `SubversionRange.Upperbound` — the high endpoint of the last
interval (construction always yields at least one interval, so the
default is never consulted). -/
def SubversionRange.Upperbound (s : SubversionRange) : Int :=
  ((s.intervals.getLastD (0, 0))).2

/-! ## Dump Record Reader (repocutter.go, `DumpfileSource`) -/

/-- `DumpfileSource` — knows about Subversion dumpfile format.  The
`out` field models the bytes written to standard output so far; the
`Baton` progress indicator only writes to standard error and is
omitted. -/
structure DumpfileSource where
  Lbs : LineBufferedSource
  Revision : Int
  Index : Int
  EmittedRevisions : List Bytes
  out : Bytes
  deriving Repr, DecidableEq

/-- `NewDumpfileSource`. -/
def NewDumpfileSource (rd : Bytes) : DumpfileSource :=
  { Lbs := NewLineBufferedSource rd, Revision := 0, Index := 0,
    EmittedRevisions := [], out := [] }

/-- `os.Stdout.Write` outside of `say`. -/
def DumpfileSource.write (ds : DumpfileSource) (text : Bytes) : DumpfileSource :=
  { ds with out := ds.out ++ text }

/-- `DumpfileSource.say` — write text, recording the (first digit of
the) revision number of any revision header it carries in
`EmittedRevisions`. -/
def DumpfileSource.say (ds : DumpfileSource) (text : Bytes) : DumpfileSource :=
  match findRevDigit text with
  | some d => { ds with EmittedRevisions := ds.EmittedRevisions ++ [[d]],
                        out := ds.out ++ text }
  | none => { ds with out := ds.out ++ text }

/-- A property hook: receives the current revision number (Go closures
read `source.Revision`) and rewrites the parsed block in place. -/
abbrev PropHook := Option (Int → Properties → Properties)

/-- The `for string(ds.Lbs.Peek()) == linesep` loop at the end of
`ReadRevisionHeader`: append blank lines to the stash, leaving the first
non-blank line in the pushback buffer. -/
def peekNlLoop (fuel : Nat) (stash : Bytes) (lbs : LineBufferedSource) :
    Bytes × LineBufferedSource :=
  match fuel with
  | 0 => (stash, lbs)
  | f + 1 =>
    match lbs.Peek with
    | (line, lbs) =>
      if line = [linesepC] then
        match lbs.Readline with
        | (l2, lbs) => peekNlLoop f (stash ++ l2) lbs
      else (stash, lbs)

/-- `ReadRevisionHeader` — read a revision header, parsing its
properties.  Aborts (exit 1) on an unparseable revision number; a
`Revision-number` line with no second field makes Go panic, also
modelled as `.error`. -/
def ReadRevisionHeader (ds : DumpfileSource) (PropertyHook : PropHook) :
    Except Unit (Bytes × List (Bytes × Bytes) × DumpfileSource) := do
  let (stash, lbs) ← ds.Lbs.Require "Revision-number:"
  let rval ←
    match (goFields stash).get? 1 with
    | none => .error ()
    | some revb =>
      match goAtoi revb with
      | none => .error ()
      | some rval => pure rval
  let ds := { ds with Revision := rval, Index := 0 }
  let (l1, lbs) ← lbs.Require "Prop-content-length:"
  let (l2, lbs) ← lbs.Require "Content-length:"
  let (l3, lbs) ← lbs.Require "\n"
  let stash := stash ++ l1 ++ l2 ++ l3
  let (props, lbs) ← NewProperties lbs
  let (stash, props) :=
    match PropertyHook with
    | some hook =>
      let props := hook ds.Revision props
      let stash := SetLength "Prop-content" stash (Stringer props).length
      let stash := SetLength "Content" stash (Stringer props).length
      (stash, props)
    | none => (stash, props)
  let stash := stash ++ Stringer props
  let (stash, lbs) := peekNlLoop (lbs.stream.length + 1) stash lbs
  return (stash, props.properties, { ds with Lbs := lbs })

/-- The node-header accumulation loop of `ReadNode`. -/
def readNodeHdr (fuel : Nat) (header : Bytes) (emitted : List Bytes)
    (lbs : LineBufferedSource) : Except Unit (Bytes × LineBufferedSource) :=
  match fuel with
  | 0 => .error ()
  | f + 1 =>
    match lbs.Readline with
    | (line, lbs) =>
      if line = [] then .error ()
      else
        match findNumAfter (bytes "Node-copyfrom-rev: ") line with
        | some r =>
          if !(emitted.contains r) then
            match lbs.Require "Node-copyfrom-path" with
            | .error _ => .error ()
            | .ok (cp, lbs) => readNodeHdr f (header ++ line ++ cp) emitted lbs
          else
            if line = [linesepC] then .ok (header ++ line, lbs)
            else readNodeHdr f (header ++ line) emitted lbs
        | none =>
          if line = [linesepC] then .ok (header ++ line, lbs)
          else readNodeHdr f (header ++ line) emitted lbs

/-- `ReadNode` — read a node header and body. -/
def ReadNode (ds : DumpfileSource) (PropertyHook : PropHook) :
    Except Unit (Bytes × Bytes × Bytes × DumpfileSource) := do
  let (header, lbs) ← ds.Lbs.Require "Node-"
  let (header, lbs) ←
    readNodeHdr (lbs.stream.length + lbs.Linebuffer.length + 1) header
      ds.EmittedRevisions lbs
  let (properties, lbs) ←
    if containsSeq (bytes "Prop-content-length") header then do
      let (props, lbs) ← NewProperties lbs
      let props :=
        match PropertyHook with
        | some hook => hook ds.Revision props
        | none => props
      pure (Stringer props, lbs)
    else pure (([] : Bytes), lbs)
  let (content, lbs) ←
    match findNumAfter (bytes "Text-content-length: ") header with
    | some digs => lbs.Read (goAtoi0 digs)
    | none => pure (([] : Bytes), lbs)
  let header :=
    match PropertyHook with
    | some _ =>
      SetLength "Content"
        (SetLength "Prop-content" header properties.length)
        (properties.length + content.length)
    | none => header
  return (header, properties, content, { ds with Lbs := lbs })

/-- `ReadUntilNextRevision` — accumulate bytes until the next
`Revision-number` line, reading a pending body whenever a blank line is
hit with a positive recorded content length (note the Go code appends
the body *before* the blank line that triggered the read). -/
def ReadUntilNextRevision (fuel : Nat) (stash : Bytes) (contentLength : Int)
    (lbs : LineBufferedSource) : Except Unit (Bytes × LineBufferedSource) :=
  match fuel with
  | 0 => .error ()
  | f + 1 =>
    match lbs.Readline with
    | (line, lbs) =>
      if line = [] then .ok (stash, lbs)
      else if line = [linesepC] then
        if contentLength > 0 then
          match lbs.Read contentLength with
          | .error _ => .error ()
          | .ok (body, lbs) =>
            ReadUntilNextRevision f (stash ++ body ++ line) 0 lbs
        else ReadUntilNextRevision f (stash ++ line) contentLength lbs
      else if (bytes "Revision-number:").isPrefixOf line then
        .ok (stash, lbs.Push line)
      else
        let contentLength :=
          if (bytes "Content-length:").isPrefixOf line then
            match (goFields line).get? 1 with
            | some f1 => goAtoi0 f1
            | none => contentLength
          else contentLength
        ReadUntilNextRevision f (stash ++ line) contentLength lbs

/-- Go `bytes.Replace(s, old, new, 1)` — replace the first occurrence. -/
def replaceFirstSeq (old new l : Bytes) : Bytes :=
  match idxOfSeq old l with
  | none => l
  | some i => l.take i ++ new ++ l.drop (i + old.length)

/-- `ReadUntilNext` — accumulate lines until one with the given prefix,
which is pushed back.  The `revmap` branch translates the Go code
verbatim, including its inverted `err != nil` guard (the rewrite only
fires when `Atoi` fails). -/
def ReadUntilNext (fuel : Nat) (pre : String) (revmap : Option (List (Int × Int)))
    (stash : Bytes) (lbs : LineBufferedSource) :
    Except Unit (Bytes × LineBufferedSource) :=
  match fuel with
  | 0 => .error ()
  | f + 1 =>
    match lbs.Readline with
    | (line, lbs) =>
      if line = [] then .ok (stash, lbs)
      else if (bytes pre).isPrefixOf line then .ok (stash, lbs.Push line)
      else
        match revmap with
        | some rm =>
          if (bytes "Node-copyfrom-rev:").isPrefixOf line then
            match (goFields line).get? 1 with
            | none => .error ()
            | some old =>
              match goAtoi old with
              | some _ => ReadUntilNext f pre revmap (stash ++ line) lbs
              | none =>
                let newrev := intDigits (((rm.find? (·.1 = 0)).map (·.2)).getD 0)
                ReadUntilNext f pre revmap
                  (stash ++ replaceFirstSeq old newrev line) lbs
          else ReadUntilNext f pre revmap (stash ++ line) lbs
        | none => ReadUntilNext f pre revmap (stash ++ line) lbs

/-! ## `Report` — the filtered-emission driver -/

/-- A node hook: `(header, serialized-properties, content) → emitted
bytes`, with the current revision and node index passed explicitly (the
Go closures read `source.Revision` / `source.Index`).  `none` models a
nil hook. -/
abbrev NodeHook := Option (Int → Int → Bytes → Bytes → Bytes → Bytes)

/-- Outcome of the inner (per-node) loop of `Report`: terminate the
whole report, or proceed to the next revision carrying the `emit`
flag. -/
inductive ReportStep where
  | stop (ds : DumpfileSource)
  | nextRev (emit : Bool) (ds : DumpfileSource)

/-- The inner per-node loop of `Report`.  Each iteration consumes at
least one byte from the source except when it returns, so any fuel
above the remaining source size is enough. -/
def reportNodes (fuel : Nat) (nodehook : NodeHook) (prophook : PropHook)
    (passthrough passempty emit : Bool) (stash : Bytes) (nodecount : Nat)
    (ds : DumpfileSource) : Except Unit ReportStep :=
  match fuel with
  | 0 => .error ()
  | f + 1 =>
    match ds.Lbs.Readline with
    | (line, lbs) =>
      let ds := { ds with Lbs := lbs }
      if line = [] then .ok (.stop ds)
      else if line = [linesepC] then
        let ds := if passthrough && emit then ds.write line else ds
        reportNodes f nodehook prophook passthrough passempty emit stash nodecount ds
      else if (bytes "Revision-number:").isPrefixOf line then
        let ds := { ds with Lbs := ds.Lbs.Push line }
        let ds :=
          if stash ≠ [] ∧ nodecount = 0 ∧ passempty then
            if passthrough then ds.say stash else ds
          else ds
        .ok (.nextRev emit ds)
      else if (bytes "Node-").isPrefixOf line then
        let nodecount := nodecount + 1
        let ds :=
          if (bytes "Node-path: ").isPrefixOf line then
            { ds with Index := ds.Index + 1 }
          else ds
        let ds := { ds with Lbs := ds.Lbs.Push line }
        match ReadNode ds prophook with
        | .error _ => .error ()
        | .ok (header, properties, content, ds) =>
          let nodetxt :=
            match nodehook with
            | some h => h ds.Revision ds.Index header properties content
            | none => []
          let emit := nodetxt.length > 0
          let (nodetxt, stash) :=
            if emit ∧ stash.length > 0 then (stash ++ nodetxt, ([] : Bytes))
            else (nodetxt, stash)
          let ds := if passthrough ∧ nodetxt.length > 0 then ds.say nodetxt else ds
          reportNodes f nodehook prophook passthrough passempty emit stash nodecount ds
      else .error ()

/-- The outer per-revision loop of `Report`. -/
def reportRevs (fuel : Nat) (selection : SubversionRange) (nodehook : NodeHook)
    (prophook : PropHook) (passthrough passempty emit : Bool)
    (ds : DumpfileSource) : Except Unit DumpfileSource :=
  match fuel with
  | 0 => .error ()
  | f + 1 =>
    let ds := { ds with Index := 0 }
    match ReadRevisionHeader ds prophook with
    | .error _ => .error ()
    | .ok (stash, _, ds) =>
      if ¬ selection.ContainsRev ds.Revision then
        if ds.Revision > selection.Upperbound then .ok ds
        else
          match ReadUntilNextRevision
              (ds.Lbs.stream.length + ds.Lbs.Linebuffer.length + 1) [] 0 ds.Lbs with
          | .error _ => .error ()
          | .ok (_, lbs) =>
            reportRevs f selection nodehook prophook passthrough passempty emit
              { ds with Lbs := lbs, Index := 0 }
      else
        match reportNodes (ds.Lbs.stream.length + ds.Lbs.Linebuffer.length + 1)
            nodehook prophook passthrough passempty emit stash 0 ds with
        | .error _ => .error ()
        | .ok (.stop ds) => .ok ds
        | .ok (.nextRev emit ds) =>
          reportRevs f selection nodehook prophook passthrough passempty emit ds

/-- `DumpfileSource.Report` — report a filtered portion of content. -/
def Report (ds : DumpfileSource) (selection : SubversionRange)
    (nodehook : NodeHook) (prophook : PropHook)
    (passthrough passempty : Bool) : Except Unit DumpfileSource := do
  let emit := passthrough && (selection.intervals.headD (0, 0)).1 = 0
  let (stash, lbs) ←
    ReadUntilNextRevision (ds.Lbs.stream.length + ds.Lbs.Linebuffer.length + 1)
      [] 0 ds.Lbs
  let ds := { ds with Lbs := lbs }
  let ds := if emit then ds.write stash else ds
  if ¬ ds.Lbs.HasLineBuffered then .ok ds
  else
    reportRevs (ds.Lbs.stream.length + ds.Lbs.Linebuffer.length + 1)
      selection nodehook prophook passthrough passempty emit ds

/-! ## `doSelect` — the select/deselect driver -/

/-- The main loop of `doSelect`. -/
def doSelectLoop (fuel : Nat) (selection : SubversionRange) (invert emit : Bool)
    (ds : DumpfileSource) : Except Unit DumpfileSource :=
  match fuel with
  | 0 => .error ()
  | f + 1 =>
    match ReadUntilNext (ds.Lbs.stream.length + ds.Lbs.Linebuffer.length + 1)
        "Revision-number:" none [] ds.Lbs with
    | .error _ => .error ()
    | .ok (stash, lbs) =>
      let ds := { ds with Lbs := lbs }
      let ds := if emit then ds.write stash else ds
      if ¬ ds.Lbs.HasLineBuffered then .ok ds
      else
        match (goFields ds.Lbs.Linebuffer).get? 1 with
        | none => .error ()
        | some f1 =>
          let revision := goAtoi0 f1
          let emit := (selection.ContainsRev revision) != invert
          let ds :=
            if emit then
              match ds.Lbs.Flush with
              | (l, lbs) => ({ ds with Lbs := lbs }).write l
            else ds
          if !invert && revision > selection.Upperbound then .ok ds
          else
            let ds := { ds with Lbs := (ds.Lbs.Flush).2 }
            doSelectLoop f selection invert emit ds

/-- `doSelect`. -/
def doSelect (ds : DumpfileSource) (selection : SubversionRange)
    (invert : Bool) : Except Unit DumpfileSource :=
  doSelectLoop (ds.Lbs.stream.length + ds.Lbs.Linebuffer.length + 1)
    selection invert ((selection.ContainsRev 0) != invert) ds

/-- `sselect` — select a portion of the dump file. -/
def sselect (ds : DumpfileSource) (selection : SubversionRange) :
    Except Unit DumpfileSource :=
  doSelect ds selection false

/-- `deselect`. -/
def deselect (ds : DumpfileSource) (selection : SubversionRange) :
    Except Unit DumpfileSource :=
  doSelect ds selection true

/-! ## Transformation commands

User-supplied regular expressions (the `PATTERN` arguments of sift,
expunge and strip, and the regex part of replace) are abstracted as the
functions the compiled `*regexp.Regexp` values provide: a matcher
`Bytes → Bool` for `Match`, and a substitution `Bytes → Bytes` for
`ReplaceAll`. -/

/-- `dumpall` — the identity node hook. -/
def dumpall (_rev _index : Int) (header properties content : Bytes) : Bytes :=
  header ++ properties ++ content

/-- The `expungehook` closure of `expunge`: drop the node when its
`Node-path` matches any pattern. -/
def expungehook (patterns : List (Bytes → Bool)) (_rev _index : Int)
    (header properties content : Bytes) : Bytes :=
  let matched :=
    match payload "Node-path" header with
    | some nodepath => patterns.any fun p => p nodepath
    | none => false
  if !matched then header ++ properties ++ content else []

/-- `expunge` — strip out ops matching a path regexp. -/
def expunge (ds : DumpfileSource) (selection : SubversionRange)
    (patterns : List (Bytes → Bool)) : Except Unit DumpfileSource :=
  Report ds selection (some (expungehook patterns)) none true true

/-- The `sifthook` closure of `sift`: keep only nodes whose `Node-path`
matches some pattern. -/
def sifthook (patterns : List (Bytes → Bool)) (_rev _index : Int)
    (header properties content : Bytes) : Bytes :=
  let matched :=
    match payload "Node-path" header with
    | some nodepath => patterns.any fun p => p nodepath
    | none => false
  if matched then header ++ properties ++ content else []

/-- `sift`. -/
def sift (ds : DumpfileSource) (selection : SubversionRange)
    (patterns : List (Bytes → Bool)) : Except Unit DumpfileSource :=
  Report ds selection (some (sifthook patterns)) none true true

/-- The pattern check at the head of `innerstrip`.  The Go loop sets
`ok = false` at each iteration and breaks with `ok = true` at the first
match, so its net result is: `true` when there are no patterns or no
`Node-path` header, otherwise whether some pattern matches. -/
def stripSelected (patterns : List (Bytes → Bool)) (header : Bytes) : Bool :=
  match payload "Node-path" header with
  | none => true
  | some nodepath => patterns.isEmpty || patterns.any fun p => p nodepath

/-- The diagnostic string `tell` built by `innerstrip`:
`fmt.Sprintf("Revision is %d, file path is %s.\n", …)`; the `%s` of a
nil `[]byte` prints nothing. -/
def stripTell (rev : Int) (header : Bytes) : Bytes :=
  bytes "Revision is " ++ intDigits rev ++ bytes ", file path is "
    ++ (getHeader header "Node-path").getD [] ++ bytes ".\n"

/-- The `innerstrip` closure of `strip`: replace content with a
diagnostic cookie, skipping symbolic links. -/
def innerstrip (patterns : List (Bytes → Bool)) (rev _index : Int)
    (header properties content : Bytes) : Bytes :=
  let ok := stripSelected patterns header
  let (header, content) :=
    if ok then
      if content.length > 0 then
        if ¬ (bytes "link ").isPrefixOf content then
          let content := stripTell rev header
          let header := SetLength "Text-content" header content.length
          let header := SetLength "Content" header (properties.length + content.length)
          let header := stripChecksums header
          (header, content)
        else (header, content)
      else (header, content)
    else (header, content)
  header ++ properties ++ content

/-- `strip`. -/
def strip (ds : DumpfileSource) (selection : SubversionRange)
    (patterns : List (Bytes → Bool)) : Except Unit DumpfileSource :=
  Report ds selection (some (innerstrip patterns)) none true true

/-- The parts assembled by the `innerreplace` closure of `replace`,
with the compiled substitution `tre.ReplaceAll(·, replacement)`
abstracted as `replAll`. -/
def innerreplaceParts (replAll : Bytes → Bytes) (header properties content : Bytes) :
    Bytes × Bytes × Bytes :=
  let newcontent := replAll content
  if content ≠ newcontent then
    let header := SetLength "Text-content" header newcontent.length
    let header := SetLength "Content" header (properties.length + newcontent.length)
    let header := stripChecksums header
    (header, properties, newcontent)
  else (header, properties, newcontent)

/-- The `innerreplace` closure of `replace`. -/
def innerreplace (replAll : Bytes → Bytes) (_rev _index : Int)
    (header properties content : Bytes) : Bytes :=
  match innerreplaceParts replAll header properties content with
  | (header, properties, newcontent) => header ++ properties ++ newcontent

/-- `replace` (the transform argument already parsed and compiled into
`replAll`). -/
def replaceCmd (ds : DumpfileSource) (selection : SubversionRange)
    (replAll : Bytes → Bytes) : Except Unit DumpfileSource :=
  Report ds selection (some (innerreplace replAll)) none true true

/-- The `popSegment` closure of `pop`: everything after the first
slash, or the empty string when there is no slash. -/
def popSegment (ins : Bytes) : Bytes :=
  if containsSeq (bytes "/") ins then
    (match idxOfSeq (bytes "/") ins with
     | some i => ins.drop (i + 1)
     | none => [])
  else []

/-- The revision-property hook of `pop`: apply `popSegment` once to the
whole `svn:mergeinfo` value, when present. -/
def popRevhook (_rev : Int) (props : Properties) : Properties :=
  match mapGet props.properties (bytes "svn:mergeinfo") with
  | some v =>
    let m := mapSet props.properties (bytes "svn:mergeinfo") (popSegment v)
    { props with properties := m }
  | none => props

/-- Rewrite the value of one `htype` header line in place, as done by
the header-splicing loop shared by `pop` and `mutatePaths`.  A header
whose match is not newline-terminated would make Go panic on a negative
slice bound; headers are always newline-terminated here. -/
def spliceHeaderValue (htype : String) (mutate : Bytes → Bytes) (header : Bytes) :
    Bytes :=
  match idxOfSeq (bytes htype) header with
  | none => header
  | some offs0 =>
    let offs := offs0 + (bytes htype).length
    match idxOfSeq [linesepC] (header.drop offs) with
    | none => header
    | some e =>
      let endoffs := offs + e
      let before := header.take offs
      let pathline := (header.drop offs).take e
      let after := header.drop endoffs
      before ++ mutate pathline ++ after

/-- The node hook of `pop`: pop the first segment of `Node-path` and
`Node-copyfrom-path`. -/
def popNodehook (_rev _index : Int) (header properties content : Bytes) : Bytes :=
  let header := spliceHeaderValue "Node-path: " popSegment header
  let header := spliceHeaderValue "Node-copyfrom-path: " popSegment header
  header ++ properties ++ content

/-- `pop` — pop the top segment off each pathname.  Note the flags:
pass-through but *not* pass-empty. -/
def pop (ds : DumpfileSource) (selection : SubversionRange) :
    Except Unit DumpfileSource :=
  Report ds selection (some popNodehook) (some popRevhook) true false

/-- The revision-property hook of `propset`: for each `NAME=VALUE`
argument, `strings.Split` on `"="` and use fields 0 and 1 (an argument
with no `=` would make Go panic on the missing field 1; arguments here
always contain one). -/
def propsetRevhook (propnames : List Bytes) (_rev : Int) (props : Properties) :
    Properties :=
  propnames.foldl
    (fun props propname =>
      let fields := goSplitCh '=' propname
      let k := fields.headD []
      let v := (fields.get? 1).getD []
      let props :=
        if (mapGet props.properties k).isSome then props
        else { props with propkeys := props.propkeys ++ [k] }
      { props with properties := mapSet props.properties k v })
    props

/-- `propset`. -/
def propset (ds : DumpfileSource) (propnames : List Bytes)
    (selection : SubversionRange) : Except Unit DumpfileSource :=
  Report ds selection (some dumpall) (some (propsetRevhook propnames)) true true

/-! ## `renumber` -/

/-- Lookup in the model of the Go `map[string]int` renumbering table;
a missing key yields Go's zero value 0. -/
def mapGetI (m : List (Bytes × Int)) (k : Bytes) : Option Int :=
  match m with
  | [] => none
  | (k', v) :: rest => if k' = k then some v else mapGetI rest k

/-- Insert-or-replace in the model of a Go `map[string]int`. -/
def mapSetI (m : List (Bytes × Int)) (k : Bytes) (v : Int) : List (Bytes × Int) :=
  match m with
  | [] => [(k, v)]
  | (k', v') :: rest =>
    if k' = k then (k', v) :: rest else (k', v') :: mapSetI rest k v

/-- The digit-run rewriting loop of `renumberMergeInfo` over the bytes
after the first colon of a line: digit runs are replaced through the
renumbering table; a run still pending when the loop ends is dropped
(the Go loop never flushes it, but the artificially appended newline
means the loop input always ends with a non-digit). -/
def rmiDigitLoop (renumbering : List (Bytes × Int)) :
    Bytes → Bytes → Bytes → Bytes
  | [], _digits, out => out
  | c :: rest, digits, out =>
    if c.isDigit then rmiDigitLoop renumbering rest (digits ++ [c]) out
    else
      let out :=
        if digits ≠ [] then
          out ++ intDigits ((mapGetI renumbering digits).getD 0)
        else out
      rmiDigitLoop renumbering rest [] (out ++ [c])

/-- `renumberMergeInfo`.  Each line gets a newline appended before
processing (so the output gains a trailing newline); a line without a
colon passes through; otherwise everything after the *second* colon, if
any, is dropped with the bytes between the first and second colon
digit-rewritten — mergeinfo lines have exactly one colon. -/
def renumberMergeInfo (lines : Bytes) (renumbering : List (Bytes × Int)) : Bytes :=
  ((goSplitCh '\n' lines).map fun line =>
    let line := line ++ [linesepC]
    match goSplitCh ':' line with
    | [f0] => f0
    | f0 :: f1 :: _ => (f0 ++ [':']) ++ rmiDigitLoop renumbering f1 [] []
    | [] => []).flatten

/-- `renumber`'s `HeaderState`. -/
inductive HeaderState where
  | AwaitingHeader | InHeader | InProps | InText
  deriving Repr, DecidableEq

/-- `renumber`'s `PropParserState`.  The Go declaration lists four
further constants (`awaitingValueLength`, `awaitingMergeInfoValueLength`,
`readingValue`, `readingMergeInfo`) that are never assigned; they are
omitted. -/
inductive PropParserState where
  | awaitingNext | awaitingPropDelete | awaitingKeyValue | propsEnd
  deriving Repr, DecidableEq

/-- The mutable state of the `renumber` loop. -/
structure RenumState where
  renumbering : List (Bytes × Int)
  counter : Int
  headerState : HeaderState
  propParserState : PropParserState
  textContentLength : Int
  propContentLength : Int
  deriving Repr, DecidableEq

/-- One pass of the `renumber` main loop, fuelled by iteration count
(each iteration consumes at least one byte).  Returns the accumulated
standard output. -/
def renumberLoop (fuel : Nat) (st : RenumState) (lbs : LineBufferedSource)
    (out : Bytes) : Except Unit Bytes :=
  match fuel with
  | 0 => .error ()
  | f + 1 =>
    match lbs.Readline with
    | (line, lbs) =>
      if line = [] then .ok out
      else if line = [linesepC] then
        if st.headerState = .InProps ∧ st.propParserState ≠ .propsEnd then
          .error ()
        else
          let hs :=
            if st.headerState = .InHeader then
              if st.propContentLength > 0 then HeaderState.InProps
              else if st.textContentLength > 0 then HeaderState.InText
              else HeaderState.AwaitingHeader
            else if st.headerState = .InProps ∧ st.propParserState = .propsEnd then
              if st.textContentLength > 0 then HeaderState.InText
              else HeaderState.AwaitingHeader
            else st.headerState
          let out := out ++ line
          if hs = .InText then
            match lbs.Read st.textContentLength with
            | .error _ => .error ()
            | .ok (body, lbs) =>
              match lbs.Readline with
              | (l2, lbs) =>
                renumberLoop f { st with headerState := .AwaitingHeader }
                  lbs (out ++ body ++ l2)
          else renumberLoop f { st with headerState := hs } lbs out
      else
        match payload "Revision-number" line with
        | some p =>
          if st.headerState ≠ .AwaitingHeader then .error ()
          else
            let out := out ++ bytes "Revision-number: "
                ++ intDigits st.counter ++ [linesepC]
            renumberLoop f
              { st with headerState := .InHeader, propContentLength := 0,
                        textContentLength := 0, propParserState := .awaitingNext,
                        renumbering := mapSetI st.renumbering p st.counter,
                        counter := st.counter + 1 } lbs out
        | none =>
        match payload "Node-path" line with
        | some _ =>
          if st.headerState ≠ .AwaitingHeader then .error ()
          else
            renumberLoop f
              { st with headerState := .InHeader, propContentLength := 0,
                        textContentLength := 0, propParserState := .awaitingNext }
              lbs (out ++ line)
        | none =>
        match payload "Text-content-length" line with
        | some p =>
          renumberLoop f { st with textContentLength := goAtoi0 p } lbs (out ++ line)
        | none =>
        match payload "SVN-fs-dump-format-version" line with
        | some _ => renumberLoop f st lbs (out ++ line)
        | none =>
        match payload "UUID" line with
        | some _ => renumberLoop f st lbs (out ++ line)
        | none =>
        match payload "Prop-content-length" line with
        | some p =>
          renumberLoop f { st with propContentLength := goAtoi0 p } lbs (out ++ line)
        | none =>
        match payload "Node-copyfrom-rev" line with
        | some p =>
          renumberLoop f st lbs
            (out ++ bytes "Node-copyfrom-rev: "
                 ++ intDigits ((mapGetI st.renumbering p).getD 0) ++ [linesepC])
        | none =>
          if st.headerState = .AwaitingHeader then
            renumberLoop f st lbs (out ++ line)
          else if st.headerState = .InProps then
            if st.propParserState = .awaitingNext then
              if (bytes "K ").isPrefixOf line then
                renumberLoop f { st with propParserState := .awaitingKeyValue }
                  lbs (out ++ line)
              else if (bytes "D ").isPrefixOf line then
                renumberLoop f { st with propParserState := .awaitingPropDelete }
                  lbs (out ++ line)
              else if (bytes "PROPS-END").isPrefixOf line then
                let out := out ++ line
                if st.textContentLength > 0 then
                  match lbs.Read st.textContentLength with
                  | .error _ => .error ()
                  | .ok (body, lbs) =>
                    match lbs.Readline with
                    | (l2, lbs) =>
                      renumberLoop f
                        { st with propParserState := .propsEnd,
                                  headerState := .AwaitingHeader }
                        lbs (out ++ body ++ l2)
                else
                  renumberLoop f { st with propParserState := .propsEnd } lbs out
              else .error ()
            else if st.propParserState = .awaitingPropDelete then
              renumberLoop f { st with propParserState := .awaitingNext }
                lbs (out ++ line)
            else if st.propParserState = .awaitingKeyValue then
              if (bytes "svn:mergeinfo").isPrefixOf line then
                match lbs.Readline with
                | (lengthline, lbs) =>
                  match (goFields lengthline).get? 1 with
                  | none => .error ()
                  | some f1 =>
                    match lbs.Read (goAtoi0 f1) with
                    | .error _ => .error ()
                    | .ok (value, lbs) =>
                      match lbs.Readline with
                      | (_, lbs) =>
                        renumberLoop f { st with propParserState := .awaitingNext }
                          lbs (out ++ line ++ lengthline
                               ++ renumberMergeInfo value st.renumbering)
              else
                match lbs.Readline with
                | (lengthline, lbs) =>
                  match (goFields lengthline).get? 1 with
                  | none => .error ()
                  | some f1 =>
                    match lbs.Read (goAtoi0 f1) with
                    | .error _ => .error ()
                    | .ok (value, lbs) =>
                      match lbs.Readline with
                      | (l2, lbs) =>
                        renumberLoop f { st with propParserState := .awaitingNext }
                          lbs (out ++ line ++ lengthline ++ value ++ l2)
            else renumberLoop f st lbs (out ++ line)
          else renumberLoop f st lbs (out ++ line)

/-- `renumber` — renumber all revisions starting at `base` (the `-b`
flag, default 0). -/
def renumber (base : Int) (ds : DumpfileSource) : Except Unit Bytes :=
  renumberLoop (ds.Lbs.stream.length + ds.Lbs.Linebuffer.length + 1)
    { renumbering := [], counter := base, headerState := .AwaitingHeader,
      propParserState := .awaitingNext, textContentLength := 0,
      propContentLength := 0 } ds.Lbs []

/-! ## Serialized forms and specification-side predicates used by the
theorems -/

/-- Serialization of one ordinary (`K`) property entry, as emitted by
`Stringer` and accepted by `NewProperties`. -/
def serK (kv : Bytes × Bytes) : Bytes :=
  bytes "K " ++ natDigits kv.1.length ++ [linesepC] ++ kv.1 ++ [linesepC]
  ++ bytes "V " ++ natDigits kv.2.length ++ [linesepC] ++ kv.2 ++ [linesepC]

/-- Serialization of one deletion (`D`) entry. -/
def serD (k : Bytes) : Bytes :=
  bytes "D " ++ natDigits k.length ++ [linesepC] ++ k ++ [linesepC]

/-- A serialized property block whose `K` entries all precede its `D`
entries, the order `Stringer` always produces. -/
def serProps (ks : List (Bytes × Bytes)) (ds : List Bytes) : Bytes :=
  (ks.map serK).flatten ++ (ds.map serD).flatten ++ bytes "PROPS-END\n"

/-- The parse of `serProps ks ds` (for distinct keys the association
list is `ks` itself, since `mapSet` appends fresh keys in order). -/
def propsOf (ks : List (Bytes × Bytes)) (ds : List Bytes) : Properties :=
  { properties := ks, propkeys := ks.map Prod.fst, propdelkeys := ds }

/-- The lower endpoint of a range-spec item, as `NewSubversionRange`
parses it. -/
def itemLower (item : Bytes) : Int :=
  if containsSeq (bytes ":") item then goAtoi0 ((goSplitCh ':' item).headD [])
  else goAtoi0 item

/-- The per-item validity checks of `NewSubversionRange`: no hyphen, and
no `HEAD` as a lower bound. -/
def itemOk (item : Bytes) : Bool :=
  !containsSeq (bytes "-") item
  && !(containsSeq (bytes ":") item && (goSplitCh ':' item).headD [] = bytes "HEAD")

/-- The residual loop condition of `NewSubversionRange`: items valid and
lower endpoints non-decreasing from the running bound. -/
def monoFrom (ub : Int) : List Bytes → Bool
  | [] => true
  | item :: rest =>
    itemOk item && decide (ub ≤ itemLower item) && monoFrom (itemLower item) rest

/-- Modelled from the spec ("*pop* removes the first path segment from
… every path in `svn:mergeinfo`", "including when the mergeinfo value
lists several path:range entries on separate lines"): split the value
into lines, and pop the first segment of the path part (before the last
colon) of each line.  Used only to witness that the code differs from
this reading. -/
def claimPopMergeinfo (v : Bytes) : Bytes :=
  ((goSplitCh '\n' v).map fun line =>
    match idxOfSeq (bytes ":") line.reverse with
    | none => line
    | some ri =>
      let lastColon := line.length - 1 - ri
      popSegment (line.take lastColon) ++ line.drop lastColon).intersperse [linesepC]
  |>.flatten

/-- The value of a length header read back through the engine's own
`payload` extractor, 0 when absent. -/
def lenHeaderVal (name : String) (h : Bytes) : Int :=
  goAtoi0 ((payload name h).getD [])

/-- The invariant claimed for every node emitted with a body:
`Content-length = Prop-content-length + Text-content-length`. -/
def nodeLengthsAgree (h : Bytes) : Prop :=
  lenHeaderVal "Content-length" h =
    lenHeaderVal "Prop-content-length" h + lenHeaderVal "Text-content-length" h

instance (h : Bytes) : Decidable (nodeLengthsAgree h) := by
  unfold nodeLengthsAgree; infer_instance

/-- The substitution performed by Go's `tre.ReplaceAll(content, "foo")`
for `tre = regexp.MustCompile("^$")` (the `repocutter replace /^$/foo/`
command): the anchored empty pattern matches exactly the empty byte
string, so empty content becomes `foo` and all other content is left
unchanged. -/
def replAllEmptyFoo (c : Bytes) : Bytes :=
  if c = [] then bytes "foo" else c

/-- The headers from `TestSetLength` in repocutter_test.go: a node
header that carries a `Text-content-length` line… -/
def testHdrPresent : Bytes :=
  bytes "Node-path: branches/testbranch/placeholder\nNode-kind: file\nNode-action: add\nProp-content-length: 10\nText-content-length: 80\nContent-length: 90\n\n"

/-- …the same header after `SetLength("Text-content", hdr, 23)` per the
test's expectation… -/
def testHdrPresentAfter : Bytes :=
  bytes "Node-path: branches/testbranch/placeholder\nNode-kind: file\nNode-action: add\nProp-content-length: 10\nText-content-length: 23\nContent-length: 90\n\n"

/-- …and a node header with no `Text-content-length` line. -/
def testHdrAbsent : Bytes :=
  bytes "Node-path: branches/testbranch/placeholder\nNode-kind: file\nNode-action: add\nProp-content-length: 10\nContent-length: 90\n\n"

/-- The output the test expects from `SetLength("Text-content",
testHdrAbsent, 23)`: the header appended before the terminating blank
line. -/
def testHdrAbsentAfter : Bytes :=
  bytes "Node-path: branches/testbranch/placeholder\nNode-kind: file\nNode-action: add\nProp-content-length: 10\nContent-length: 90\nText-content-length: 23\n\n"

/-- Serialization of a list of newline-free lines, each terminated by a
newline: the well-formed-line shape of a dump stream. -/
def serLines (lines : List Bytes) : Bytes :=
  (lines.map (· ++ ['\n'])).flatten

/-- A `Revision-number` header line for revision `r`. -/
def revLine (r : Nat) : Bytes :=
  bytes "Revision-number: " ++ natDigits r ++ ['\n']

/-- A dump stream tail as a sequence of revisions: each block is a
revision-number line followed by its remaining lines. -/
def serBlocks (blocks : List (Nat × List Bytes)) : Bytes :=
  (blocks.map fun b => revLine b.1 ++ serLines b.2).flatten

/-- A generated node record: a path line, an optional copyfrom-rev
line, and the terminating blank line. -/
def serNodeC5 (n : Bytes × Option Nat) : Bytes :=
  bytes "Node-path: " ++ (n.1 ++ ['\n'])
  ++ (match n.2 with
      | some c => bytes "Node-copyfrom-rev: " ++ (natDigits c ++ ['\n'])
      | none => [])
  ++ ['\n']

/-- The same node record as `renumber` emits it: the copyfrom revision
looked up in the renumbering table (a missing entry gives Go's zero
value 0). -/
def serNodeC5R (m : List (Bytes × Int)) (n : Bytes × Option Nat) : Bytes :=
  bytes "Node-path: " ++ (n.1 ++ ['\n'])
  ++ (match n.2 with
      | some c => bytes "Node-copyfrom-rev: "
          ++ intDigits ((mapGetI m (natDigits c)).getD 0) ++ [linesepC]
      | none => [])
  ++ ['\n']

/-- A generated revision block: a revision-number line, a minimal
property section, and the revision's node records. -/
def serRevC5 (b : Nat × List (Bytes × Option Nat)) : Bytes :=
  revLine b.1 ++ bytes "Prop-content-length: 10\n\nPROPS-END\n\n"
  ++ (b.2.map serNodeC5).flatten

/-- A generated dump: a sequence of revision blocks. -/
def serDumpC5 (revs : List (Nat × List (Bytes × Option Nat))) : Bytes :=
  (revs.map serRevC5).flatten

/-- The dump as `renumber` emits it: revision numbers replaced by the
running counter (consecutive from the base), the renumbering table
extended revision by revision, and copyfrom revisions translated through
it. -/
def serDumpC5R (m : List (Bytes × Int)) (ctr : Int) :
    List (Nat × List (Bytes × Option Nat)) → Bytes
  | [] => []
  | (r, ns) :: rest =>
    bytes "Revision-number: " ++ intDigits ctr ++ [linesepC]
      ++ bytes "Prop-content-length: 10\n\nPROPS-END\n\n"
      ++ (ns.map (serNodeC5R (mapSetI m (natDigits r) ctr))).flatten
      ++ serDumpC5R (mapSetI m (natDigits r) ctr) (ctr + 1) rest

/-- A well-formed non-revision line: newline-free, and not carrying the
`Revision-number:` prefix. -/
def plainLine (l : Bytes) : Prop :=
  '\n' ∉ l ∧ (bytes "Revision-number:").isPrefixOf (l ++ ['\n']) = false

instance (l : Bytes) : Decidable (plainLine l) := by
  unfold plainLine; infer_instance

/-- `∀ i < a.length`, no occurrence of `pat` can start at position `i`
of `a ++ tail`, for any `tail`: the remaining bytes of `a` neither
contain the pattern nor agree with a proper prefix of it. -/
def cleanFor (pat a : Bytes) : Prop :=
  ∀ i, i < a.length →
    pat.isPrefixOf (a.drop i) = false ∧ (a.drop i).isPrefixOf pat = false

instance (pat a : Bytes) : Decidable (cleanFor pat a) := by
  unfold cleanFor; infer_instance

/-- A decidable sufficient condition for `cleanFor pat a` that is
independent of what follows `a`: starting from every position of `a`,
the pattern disagrees with `a` before `a` runs out. -/
def earlyMismatch (pat a : Bytes) : Prop :=
  ∀ i, i < a.length →
    ∃ j, j < a.length - i ∧ j < pat.length ∧ pat[j]? ≠ (a.drop i)[j]?

instance (pat a : Bytes) : Decidable (earlyMismatch pat a) := by
  unfold earlyMismatch; infer_instance

/-- A node header carrying the standard three length lines in dump
order, with arbitrary material before and after them: the shape on which
the engine's length rewriting is stated. -/
def lenTriple (pre : Bytes) (plen t c : Nat) (post : Bytes) : Bytes :=
  pre ++ (bytes "Prop-content-length: " ++ (natDigits plen ++ '\n'
    :: (bytes "Text-content-length: " ++ (natDigits t ++ '\n'
    :: (bytes "Content-length: " ++ (natDigits c ++ '\n' :: post))))))

/-- The header patterns the length-rewriting pipeline scans for: the
three length headers and the four checksum headers. -/
def lenPatterns : List Bytes :=
  [bytes "Prop-content-length: ", bytes "Text-content-length: ",
   bytes "Content-length: ", bytes "Text-content-md5:",
   bytes "Text-content-sha1:", bytes "Text-copy-source-md5:",
   bytes "Text-copy-source-sha1:"]

/-- The material before the length lines starts no occurrence of any
scanned pattern (for any continuation). -/
def preClean (pre : Bytes) : Prop :=
  ∀ pat ∈ lenPatterns, earlyMismatch pat pre

/-- The material after the length lines contains no occurrence of any
scanned pattern (for any continuation). -/
def postClean (post : Bytes) : Prop :=
  ∀ pat ∈ lenPatterns, cleanFor pat post

instance (pre : Bytes) : Decidable (preClean pre) := by
  unfold preClean; infer_instance

instance (post : Bytes) : Decidable (postClean post) := by
  unfold postClean; infer_instance

/-- The header patterns the `renumber` loop probes each line for, in
probe order. -/
def nodePatterns : List Bytes :=
  [bytes "Revision-number: ", bytes "Node-path: ", bytes "Text-content-length: ",
   bytes "SVN-fs-dump-format-version: ", bytes "UUID: ",
   bytes "Prop-content-length: ", bytes "Node-copyfrom-rev: "]

/-- A node path that cannot confuse the per-line probes of `renumber`:
newline-free, and starting no occurrence of any probed header pattern. -/
def pathClean (p : Bytes) : Prop :=
  '\n' ∉ p ∧ ∀ pat ∈ nodePatterns, cleanFor pat (p ++ ['\n'])

instance (p : Bytes) : Decidable (pathClean p) := by
  unfold pathClean; infer_instance


/-! ## Helper lemmas: decimal rendering -/

theorem digitChar_isDigit (d : Nat) : (digitChar d).isDigit = true := by
  unfold digitChar
  split <;> decide

theorem digitChar_toNat (d : Nat) (h : d < 10) : (digitChar d).toNat - 48 = d := by
  interval_cases d <;> decide

theorem natDigits_ne_nil (n : Nat) : natDigits n ≠ [] := by
  have : ∀ f n, natDigsAux (f + 1) n ≠ [] := by
    intro f
    induction f with
    | zero => intro n; unfold natDigsAux; split <;> simp
    | succ f ih =>
      intro n
      unfold natDigsAux
      split
      · simp
      · simp
  exact this n n

theorem natDigsAux_all_digit (f : Nat) :
    ∀ n c, c ∈ natDigsAux f n → c.isDigit = true := by
  induction f with
  | zero => intro n c h; simp [natDigsAux] at h
  | succ f ih =>
    intro n c h
    unfold natDigsAux at h
    split at h
    · simp at h; subst h; exact digitChar_isDigit n
    · rcases List.mem_append.mp h with h' | h'
      · exact ih _ _ h'
      · simp at h'; subst h'; exact digitChar_isDigit _

theorem natDigits_all_digit (n : Nat) :
    ∀ c ∈ natDigits n, c.isDigit = true := fun c h =>
  natDigsAux_all_digit (n + 1) n c h

theorem digsVal_append_one (l : Bytes) (c : Char) :
    digsVal (l ++ [c]) = 10 * digsVal l + (c.toNat - 48) := by
  simp [digsVal, List.foldl_append]

theorem digsVal_natDigsAux (f : Nat) :
    ∀ n, n ≤ f → digsVal (natDigsAux (f + 1) n) = n := by
  induction f with
  | zero =>
    intro n h
    interval_cases n
    decide
  | succ f ih =>
    intro n h
    unfold natDigsAux
    split
    · next h10 =>
      simp [digsVal]
      exact digitChar_toNat n h10
    · next h10 =>
      push_neg at h10
      have hdiv : n / 10 ≤ f := by
        have h1 : n / 10 < n := Nat.div_lt_self (by omega) (by omega)
        omega
      have hm : n % 10 < 10 := Nat.mod_lt _ (by norm_num)
      have hrec : natDigsAux (f + 1) (n / 10) = natDigsAux (f + 1 + 1) (n / 10) := by
        clear ih
        have congrFuel : ∀ g, ∀ m, m ≤ g → natDigsAux (g + 1) m = natDigsAux (g + 2) m := by
          intro g
          induction g with
          | zero =>
            intro m hm0
            interval_cases m
            simp [natDigsAux]
          | succ g ihg =>
            intro m hmg
            conv_lhs => unfold natDigsAux
            conv_rhs => unfold natDigsAux
            split
            · rfl
            · next hm10 =>
              push_neg at hm10
              have : m / 10 ≤ g := by
                have := Nat.div_lt_self (show 0 < m by omega) (show 1 < 10 by omega)
                omega
              rw [ihg _ this]
        exact congrFuel f (n / 10) hdiv
      rw [digsVal_append_one]
      rw [show f + 1 = f + 1 from rfl]
      rw [← hrec] at *
      rw [ih _ hdiv, digitChar_toNat _ hm]
      omega

theorem digsVal_natDigits (n : Nat) : digsVal (natDigits n) = n :=
  digsVal_natDigsAux n n le_rfl

theorem goAtoi_natDigits (n : Nat) : goAtoi (natDigits n) = some (n : Int) := by
  have hne := natDigits_ne_nil n
  have hall : (natDigits n).all Char.isDigit = true := by
    rw [List.all_eq_true]; exact natDigits_all_digit n
  unfold goAtoi
  split
  · next heq => exact absurd heq hne
  · next rest heq =>
    have hcd := natDigits_all_digit n '-' (by rw [heq]; exact List.mem_cons_self _ _)
    simp [Char.isDigit] at hcd
  · next rest heq =>
    have hcd := natDigits_all_digit n '+' (by rw [heq]; exact List.mem_cons_self _ _)
    simp [Char.isDigit] at hcd
  · rw [hall]
    simp [digsVal_natDigits n]

theorem goAtoi0_natDigits (n : Nat) : goAtoi0 (natDigits n) = (n : Int) := by
  simp [goAtoi0, goAtoi_natDigits]

/-! ## Helper lemmas: pattern occurrence (`cleanFor` kit) -/

theorem isPrefixOf_append_self (pat rest : Bytes) :
    pat.isPrefixOf (pat ++ rest) = true :=
  List.isPrefixOf_iff_prefix.mpr (List.prefix_append pat rest)

theorem cleanFor_nil (pat : Bytes) : cleanFor pat [] := by
  intro i hi; simp at hi

theorem cleanFor_tail {pat : Bytes} {c : Char} {a : Bytes}
    (h : cleanFor pat (c :: a)) : cleanFor pat a := by
  intro i hi
  have := h (i + 1) (by simpa using Nat.succ_lt_succ hi)
  simpa using this

theorem cleanFor_append {pat a t : Bytes} (ha : earlyMismatch pat a)
    (ht : cleanFor pat t) : cleanFor pat (a ++ t) := by
  intro i hi
  rcases Nat.lt_or_ge i a.length with hlt | hge
  · obtain ⟨j, hj1, hj2, hj3⟩ := ha i hlt
    have hdrop : (a ++ t).drop i = a.drop i ++ t := by
      rw [List.drop_append_eq_append_drop]
      have : i - a.length = 0 := by omega
      rw [this, List.drop_zero]
    rw [hdrop]
    have hlen : j < (a.drop i).length := by
      rw [List.length_drop]; omega
    have hget : (a.drop i ++ t)[j]? = (a.drop i)[j]? :=
      List.getElem?_append_left hlen
    constructor
    · by_contra hcon
      rw [Bool.not_eq_false] at hcon
      obtain ⟨r, hr⟩ := List.isPrefixOf_iff_prefix.mp hcon
      have : pat[j]? = (a.drop i ++ t)[j]? := by
        rw [← hr, List.getElem?_append_left hj2]
      rw [hget] at this
      exact hj3 this
    · by_contra hcon
      rw [Bool.not_eq_false] at hcon
      obtain ⟨r, hr⟩ := List.isPrefixOf_iff_prefix.mp hcon
      have hj' : j < (a.drop i ++ t).length := by
        rw [List.length_append]; omega
      have : (a.drop i ++ t)[j]? = pat[j]? := by
        rw [← hr, List.getElem?_append_left hj']
      rw [hget] at this
      exact hj3 this.symm
  · have hdrop : (a ++ t).drop i = t.drop (i - a.length) := by
      rw [List.drop_append_eq_append_drop]
      have : a.drop i = [] := List.drop_eq_nil_of_le hge
      rw [this, List.nil_append]
    rw [hdrop]
    apply ht
    rw [List.length_append] at hi
    omega

theorem earlyMismatch_of_head_notMem {pat : Bytes} {c : Char} {p' : Bytes}
    (hp : pat = c :: p') {a : Bytes} (ha : ∀ x ∈ a, x ≠ c) :
    earlyMismatch pat a := by
  intro i hi
  refine ⟨0, by omega, by rw [hp]; simp, ?_⟩
  rw [hp]
  have hdrop := List.drop_eq_getElem_cons hi
  rw [hdrop]
  simp only [List.getElem?_cons_zero]
  intro hcon
  refine ha a[i] (List.getElem_mem _) ?_
  injection hcon with h
  exact h.symm

theorem earlyMismatch_append {pat a b : Bytes} (ha : earlyMismatch pat a)
    (hb : earlyMismatch pat b) : earlyMismatch pat (a ++ b) := by
  intro i hi
  rcases Nat.lt_or_ge i a.length with hlt | hge
  · obtain ⟨j, hj1, hj2, hj3⟩ := ha i hlt
    refine ⟨j, by rw [List.length_append]; omega, hj2, ?_⟩
    have hdrop : (a ++ b).drop i = a.drop i ++ b := by
      rw [List.drop_append_eq_append_drop]
      have : i - a.length = 0 := by omega
      rw [this, List.drop_zero]
    have hlen : j < (a.drop i).length := by rw [List.length_drop]; omega
    rw [hdrop, List.getElem?_append_left hlen]
    exact hj3
  · rw [List.length_append] at hi
    obtain ⟨j, hj1, hj2, hj3⟩ := hb (i - a.length) (by omega)
    refine ⟨j, by rw [List.length_append]; omega, hj2, ?_⟩
    have hdrop : (a ++ b).drop i = b.drop (i - a.length) := by
      rw [List.drop_append_eq_append_drop]
      have : a.drop i = [] := List.drop_eq_nil_of_le hge
      rw [this, List.nil_append]
    rw [hdrop]
    exact hj3

theorem cleanFor_of_earlyMismatch {pat a : Bytes} (h : earlyMismatch pat a) :
    cleanFor pat a := by
  have := cleanFor_append h (cleanFor_nil pat)
  simpa using this

theorem cleanFor_of_head_notMem {pat : Bytes} {c : Char} {p' : Bytes}
    (hp : pat = c :: p') {a : Bytes} (ha : ∀ x ∈ a, x ≠ c) :
    cleanFor pat a :=
  cleanFor_of_earlyMismatch (earlyMismatch_of_head_notMem hp ha)

/-- An occurrence of `pat` cannot start anywhere inside a `cleanFor`
region, whatever follows it. -/
theorem cleanFor_no_match {pat a : Bytes} (h : cleanFor pat a) :
    ∀ i, i < a.length → ∀ rest, pat.isPrefixOf (a.drop i ++ rest) = false := by
  intro i hi rest
  obtain ⟨h1, h2⟩ := h i hi
  by_contra hcon
  rw [Bool.not_eq_false] at hcon
  obtain ⟨r, hr⟩ := List.isPrefixOf_iff_prefix.mp hcon
  rcases le_or_lt pat.length (a.drop i).length with hle | hlt
  · have hpre : pat <+: a.drop i := by
      rw [List.prefix_iff_eq_take]
      have h4 := congrArg (List.take pat.length) hr
      rw [List.take_left, List.take_append_of_le_length hle] at h4
      exact h4
    rw [List.isPrefixOf_iff_prefix.mpr hpre] at h1
    exact absurd h1 (by simp)
  · have hpre : a.drop i <+: pat := by
      rw [List.prefix_iff_eq_take]
      have h4 := congrArg (List.take (a.drop i).length) hr
      rw [List.take_left, List.take_append_of_le_length (Nat.le_of_lt hlt)] at h4
      exact h4.symm
    rw [List.isPrefixOf_iff_prefix.mpr hpre] at h2
    exact absurd h2 (by simp)

theorem containsSeq_eq_false_of_cleanFor {pat a : Bytes} (hne : pat ≠ [])
    (h : cleanFor pat a) : containsSeq pat a = false := by
  induction a with
  | nil =>
    unfold containsSeq
    cases pat with
    | nil => exact absurd rfl hne
    | cons c p' => simp [List.isPrefixOf]
  | cons c r ih =>
    unfold containsSeq
    have h0 := cleanFor_no_match h 0 (by simp) []
    simp only [List.drop_zero, List.append_nil] at h0
    rw [h0]
    simp only [Bool.false_or]
    exact ih (cleanFor_tail h)

/-! ## Helper lemmas: scanners -/

theorem length_dropWhile_le (p : Char → Bool) (l : Bytes) :
    (l.dropWhile p).length ≤ l.length := by
  induction l with
  | nil => simp
  | cons c r ih =>
    rw [List.dropWhile_cons]
    split
    · exact Nat.le_trans ih (by simp)
    · simp

theorem setLenAux_nil (f : Nat) (pat : Bytes) (v : Nat) :
    setLenAux f pat v [] = [] := by
  cases f <;> rfl

theorem setLenAux_cons (f : Nat) (pat : Bytes) (v : Nat) (c : Char) (r : Bytes) :
    setLenAux (f + 1) pat v (c :: r) =
      if (pat.isPrefixOf (c :: r) && digitHead ((c :: r).drop pat.length)) = true then
        pat ++ natDigits v
            ++ setLenAux f pat v (((c :: r).drop pat.length).dropWhile Char.isDigit)
      else c :: setLenAux f pat v r := rfl

theorem setLenAux_drop_len {pat : Bytes} {c : Char} {r : Bytes}
    (hmatch : (pat.isPrefixOf (c :: r) && digitHead ((c :: r).drop pat.length)) = true) :
    (((c :: r).drop pat.length).dropWhile Char.isDigit).length ≤ r.length := by
  rcases pat with _ | ⟨p0, ps⟩
  · simp only [Bool.and_eq_true] at hmatch
    obtain ⟨_, hdig⟩ := hmatch
    show (((c :: r).drop 0).dropWhile Char.isDigit).length ≤ r.length
    simp only [List.drop_zero]
    have hcd : c.isDigit = true := hdig
    rw [List.dropWhile_cons, if_pos hcd]
    exact length_dropWhile_le _ _
  · calc (((c :: r).drop (p0 :: ps).length).dropWhile Char.isDigit).length
      ≤ ((c :: r).drop (p0 :: ps).length).length := length_dropWhile_le _ _
    _ ≤ r.length := by
      rw [List.length_drop]
      simp only [List.length_cons]
      omega

theorem setLenAux_congr (pat : Bytes) (v : Nat) :
    ∀ n l f g, l.length ≤ n → l.length ≤ f → l.length ≤ g →
      setLenAux f pat v l = setLenAux g pat v l := by
  intro n
  induction n with
  | zero =>
    intro l f g hn _ _
    have : l = [] := List.eq_nil_of_length_eq_zero (Nat.le_zero.mp hn)
    subst this
    rw [setLenAux_nil, setLenAux_nil]
  | succ n ih =>
    intro l f g hn hf hg
    cases l with
    | nil => rw [setLenAux_nil, setLenAux_nil]
    | cons c r =>
      simp only [List.length_cons] at hn hf hg
      obtain ⟨f', rfl⟩ : ∃ f', f = f' + 1 := ⟨f - 1, by omega⟩
      obtain ⟨g', rfl⟩ : ∃ g', g = g' + 1 := ⟨g - 1, by omega⟩
      rw [setLenAux_cons, setLenAux_cons]
      by_cases hc : (pat.isPrefixOf (c :: r) && digitHead ((c :: r).drop pat.length)) = true
      · rw [if_pos hc, if_pos hc]
        have hlen := setLenAux_drop_len hc
        rw [ih _ f' g' (by omega) (by omega) (by omega)]
      · rw [if_neg hc, if_neg hc]
        rw [ih r f' g' (by omega) (by omega) (by omega)]

theorem setLenAux_skip {pat a : Bytes} (h : cleanFor pat a) :
    ∀ rest (f : Nat) (v : Nat), (a ++ rest).length ≤ f →
      setLenAux f pat v (a ++ rest) = a ++ setLenAux rest.length pat v rest := by
  induction a with
  | nil =>
    intro rest f v hf
    show setLenAux f pat v rest = setLenAux rest.length pat v rest
    exact setLenAux_congr pat v rest.length rest f rest.length le_rfl
      (by simpa using hf) le_rfl
  | cons c a' ih =>
    intro rest f v hf
    simp only [List.cons_append, List.length_cons] at hf ⊢
    obtain ⟨f', rfl⟩ : ∃ f', f = f' + 1 := ⟨f - 1, by omega⟩
    rw [setLenAux_cons]
    have hnm := cleanFor_no_match h 0 (by simp) rest
    simp only [List.drop_zero, List.cons_append] at hnm
    rw [if_neg (by rw [hnm]; simp)]
    rw [ih (cleanFor_tail h) rest f' v (by omega)]

theorem dropWhile_digits_append {d : Bytes} (hd : ∀ c ∈ d, c.isDigit = true)
    {rest : Bytes} (hr : digitHead rest = false) :
    (d ++ rest).dropWhile Char.isDigit = rest := by
  induction d with
  | nil =>
    show rest.dropWhile Char.isDigit = rest
    cases rest with
    | nil => rfl
    | cons c r =>
      have hc : c.isDigit = false := hr
      rw [List.dropWhile_cons, if_neg (by simp [hc])]
  | cons c d' ih =>
    rw [List.cons_append, List.dropWhile_cons,
      if_pos (hd c (List.mem_cons_self _ _))]
    exact ih fun x hx => hd x (List.mem_cons_of_mem _ hx)

theorem setLenAux_hit {pat : Bytes} (hpat : pat ≠ []) {d : Bytes}
    (hd1 : d ≠ []) (hd2 : ∀ c ∈ d, c.isDigit = true) {rest : Bytes}
    (hr : digitHead rest = false) {f v : Nat}
    (hf : (pat ++ d ++ rest).length ≤ f) :
    setLenAux f pat v (pat ++ d ++ rest) =
      pat ++ natDigits v ++ setLenAux rest.length pat v rest := by
  obtain ⟨f', rfl⟩ : ∃ f', f = f' + 1 := by
    refine ⟨f - 1, ?_⟩
    have : 0 < pat.length := List.length_pos.mpr hpat
    simp only [List.length_append] at hf
    omega
  rcases pat with _ | ⟨p0, ps⟩
  · exact absurd rfl hpat
  · have hself : (p0 :: ps).isPrefixOf ((p0 :: ps) ++ d ++ rest) = true := by
      rw [List.append_assoc]
      exact isPrefixOf_append_self _ _
    have hdrop : ((p0 :: ps) ++ d ++ rest).drop (p0 :: ps).length = d ++ rest := by
      rw [List.append_assoc, List.drop_left]
    have hdig : digitHead (((p0 :: ps) ++ d ++ rest).drop (p0 :: ps).length) = true := by
      rw [hdrop]
      cases d with
      | nil => exact absurd rfl hd1
      | cons c0 dr =>
        unfold digitHead
        simp only [List.cons_append]
        exact hd2 c0 (List.mem_cons_self _ _)
    have hconsform : (p0 :: ps) ++ d ++ rest = p0 :: (ps ++ (d ++ rest)) := by simp
    rw [hconsform, setLenAux_cons, ← hconsform]
    rw [if_pos (by rw [hself, hdig]; rfl)]
    rw [hdrop, dropWhile_digits_append hd2 hr]
    have hflen : rest.length ≤ f' := by
      simp only [List.length_append, List.length_cons] at hf
      omega
    rw [setLenAux_congr (p0 :: ps) v rest.length rest f' rest.length le_rfl hflen le_rfl]

theorem idxOfSeq_cons (pat : Bytes) (c : Char) (r : Bytes) :
    idxOfSeq pat (c :: r) =
      if pat.isPrefixOf (c :: r) = true then some 0
      else (idxOfSeq pat r).map (· + 1) := rfl

theorem idxOfSeq_skip {pat a : Bytes} (h : cleanFor pat a) (rest : Bytes) :
    idxOfSeq pat (a ++ rest) = (idxOfSeq pat rest).map (a.length + ·) := by
  induction a with
  | nil =>
    show idxOfSeq pat rest = (idxOfSeq pat rest).map ((0 : Nat) + ·)
    cases hr : idxOfSeq pat rest <;> simp
  | cons c a' ih =>
    simp only [List.cons_append]
    rw [idxOfSeq_cons]
    have hnm := cleanFor_no_match h 0 (by simp) rest
    simp only [List.drop_zero, List.cons_append] at hnm
    rw [if_neg (by rw [hnm]; simp)]
    rw [ih (cleanFor_tail h)]
    cases idxOfSeq pat rest with
    | none => simp
    | some i =>
      simp only [Option.map_some', List.length_cons, Option.some.injEq]
      omega

theorem idxOfSeq_self (pat rest : Bytes) :
    idxOfSeq pat (pat ++ rest) = some 0 := by
  cases pat with
  | nil =>
    cases rest with
    | nil => rfl
    | cons c r =>
      rw [List.nil_append, idxOfSeq_cons, if_pos (by simp [List.isPrefixOf])]
  | cons p0 ps =>
    rw [List.cons_append, idxOfSeq_cons,
      if_pos (by rw [← List.cons_append]; exact isPrefixOf_append_self _ _)]

theorem delLineAux_nil (f : Nat) (pat : Bytes) : delLineAux f pat [] = [] := by
  cases f <;> rfl

theorem delLineAux_cons (f : Nat) (pat : Bytes) (c : Char) (r : Bytes) :
    delLineAux (f + 1) pat (c :: r) =
      if (pat.isPrefixOf (c :: r) && ((c :: r).drop pat.length).contains '\n') = true then
        delLineAux f pat ((((c :: r).drop pat.length).dropWhile (· ≠ '\n')).drop 1)
      else c :: delLineAux f pat r := rfl

theorem delLineAux_drop_len {pat : Bytes} {c : Char} {r : Bytes}
    (hmatch : (pat.isPrefixOf (c :: r) && ((c :: r).drop pat.length).contains '\n') = true) :
    ((((c :: r).drop pat.length).dropWhile (· ≠ '\n')).drop 1).length ≤ r.length := by
  simp only [Bool.and_eq_true] at hmatch
  obtain ⟨_, hnlmem⟩ := hmatch
  rcases pat with _ | ⟨p0, ps⟩
  · show (((((c :: r).drop 0).dropWhile (· ≠ '\n')).drop 1)).length ≤ r.length
    simp only [List.drop_zero]
    rw [List.length_drop]
    -- a '\n' is present, so the dropWhile result is nonempty and the
    -- final `drop 1` makes the total strictly shorter than `c :: r`
    rcases hdw : (c :: r).dropWhile (· ≠ '\n') with _ | ⟨x, xs⟩
    · simp
    · have hxs : xs.length + 1 ≤ r.length + 1 := by
        have := length_dropWhile_le (· ≠ '\n') (c :: r)
        rw [hdw] at this
        simpa using this
      simp only [List.length_cons]
      omega
  · rw [List.length_drop]
    have h1 : (((c :: r).drop (p0 :: ps).length).dropWhile (· ≠ '\n')).length
        ≤ ((c :: r).drop (p0 :: ps).length).length := length_dropWhile_le _ _
    have h2 : ((c :: r).drop (p0 :: ps).length).length ≤ r.length := by
      rw [List.length_drop]
      simp only [List.length_cons]
      omega
    omega

theorem delLineAux_congr (pat : Bytes) :
    ∀ n l f g, l.length ≤ n → l.length ≤ f → l.length ≤ g →
      delLineAux f pat l = delLineAux g pat l := by
  intro n
  induction n with
  | zero =>
    intro l f g hn _ _
    have : l = [] := List.eq_nil_of_length_eq_zero (Nat.le_zero.mp hn)
    subst this
    rw [delLineAux_nil, delLineAux_nil]
  | succ n ih =>
    intro l f g hn hf hg
    cases l with
    | nil => rw [delLineAux_nil, delLineAux_nil]
    | cons c r =>
      simp only [List.length_cons] at hn hf hg
      obtain ⟨f', rfl⟩ : ∃ f', f = f' + 1 := ⟨f - 1, by omega⟩
      obtain ⟨g', rfl⟩ : ∃ g', g = g' + 1 := ⟨g - 1, by omega⟩
      rw [delLineAux_cons, delLineAux_cons]
      by_cases hc :
          (pat.isPrefixOf (c :: r) && ((c :: r).drop pat.length).contains '\n') = true
      · rw [if_pos hc, if_pos hc]
        have hlen := delLineAux_drop_len hc
        rw [ih _ f' g' (by omega) (by omega) (by omega)]
      · rw [if_neg hc, if_neg hc]
        rw [ih r f' g' (by omega) (by omega) (by omega)]

theorem delLineAux_skip {pat a : Bytes} (h : cleanFor pat a) :
    ∀ rest (f : Nat), (a ++ rest).length ≤ f →
      delLineAux f pat (a ++ rest) = a ++ delLineAux rest.length pat rest := by
  induction a with
  | nil =>
    intro rest f hf
    simp only [List.nil_append] at hf ⊢
    exact delLineAux_congr pat rest.length rest f rest.length le_rfl hf le_rfl
  | cons c a' ih =>
    intro rest f hf
    simp only [List.cons_append, List.length_cons] at hf ⊢
    obtain ⟨f', rfl⟩ : ∃ f', f = f' + 1 := ⟨f - 1, by omega⟩
    rw [delLineAux_cons]
    have hnm := cleanFor_no_match h 0 (by simp) rest
    simp only [List.drop_zero, List.cons_append] at hnm
    rw [if_neg (by rw [hnm]; simp)]
    rw [ih (cleanFor_tail h) rest f' (by omega)]

theorem delLine_of_cleanFor {pat : String} {l : Bytes}
    (h : cleanFor (bytes pat) l) : delLine pat l = l := by
  unfold delLine
  have h2 := delLineAux_skip h [] l.length (by simp)
  simpa [delLineAux_nil] using h2

/-! ## Helper lemmas: `payload` and `goFields` -/

theorem idxOfSeq_none_of_cleanFor {pat l : Bytes} (hne : pat ≠ [])
    (h : cleanFor pat l) : idxOfSeq pat l = none := by
  have h2 := idxOfSeq_skip h []
  rw [List.append_nil] at h2
  rw [h2]
  unfold idxOfSeq
  rw [if_neg hne]
  rfl

theorem payload_none_of_cleanFor {hd : String} {h : Bytes}
    (hc : cleanFor (bytes (hd ++ ": ")) h) : payload hd h = none := by
  unfold payload
  rw [idxOfSeq_none_of_cleanFor (by simp [bytes]) hc]
  rfl

theorem idxOfSeq_nl_at {val : Bytes} (hval : '\n' ∉ val) (tail : Bytes) :
    idxOfSeq [linesepC] (val ++ '\n' :: tail) = some val.length := by
  have hcv : cleanFor [linesepC] val :=
    cleanFor_of_head_notMem rfl fun x hx hcon => by
      rw [hcon] at hx; exact hval hx
  rw [show val ++ '\n' :: tail = val ++ ([linesepC] ++ tail) by rfl,
    idxOfSeq_skip hcv, idxOfSeq_self]
  rfl

theorem payload_at {hd : String} {a val tail : Bytes}
    (hc : cleanFor (bytes (hd ++ ": ")) a) (hval : '\n' ∉ val) :
    payload hd (a ++ bytes (hd ++ ": ") ++ val ++ '\n' :: tail) = some val := by
  have hassoc : a ++ bytes (hd ++ ": ") ++ val ++ '\n' :: tail
      = a ++ (bytes (hd ++ ": ") ++ (val ++ '\n' :: tail)) := by
    simp [List.append_assoc]
  have hidx : idxOfSeq (bytes (hd ++ ": "))
      (a ++ bytes (hd ++ ": ") ++ val ++ '\n' :: tail) = some a.length := by
    rw [hassoc, idxOfSeq_skip hc, idxOfSeq_self]
    rfl
  have hdrop : (a ++ bytes (hd ++ ": ") ++ val ++ '\n' :: tail).drop
      (a.length + (bytes (hd ++ ": ")).length) = val ++ '\n' :: tail := by
    rw [hassoc, ← List.append_assoc,
      show a.length + (bytes (hd ++ ": ")).length
        = (a ++ bytes (hd ++ ": ")).length by simp,
      List.drop_left]
  unfold payload
  rw [hidx]
  simp only [Option.some_bind]
  rw [hdrop, idxOfSeq_nl_at hval]
  simp only [Option.map_some']
  rw [List.take_left]

theorem goFields_cons_nonspace (c : Char) (rest : Bytes)
    (hc : isSpaceB c = false) :
    goFields (c :: rest) =
      match goFields rest with
      | [] => [[c]]
      | f :: fs =>
        match rest with
        | [] => [[c]]
        | r0 :: _ => if isSpaceB r0 then [c] :: f :: fs else (c :: f) :: fs := by
  conv_lhs => unfold goFields
  rw [if_neg (by simp [hc])]
  rfl

theorem goFields_cons_space (c : Char) (rest : Bytes)
    (hc : isSpaceB c = true) : goFields (c :: rest) = goFields rest := by
  conv_lhs => unfold goFields
  rw [if_pos hc]

theorem goFields_token {t : Bytes} (ht : ∀ c ∈ t, isSpaceB c = false)
    (hne : t ≠ []) (rest : Bytes)
    (hrest : rest = [] ∨ isSpaceB (rest.headD ' ') = true) :
    goFields (t ++ rest) = t :: goFields rest := by
  induction t with
  | nil => exact absurd rfl hne
  | cons c t' ih =>
    have hcs : isSpaceB c = false := ht c (List.mem_cons_self _ _)
    cases t' with
    | nil =>
      show goFields (c :: rest) = [c] :: goFields rest
      rw [goFields_cons_nonspace c rest hcs]
      cases rest with
      | nil => rfl
      | cons r0 rr =>
        rcases hrest with h | h
        · exact absurd h (by simp)
        · simp only [List.headD_cons] at h
          cases hgf : goFields (r0 :: rr) with
          | nil => rfl
          | cons f fs =>
            show (if isSpaceB r0 then [c] :: f :: fs else (c :: f) :: fs)
              = [c] :: f :: fs
            rw [if_pos h]
    | cons d t'' =>
      show goFields (c :: (d :: (t'' ++ rest))) = (c :: d :: t'') :: goFields rest
      rw [goFields_cons_nonspace c (d :: (t'' ++ rest)) hcs]
      have ih2 := ih (fun x hx => ht x (List.mem_cons_of_mem _ hx)) (by simp)
      rw [show (d :: t'') ++ rest = d :: (t'' ++ rest) by rfl] at ih2
      rw [ih2]
      have hds : isSpaceB d = false := ht d (by simp)
      show (if isSpaceB d then [c] :: (d :: t'') :: goFields rest
          else (c :: d :: t'') :: goFields rest) = (c :: d :: t'') :: goFields rest
      rw [if_neg (by simp [hds])]

theorem isSpaceB_of_digit {c : Char} (h : c.isDigit = true) :
    isSpaceB c = false := by
  have h1 : c ≠ ' ' := fun e => by rw [e] at h; simp [Char.isDigit] at h
  have h2 : c ≠ '\t' := fun e => by rw [e] at h; simp [Char.isDigit] at h
  have h3 : c ≠ '\r' := fun e => by rw [e] at h; simp [Char.isDigit] at h
  have h4 : c ≠ '\n' := fun e => by rw [e] at h; simp [Char.isDigit] at h
  simp [isSpaceB, h1, h2, h3, h4]

theorem goFields_header_line (name : String) (d : Bytes)
    (hn : ∀ c ∈ bytes name, isSpaceB c = false) (hns : bytes name ≠ [])
    (hd : ∀ c ∈ d, c.isDigit = true) (hdn : d ≠ []) :
    goFields (bytes (name ++ " ") ++ d ++ [linesepC]) = [bytes name, d] := by
  have hsplit : bytes (name ++ " ") = bytes name ++ [' '] := by
    simp [bytes]
  rw [hsplit, List.append_assoc, List.append_assoc]
  rw [goFields_token hn hns _ (Or.inr (by simp [isSpaceB]))]
  show bytes name :: goFields (' ' :: (d ++ [linesepC])) = [bytes name, d]
  rw [goFields_cons_space ' ' _ (by simp [isSpaceB])]
  rw [goFields_token (fun c hc => isSpaceB_of_digit (hd c hc)) hdn _
    (Or.inr (by simp [isSpaceB, linesepC]))]
  have hlast : goFields [linesepC] = [] := by
    rw [goFields_cons_space linesepC [] (by simp [isSpaceB, linesepC])]
    rfl
  rw [hlast]

/-! ## Helper lemmas: `NewSubversionRange` -/

theorem goSplitCh_ne_nil_early (sep : Char) (l : Bytes) : goSplitCh sep l ≠ [] := by
  cases l with
  | nil => simp [goSplitCh]
  | cons c r =>
    unfold goSplitCh
    split
    · simp
    · rcases goSplitCh sep r with _ | ⟨f, fs⟩ <;> simp

theorem mem_of_mem_goSplitCh {sep : Char} {l : Bytes} :
    ∀ {chunk}, chunk ∈ goSplitCh sep l → ∀ {c}, c ∈ chunk → c ∈ l := by
  induction l with
  | nil =>
    intro chunk hc c hcc
    simp [goSplitCh] at hc
    subst hc
    simp at hcc
  | cons x rest ih =>
    intro chunk hc c hcc
    unfold goSplitCh at hc
    split at hc
    · rcases List.mem_cons.mp hc with h | h
      · subst h; simp at hcc
      · exact List.mem_cons_of_mem _ (ih h hcc)
    · rcases hsp : goSplitCh sep rest with _ | ⟨ck, more⟩
      · exact absurd hsp (goSplitCh_ne_nil_early sep rest)
      · rw [hsp] at hc
        rcases List.mem_cons.mp hc with h | h
        · subst h
          rcases List.mem_cons.mp hcc with h2 | h2
          · simp [h2]
          · exact List.mem_cons_of_mem _
              (ih (by rw [hsp]; exact List.mem_cons_self _ _) h2)
        · exact List.mem_cons_of_mem _
            (ih (by rw [hsp]; exact List.mem_cons_of_mem _ h) hcc)

theorem containsSeq_single_iff (c : Char) (l : Bytes) :
    containsSeq [c] l = true ↔ c ∈ l := by
  induction l with
  | nil =>
    unfold containsSeq
    simp [List.isPrefixOf]
  | cons x r ih =>
    unfold containsSeq
    simp only [Bool.or_eq_true, ih, List.mem_cons]
    constructor
    · rintro (h | h)
      · left
        have h2 : (c == x) = true := by
          simpa [List.isPrefixOf] using h
        exact beq_iff_eq.mp h2
      · right; exact h
    · rintro (h | h)
      · left
        simp [List.isPrefixOf, h]
      · right; exact h

theorem goAtoi0_nonneg {l : Bytes} (h : '-' ∉ l) : 0 ≤ goAtoi0 l := by
  unfold goAtoi0 goAtoi
  split
  · simp
  · exact absurd (List.mem_cons_self _ _) h
  · split <;> simp
  · split <;> simp

theorem itemLower_nonneg {item : Bytes} (h : containsSeq (bytes "-") item = false) :
    0 ≤ itemLower item := by
  have hnm : '-' ∉ item := by
    intro hmem
    rw [show (bytes "-") = ['-'] from rfl] at h
    rw [(containsSeq_single_iff '-' item).mpr hmem] at h
    exact absurd h (by simp)
  unfold itemLower
  split
  · refine goAtoi0_nonneg fun hc => hnm ?_
    have hmem : (goSplitCh ':' item).headD [] ∈ goSplitCh ':' item := by
      rcases hs : goSplitCh ':' item with _ | ⟨f, fs⟩
      · exact absurd hs (goSplitCh_ne_nil_early ':' item)
      · simp
    exact mem_of_mem_goSplitCh hmem hc
  · exact goAtoi0_nonneg hnm

theorem parseRangeItem_lower {item : Bytes} {p : Int × Int}
    (h : parseRangeItem item = some p) : p.1 = itemLower item := by
  unfold parseRangeItem at h
  unfold itemLower
  by_cases hcolon : containsSeq (bytes ":") item = true
  · rw [if_pos hcolon] at h
    rw [if_pos hcolon]
    split at h
    · exact absurd h (by simp)
    · injection h with h2
      rw [← h2]
  · rw [if_neg hcolon] at h
    rw [if_neg hcolon]
    injection h with h2
    rw [← h2]

theorem parseRangeItem_none_iff {item : Bytes} :
    parseRangeItem item = none ↔
      (containsSeq (bytes ":") item = true
       ∧ (goSplitCh ':' item).headD [] = bytes "HEAD") := by
  unfold parseRangeItem
  by_cases hcolon : containsSeq (bytes ":") item = true
  · rw [if_pos hcolon]
    split
    · next hh => exact iff_of_true rfl ⟨hcolon, hh⟩
    · next hh => exact iff_of_false (by simp) fun hcon => hh hcon.2
  · rw [if_neg hcolon]
    exact iff_of_false (by simp) fun hcon => absurd hcon.1 hcolon

theorem itemOk_iff {item : Bytes} :
    itemOk item = true ↔
      (containsSeq (bytes "-") item = false ∧ parseRangeItem item ≠ none) := by
  unfold itemOk
  rw [Ne, parseRangeItem_none_iff]
  by_cases hdash : containsSeq (bytes "-") item = true
  · simp [hdash]
  · rw [Bool.not_eq_true] at hdash
    simp only [hdash, Bool.not_false, Bool.true_and]
    by_cases hcolon : containsSeq (bytes ":") item = true
    · simp [hcolon]
    · rw [Bool.not_eq_true] at hcolon
      simp [hcolon]

theorem rangeItemsLoop_ok_iff :
    ∀ (items : List Bytes) (ub : Int) (acc : List (Int × Int)),
      (∃ s, rangeItemsLoop items ub acc = .ok s) ↔ monoFrom ub items = true := by
  intro items
  induction items with
  | nil =>
    intro ub acc
    simp [rangeItemsLoop, monoFrom]
  | cons item rest ih =>
    intro ub acc
    unfold rangeItemsLoop monoFrom
    by_cases hdash : containsSeq (bytes "-") item = true
    · rw [if_pos hdash]
      have hok : itemOk item = false := by
        rcases hok2 : itemOk item with _ | _
        · rfl
        · rw [itemOk_iff] at hok2
          rw [hok2.1] at hdash
          exact absurd hdash (by simp)
      rw [hok]
      simp
    · rw [if_neg hdash]
      rw [Bool.not_eq_true] at hdash
      rcases hp : parseRangeItem item with _ | p
      · have hok : itemOk item = false := by
          rcases hok2 : itemOk item with _ | _
          · rfl
          · rw [itemOk_iff] at hok2
            exact absurd hp hok2.2
        rw [hok]
        simp
      · have hok : itemOk item = true := itemOk_iff.mpr ⟨hdash, by rw [hp]; simp⟩
        have hlow := parseRangeItem_lower hp
        rw [hok]
        have hred : (match some p with
            | none => Except.error ()
            | some p => if p.1 ≥ ub then rangeItemsLoop rest p.1 (acc ++ [p])
                        else Except.error ()) =
            if p.1 ≥ ub then rangeItemsLoop rest p.1 (acc ++ [p])
            else Except.error (ε := Unit) () := rfl
        rw [hred]
        by_cases hmono : p.1 ≥ ub
        · rw [if_pos hmono]
          rw [ih p.1 (acc ++ [p])]
          have hd : decide (ub ≤ itemLower item) = true := by
            simp only [decide_eq_true_eq]
            rw [← hlow]
            exact hmono
          rw [hd, hlow]
          simp
        · rw [if_neg hmono]
          constructor
          · rintro ⟨s, hs⟩
            exact absurd hs (by simp)
          · intro hcon
            simp only [Bool.and_eq_true, decide_eq_true_eq] at hcon
            rw [← hlow] at hcon
            exact absurd hcon.1.2 hmono

theorem monoFrom_iff_chain (items : List Bytes) :
    ∀ ub : Int, monoFrom ub items = true ↔
      (∀ i ∈ items, itemOk i = true)
      ∧ List.Chain' (· ≤ ·) (ub :: items.map itemLower) := by
  induction items with
  | nil =>
    intro ub
    simp [monoFrom]
  | cons item rest ih =>
    intro ub
    unfold monoFrom
    simp only [Bool.and_eq_true, decide_eq_true_eq, List.map_cons,
      List.chain'_cons, List.mem_cons]
    rw [ih (itemLower item)]
    constructor
    · rintro ⟨⟨hok, hle⟩, hall, hch⟩
      refine ⟨fun i hi => ?_, hle, hch⟩
      rcases hi with rfl | hi
      · exact hok
      · exact hall i hi
    · rintro ⟨hall, hle, hch⟩
      exact ⟨⟨hall item (Or.inl rfl), hle⟩, fun i hi => hall i (Or.inr hi), hch⟩

/-! ## Helper lemmas: `goSplitCh` on an embedded separator -/

theorem goSplitCh_sep_append {sep : Char} {a : Bytes} (h : sep ∉ a)
    (rest : Bytes) :
    goSplitCh sep (a ++ sep :: rest) = a :: goSplitCh sep rest := by
  induction a with
  | nil =>
    show goSplitCh sep (sep :: rest) = [] :: goSplitCh sep rest
    conv_lhs => unfold goSplitCh
    rw [if_pos rfl]
  | cons c a' ih =>
    have hc : c ≠ sep := fun e => h (by rw [e]; exact List.mem_cons_self _ _)
    show goSplitCh sep (c :: (a' ++ sep :: rest)) = (c :: a') :: goSplitCh sep rest
    conv_lhs => unfold goSplitCh
    rw [if_neg hc]
    rw [ih fun hx => h (List.mem_cons_of_mem _ hx)]

theorem goSplitCh_no_sep {sep : Char} {a : Bytes} (h : sep ∉ a) :
    goSplitCh sep a = [a] := by
  induction a with
  | nil => rfl
  | cons c a' ih =>
    have hc : c ≠ sep := fun e => h (by rw [e]; exact List.mem_cons_self _ _)
    conv_lhs => unfold goSplitCh
    rw [if_neg hc, ih fun hx => h (List.mem_cons_of_mem _ hx)]

theorem mapGet_mapSet_self (m : List (Bytes × Bytes)) (k v : Bytes) :
    mapGet (mapSet m k v) k = some v := by
  induction m with
  | nil => simp [mapSet, mapGet]
  | cons kv rest ih =>
    obtain ⟨k', v'⟩ := kv
    show mapGet (mapSet ((k', v') :: rest) k v) k = some v
    unfold mapSet
    by_cases hk : k' = k
    · rw [if_pos hk]
      unfold mapGet
      rw [if_pos hk]
    · rw [if_neg hk]
      unfold mapGet
      rw [if_neg hk]
      exact ih

/-! ## Claim C4 — `SetLength` missing-header policy

The test suite (`TestSetLength`, repocutter_test.go) demands: replacing
an existing length header rewrites only its numeric operand; setting a
missing header to 0 inserts nothing; setting a missing header to a
nonzero value appends the header line.  The `SetLength` in
repocutter.go is a bare `ReplaceAll` that can only rewrite an existing
line, so the third behaviour is absent: the code contradicts its own
test. -/

set_option maxRecDepth 4096

/-- C4: on a node header with no `Text-content-length` line, `SetLength`
with value 0 returns the header unchanged and `SetLength` with the
nonzero value 23 *also* returns it unchanged — it does not append the
header line its own test (`TestSetLength`, case "Add length header not
present") expects; on a header that has the line, only the numeric
operand is replaced.  This confirms parts one and three of the claim
and refutes the appending part: the code contradicts its own test
(code bug). -/
theorem C4_SetLength_never_appends :
    SetLength "Text-content" testHdrAbsent 0 = testHdrAbsent
    ∧ SetLength "Text-content" testHdrAbsent 23 = testHdrAbsent
    ∧ SetLength "Text-content" testHdrAbsent 23 ≠ testHdrAbsentAfter
    ∧ SetLength "Text-content" testHdrPresent 23 = testHdrPresentAfter := by
  refine ⟨by decide, by decide, by decide, by decide⟩

/-! ## Claim C6 — `NewSubversionRange` validation -/

/-- C6 counterexample: the spec `1:5,3:4` has a second interval
entirely inside the first — they share, e.g., revision 3 — yet
`NewSubversionRange` accepts it, refuting the claim that construction
fails on every overlapping spec.  (Only *decreasing lower endpoints*
are rejected.) -/
theorem C6_overlap_is_accepted :
    NewSubversionRange (bytes "1:5,3:4") = .ok { intervals := [(1, 5), (3, 4)] }
    ∧ SubversionRange.ContainsRev { intervals := [(1, 5)] } 3 = true
    ∧ SubversionRange.ContainsRev { intervals := [(3, 4)] } 3 = true :=
  ⟨rfl, rfl, rfl⟩

/-- C6 amended: construction of a `SubversionRange` succeeds exactly
when every comma-separated item is free of `-` and does not use `HEAD`
as a lower bound, and the lower endpoints of the items are
non-decreasing; overlap of consecutive intervals is not checked.
Failure is `croak`, which exits with status 1. -/
theorem C6_construction_succeeds_iff (txt : Bytes) :
    (∃ s, NewSubversionRange txt = .ok s) ↔
      ((∀ item ∈ goSplitCh ',' txt, itemOk item = true)
       ∧ ((goSplitCh ',' txt).map itemLower).Chain' (· ≤ ·)) := by
  have hmap : (∃ s, NewSubversionRange txt = .ok s) ↔
      (∃ t, rangeItemsLoop (goSplitCh ',' txt) 0 [] = .ok t) := by
    unfold NewSubversionRange
    cases rangeItemsLoop (goSplitCh ',' txt) 0 [] with
    | error e => simp [Except.map]
    | ok t => simp [Except.map]
  rw [hmap, rangeItemsLoop_ok_iff, monoFrom_iff_chain]
  constructor
  · rintro ⟨hall, hch⟩
    refine ⟨hall, ?_⟩
    rcases hsp : (goSplitCh ',' txt).map itemLower with _ | ⟨x, ls⟩
    · exact List.chain'_nil
    · rw [hsp] at hch
      exact (List.chain'_cons.mp hch).2
  · rintro ⟨hall, hch⟩
    refine ⟨hall, ?_⟩
    rcases hsp : (goSplitCh ',' txt).map itemLower with _ | ⟨x, ls⟩
    · simp
    · rw [List.chain'_cons]
      rw [hsp] at hch
      refine ⟨?_, hch⟩
      obtain ⟨item, rest2, hitems, hx, -⟩ := List.map_eq_cons_iff.mp hsp
      have hokitem : itemOk item = true := hall item (by rw [hitems]; simp)
      have hdash : containsSeq (bytes "-") item = false :=
        (itemOk_iff.mp hokitem).1
      rw [← hx]
      exact itemLower_nonneg hdash

/-! ## Claim C10 — `propset` and values containing `=` -/

/-- C10: for a propset argument `NAME=V1=V2` whose value part contains a
further `=`, the hook stores only `V1` — the text between the first and
second `=` — as the value of `NAME`; everything after the second `=` is
silently discarded. -/
theorem C10_propset_truncates_value_at_second_equals
    (name v1 v2 : Bytes) (props : Properties) (rev : Int)
    (hn : '=' ∉ name) (h1 : '=' ∉ v1) :
    mapGet (propsetRevhook [name ++ '=' :: (v1 ++ '=' :: v2)] rev props).properties
      name = some v1 := by
  unfold propsetRevhook
  simp only [List.foldl_cons, List.foldl_nil]
  rw [goSplitCh_sep_append hn, goSplitCh_sep_append h1]
  simp only [List.headD_cons]
  have hget : ((name :: v1 :: goSplitCh '=' v2).get? 1).getD [] = v1 := rfl
  rw [hget]
  by_cases hpresent : (mapGet props.properties name).isSome = true
  · rw [if_pos hpresent]
    exact mapGet_mapSet_self _ _ _
  · rw [if_neg hpresent]
    exact mapGet_mapSet_self _ _ _

/-- C10 witness: the argument `k=a=b` sets property `k` to `a`, not
`a=b`. -/
theorem C10_witness :
    mapGet (propsetRevhook [bytes "k=a=b"] 0
        { properties := [], propkeys := [], propdelkeys := [] }).properties
      (bytes "k") = some (bytes "a") :=
  C10_propset_truncates_value_at_second_equals (bytes "k") (bytes "a") (bytes "b")
    { properties := [], propkeys := [], propdelkeys := [] } 0
    (by decide) (by decide)

/-! ## Claim C9 — `strip` preserves symbolic links -/

/-- C9: the `strip` node hook emits a node whose content begins with
the ASCII token `link ` entirely unchanged (header bytes — hence length
and checksum headers — properties, and content); a node with empty
content is also unchanged; and only a node with other nonempty content
(that is selected by the path patterns) has its content replaced by the
diagnostic string quoting revision and path, with the length headers
rewritten and the checksums stripped. -/
theorem C9_strip_preserves_links (patterns : List (Bytes → Bool))
    (rev idx : Int) (h p c : Bytes) :
    ((bytes "link ").isPrefixOf c = true →
        innerstrip patterns rev idx h p c = h ++ p ++ c)
    ∧ (c = [] → innerstrip patterns rev idx h p c = h ++ p ++ c)
    ∧ ((bytes "link ").isPrefixOf c = false → c ≠ [] →
        stripSelected patterns h = true →
        innerstrip patterns rev idx h p c =
          stripChecksums (SetLength "Content"
              (SetLength "Text-content" h (stripTell rev h).length)
              (p.length + (stripTell rev h).length))
            ++ p ++ stripTell rev h) := by
  refine ⟨?_, ?_, ?_⟩
  · intro hlink
    simp [innerstrip, hlink]
  · intro hc
    subst hc
    simp [innerstrip]
  · intro hlink hc hsel
    have hlen : c.length > 0 := List.length_pos.mpr hc
    simp [innerstrip, hlink, hsel, hlen]

/-- C9 witness: a symlink node passes through `strip` byte-identical,
and an ordinary node's content is replaced by the diagnostic cookie. -/
theorem C9_witness :
    innerstrip [] 3 1 (bytes "Node-path: trunk/s\nText-content-length: 11\nContent-length: 11\n\n")
        [] (bytes "link target")
      = bytes "Node-path: trunk/s\nText-content-length: 11\nContent-length: 11\n\n"
        ++ [] ++ bytes "link target"
    ∧ innerstrip [] 3 1 (bytes "Node-path: trunk/f\nText-content-length: 2\nContent-length: 2\n\n")
        [] (bytes "hi")
      = stripChecksums (SetLength "Content"
            (SetLength "Text-content"
              (bytes "Node-path: trunk/f\nText-content-length: 2\nContent-length: 2\n\n")
              (stripTell 3 (bytes "Node-path: trunk/f\nText-content-length: 2\nContent-length: 2\n\n")).length)
            (List.length ([] : Bytes)
              + (stripTell 3 (bytes "Node-path: trunk/f\nText-content-length: 2\nContent-length: 2\n\n")).length))
          ++ [] ++ stripTell 3 (bytes "Node-path: trunk/f\nText-content-length: 2\nContent-length: 2\n\n") :=
  ⟨(C9_strip_preserves_links [] 3 1 _ [] _).1 (by decide),
   (C9_strip_preserves_links [] 3 1 _ [] _).2.2 (by decide) (by decide) (by decide)⟩

/-! ## Helper lemmas: line-buffered source computation toolkit -/

theorem readBytesNl_nl (r : Bytes) : readBytesNl ('\n' :: r) = (['\n'], r, true) := by
  unfold readBytesNl
  rw [if_pos rfl]

theorem readBytesNl_append {a : Bytes} (ha : '\n' ∉ a) {l d r : Bytes} {f : Bool}
    (h : readBytesNl l = (d, r, f)) : readBytesNl (a ++ l) = (a ++ d, r, f) := by
  induction a with
  | nil => simpa using h
  | cons c a' ih =>
    have hc : c ≠ '\n' := fun e => ha (by rw [e]; exact List.mem_cons_self _ _)
    show readBytesNl (c :: (a' ++ l)) = (c :: (a' ++ d), r, f)
    unfold readBytesNl
    rw [if_neg hc, ih fun hx => ha (List.mem_cons_of_mem _ hx)]

theorem readBytesNl_line {a : Bytes} (ha : '\n' ∉ a) (rest : Bytes) :
    readBytesNl (a ++ '\n' :: rest) = (a ++ ['\n'], rest, true) :=
  readBytesNl_append ha (readBytesNl_nl rest)

theorem readBytesNl_eof {a : Bytes} (ha : '\n' ∉ a) :
    readBytesNl a = (a, [], false) := by
  have h2 := @readBytesNl_append a ha [] [] [] false rfl
  simpa using h2

theorem Peek_eq {s d r : Bytes} {f : Bool} (h : readBytesNl s = (d, r, f))
    (buf : Bytes) :
    LineBufferedSource.Peek ⟨buf, s⟩ = (d, ⟨d, r⟩) := by
  unfold LineBufferedSource.Peek
  rw [h]

theorem Readline_buffered {buf : Bytes} (h : buf ≠ []) (s : Bytes) :
    LineBufferedSource.Readline ⟨buf, s⟩ = (buf, ⟨[], s⟩) := by
  unfold LineBufferedSource.Readline
  rw [if_pos (by simpa using h)]

theorem Readline_found {s d r : Bytes} (h : readBytesNl s = (d, r, true)) :
    LineBufferedSource.Readline ⟨[], s⟩ = (d, ⟨[], r⟩) := by
  unfold LineBufferedSource.Readline
  rw [if_neg (by simp), h]
  rfl

theorem Readline_eof {s d r : Bytes} (h : readBytesNl s = (d, r, false)) :
    LineBufferedSource.Readline ⟨[], s⟩ = ([], ⟨[], []⟩) := by
  unfold LineBufferedSource.Readline
  rw [if_neg (by simp), h]
  simp

theorem Require_ok {lbs lbs' : LineBufferedSource} {pre : String} {line : Bytes}
    (h : lbs.Readline = (line, lbs'))
    (hp : (bytes pre).isPrefixOf line = true) :
    lbs.Require pre = .ok (line, lbs') := by
  unfold LineBufferedSource.Require
  rw [h]
  show (if (bytes pre).isPrefixOf line = true then Except.ok (line, lbs')
        else Except.error ()) = Except.ok (line, lbs')
  rw [if_pos hp]

theorem Read_exact (val t : Bytes) :
    LineBufferedSource.Read ⟨[], val ++ t⟩ (val.length : Int) = .ok (val, ⟨[], t⟩) := by
  unfold LineBufferedSource.Read
  rw [if_neg (by simp), if_neg (by simp), if_neg (by simp)]
  simp

theorem isPrefixOf_cons_ne {a b : Char} (h : a ≠ b) (as bs : Bytes) :
    (a :: as).isPrefixOf (b :: bs) = false := by
  simp [List.isPrefixOf, h]

theorem isPrefixOf_of_split {pat l x : Bytes} (h : l = pat ++ x) :
    pat.isPrefixOf l = true := by
  rw [h]
  exact isPrefixOf_append_self _ _

theorem dropWhile_nl_of_not_mem {l : Bytes} (h : '\n' ∉ l) :
    l.dropWhile (· = '\n') = l := by
  cases l with
  | nil => rfl
  | cons c t =>
    have hc : ¬(c = '\n') := fun e => h (e ▸ List.mem_cons_self _ _)
    rw [List.dropWhile_cons, if_neg (by simpa using hc)]

theorem trimNlRight_line {key : Bytes} (h : '\n' ∉ key) :
    trimNlRight (key ++ ['\n']) = key := by
  unfold trimNlRight
  rw [List.reverse_append]
  show (('\n' :: key.reverse).dropWhile (· = '\n')).reverse = key
  rw [List.dropWhile_cons, if_pos (by decide),
      dropWhile_nl_of_not_mem (by simpa using h), List.reverse_reverse]

/-! ## Helper lemmas: property-block round trip (C2) -/

theorem nl_not_mem_natDigits (n : Nat) : '\n' ∉ natDigits n := fun h =>
  absurd (natDigits_all_digit n '\n' h) (by decide)

theorem pe_notPrefix_K (x : Bytes) :
    (bytes "PROPS-END").isPrefixOf ('K' :: x) = false := rfl

theorem pe_notPrefix_D (x : Bytes) :
    (bytes "PROPS-END").isPrefixOf ('D' :: x) = false := rfl

theorem dsp_notPrefix_K (x : Bytes) :
    (bytes "D ").isPrefixOf ('K' :: x) = false := rfl

theorem dsp_prefix_D (x : Bytes) :
    (bytes "D ").isPrefixOf ('D' :: ' ' :: x) = true := by
  have h : ('D' :: ' ' :: x : Bytes) = bytes "D " ++ x := rfl
  rw [h]
  exact isPrefixOf_append_self _ _

theorem kp_prefix_K (x : Bytes) :
    (bytes "K").isPrefixOf ('K' :: x) = true := by
  have h : ('K' :: x : Bytes) = bytes "K" ++ x := rfl
  rw [h]
  exact isPrefixOf_append_self _ _

theorem dp_prefix_D (x : Bytes) :
    (bytes "D").isPrefixOf ('D' :: x) = true := by
  have h : ('D' :: x : Bytes) = bytes "D" ++ x := rfl
  rw [h]
  exact isPrefixOf_append_self _ _

theorem vp_prefix_V (x : Bytes) :
    (bytes "V").isPrefixOf ('V' :: x) = true := by
  have h : ('V' :: x : Bytes) = bytes "V" ++ x := rfl
  rw [h]
  exact isPrefixOf_append_self _ _

theorem newPropsLoop_K_step (fuel : Nat) (props : Properties) (k v rest : Bytes)
    (hk : '\n' ∉ k) :
    newPropsLoop (fuel + 1) props ⟨[], serK (k, v) ++ rest⟩
      = newPropsLoop fuel
          { props with properties := mapSet props.properties k v,
                       propkeys := props.propkeys ++ [k] } ⟨[], rest⟩ := by
  have hdk := nl_not_mem_natDigits k.length
  have hdv := nl_not_mem_natDigits v.length
  have hs : serK (k, v) ++ rest
      = 'K' :: ' ' :: (natDigits k.length ++ '\n'
          :: (k ++ '\n' :: ('V' :: ' ' :: (natDigits v.length ++ '\n'
          :: (v ++ '\n' :: rest))))) := by
    simp only [serK, linesepC, List.append_assoc, List.cons_append,
      List.singleton_append]
    rfl
  rw [hs]
  set T3 := v ++ '\n' :: rest with hT3
  set T2 := 'V' :: ' ' :: (natDigits v.length ++ '\n' :: T3) with hT2
  set T1 := k ++ '\n' :: T2 with hT1
  have hpeek : LineBufferedSource.Peek
        ⟨[], 'K' :: ' ' :: (natDigits k.length ++ '\n' :: T1)⟩
      = ('K' :: ' ' :: (natDigits k.length ++ ['\n']),
         ⟨'K' :: ' ' :: (natDigits k.length ++ ['\n']), T1⟩) :=
    Peek_eq (readBytesNl_append (show ('\n' : Char) ∉ ['K', ' '] by decide)
      (readBytesNl_line hdk T1)) []
  simp only [newPropsLoop, hpeek]
  rw [if_neg (by simp [pe_notPrefix_K]), if_neg (by simp [dsp_notPrefix_K])]
  have hreqK : LineBufferedSource.Require
        ⟨'K' :: ' ' :: (natDigits k.length ++ ['\n']), T1⟩ "K"
      = .ok ('K' :: ' ' :: (natDigits k.length ++ ['\n']), ⟨[], T1⟩) :=
    Require_ok (Readline_buffered (List.cons_ne_nil _ _) T1) (kp_prefix_K _)
  simp only [hreqK]
  have hrlKey : LineBufferedSource.Readline ⟨[], T1⟩ = (k ++ ['\n'], ⟨[], T2⟩) := by
    rw [hT1]
    exact Readline_found (readBytesNl_line hk T2)
  simp only [hrlKey, trimNlRight_line hk]
  have hreqV : LineBufferedSource.Require ⟨[], T2⟩ "V"
      = .ok ('V' :: ' ' :: (natDigits v.length ++ ['\n']), ⟨[], T3⟩) := by
    rw [hT2]
    exact Require_ok (Readline_found (readBytesNl_append
        (show ('\n' : Char) ∉ ['V', ' '] by decide) (readBytesNl_line hdv T3)))
      (vp_prefix_V _)
  simp only [hreqV]
  have hfields : (goFields ('V' :: ' ' :: (natDigits v.length ++ ['\n']))).get? 1
      = some (natDigits v.length) := by
    have h : goFields ('V' :: ' ' :: (natDigits v.length ++ ['\n']))
        = [bytes "V", natDigits v.length] :=
      goFields_header_line "V" (natDigits v.length) (by decide) (by decide)
        (natDigits_all_digit _) (natDigits_ne_nil _)
    rw [h]
    rfl
  simp only [hfields, goAtoi0_natDigits]
  have hread : LineBufferedSource.Read ⟨[], T3⟩ ((v.length : Nat) : Int)
      = .ok (v, ⟨[], '\n' :: rest⟩) := by
    rw [hT3]
    exact Read_exact v ('\n' :: rest)
  simp only [hread]
  have hreqNl : LineBufferedSource.Require ⟨[], '\n' :: rest⟩ "\n"
      = .ok (['\n'], ⟨[], rest⟩) :=
    Require_ok (Readline_found (readBytesNl_nl rest)) rfl
  simp only [hreqNl]

theorem newPropsLoop_D_step (fuel : Nat) (props : Properties) (k rest : Bytes)
    (hk : '\n' ∉ k) :
    newPropsLoop (fuel + 1) props ⟨[], serD k ++ rest⟩
      = newPropsLoop fuel
          { props with propdelkeys := props.propdelkeys ++ [k] } ⟨[], rest⟩ := by
  have hdk := nl_not_mem_natDigits k.length
  have hs : serD k ++ rest
      = 'D' :: ' ' :: (natDigits k.length ++ '\n' :: (k ++ '\n' :: rest)) := by
    simp only [serD, linesepC, List.append_assoc, List.cons_append,
      List.singleton_append]
    rfl
  rw [hs]
  set T1 := k ++ '\n' :: rest with hT1
  have hpeek : LineBufferedSource.Peek
        ⟨[], 'D' :: ' ' :: (natDigits k.length ++ '\n' :: T1)⟩
      = ('D' :: ' ' :: (natDigits k.length ++ ['\n']),
         ⟨'D' :: ' ' :: (natDigits k.length ++ ['\n']), T1⟩) :=
    Peek_eq (readBytesNl_append (show ('\n' : Char) ∉ ['D', ' '] by decide)
      (readBytesNl_line hdk T1)) []
  simp only [newPropsLoop, hpeek]
  rw [if_neg (by simp [pe_notPrefix_D]), if_pos (by simp [dsp_prefix_D])]
  have hreqD : LineBufferedSource.Require
        ⟨'D' :: ' ' :: (natDigits k.length ++ ['\n']), T1⟩ "D"
      = .ok ('D' :: ' ' :: (natDigits k.length ++ ['\n']), ⟨[], T1⟩) :=
    Require_ok (Readline_buffered (List.cons_ne_nil _ _) T1) (dp_prefix_D _)
  simp only [hreqD]
  have hrlKey : LineBufferedSource.Readline ⟨[], T1⟩ = (k ++ ['\n'], ⟨[], rest⟩) := by
    rw [hT1]
    exact Readline_found (readBytesNl_line hk rest)
  simp only [hrlKey, trimNlRight_line hk]

theorem newPropsLoop_end_step (fuel : Nat) (props : Properties) (tail : Bytes) :
    newPropsLoop (fuel + 1) props ⟨[], bytes "PROPS-END\n" ++ tail⟩
      = .ok (props, ⟨[], tail⟩) := by
  have hpeek : LineBufferedSource.Peek ⟨[], bytes "PROPS-END\n" ++ tail⟩
      = (bytes "PROPS-END" ++ ['\n'], ⟨bytes "PROPS-END" ++ ['\n'], tail⟩) :=
    Peek_eq (readBytesNl_line (show ('\n' : Char) ∉ bytes "PROPS-END" by decide)
      tail) []
  simp only [newPropsLoop, hpeek]
  rw [if_pos (isPrefixOf_append_self _ _)]
  rfl

theorem newPropsLoop_serProps (ks : List (Bytes × Bytes)) (ds : List Bytes) :
    ∀ (fuel : Nat) (props : Properties) (tail : Bytes),
    (∀ kv ∈ ks, '\n' ∉ kv.1) → (∀ d ∈ ds, '\n' ∉ d) →
    ks.length + ds.length < fuel →
    newPropsLoop fuel props ⟨[], serProps ks ds ++ tail⟩
      = .ok ({ properties := ks.foldl (fun m kv => mapSet m kv.1 kv.2) props.properties,
               propkeys := props.propkeys ++ ks.map Prod.fst,
               propdelkeys := props.propdelkeys ++ ds }, ⟨[], tail⟩) := by
  induction ks with
  | nil =>
    induction ds with
    | nil =>
      intro fuel props tail _ _ hfuel
      cases fuel with
      | zero => omega
      | succ f =>
        have hs : serProps [] [] ++ tail = bytes "PROPS-END\n" ++ tail := by
          simp [serProps]
        rw [hs, newPropsLoop_end_step]
        simp
    | cons d ds ihd =>
      intro fuel props tail hks hds hfuel
      cases fuel with
      | zero => omega
      | succ f =>
        have hs : serProps [] (d :: ds) ++ tail = serD d ++ (serProps [] ds ++ tail) := by
          simp [serProps, List.append_assoc]
        rw [hs, newPropsLoop_D_step f props d _ (hds d (List.mem_cons_self _ _))]
        rw [ihd f _ tail hks (fun x hx => hds x (List.mem_cons_of_mem _ hx))
          (by simp at hfuel ⊢; omega)]
        simp [List.append_assoc]
  | cons kv ks ih =>
    intro fuel props tail hks hds hfuel
    cases fuel with
    | zero => omega
    | succ f =>
      obtain ⟨k, v⟩ := kv
      have hs : serProps ((k, v) :: ks) ds ++ tail
          = serK (k, v) ++ (serProps ks ds ++ tail) := by
        simp [serProps, List.append_assoc]
      rw [hs, newPropsLoop_K_step f props k v _ (hks (k, v) (List.mem_cons_self _ _))]
      rw [ih f _ tail (fun x hx => hks x (List.mem_cons_of_mem _ hx)) hds
        (by simp at hfuel ⊢; omega)]
      simp [List.append_assoc]

theorem serK_len_pos (kv : Bytes × Bytes) : 1 ≤ (serK kv).length := by
  simp [serK, bytes]

theorem serD_len_pos (k : Bytes) : 1 ≤ (serD k).length := by
  simp [serD, bytes]

theorem length_le_flatten_map {α : Type} (f : α → Bytes)
    (h : ∀ x : α, 1 ≤ (f x).length) (l : List α) :
    l.length ≤ ((l.map f).flatten).length := by
  induction l with
  | nil => simp
  | cons a l ih =>
    have := h a
    simp only [List.map_cons, List.flatten_cons, List.length_append, List.length_cons]
    omega

theorem NewProperties_serProps (ks : List (Bytes × Bytes)) (ds : List Bytes)
    (tail : Bytes)
    (hks : ∀ kv ∈ ks, '\n' ∉ kv.1) (hds : ∀ d ∈ ds, '\n' ∉ d) :
    NewProperties ⟨[], serProps ks ds ++ tail⟩
      = .ok ({ properties := ks.foldl (fun m kv => mapSet m kv.1 kv.2) [],
               propkeys := ks.map Prod.fst,
               propdelkeys := ds }, ⟨[], tail⟩) := by
  unfold NewProperties
  show newPropsLoop ((serProps ks ds ++ tail).length + List.length ([] : Bytes) + 1)
      { properties := [], propkeys := [], propdelkeys := [] }
      ⟨[], serProps ks ds ++ tail⟩ = _
  have hlen : ks.length + ds.length
      < (serProps ks ds ++ tail).length + List.length ([] : Bytes) + 1 := by
    have h1 := length_le_flatten_map serK serK_len_pos ks
    have h2 := length_le_flatten_map serD serD_len_pos ds
    simp only [serProps, List.length_append, List.length_map] at h1 h2 ⊢
    omega
  rw [newPropsLoop_serProps ks ds _ _ tail hks hds hlen]
  rfl

theorem mapSet_fresh {m : List (Bytes × Bytes)} {k : Bytes} (v : Bytes)
    (h : ∀ kv ∈ m, kv.1 ≠ k) : mapSet m k v = m ++ [(k, v)] := by
  induction m with
  | nil => rfl
  | cons kv m ih =>
    obtain ⟨k2, v2⟩ := kv
    show (if k2 = k then (k2, v) :: m else (k2, v2) :: mapSet m k v) = _
    rw [if_neg (h (k2, v2) (List.mem_cons_self _ _))]
    rw [ih fun x hx => h x (List.mem_cons_of_mem _ hx)]
    simp

theorem foldl_mapSet_append (ks : List (Bytes × Bytes)) :
    ∀ acc : List (Bytes × Bytes),
    (∀ kv ∈ ks, ∀ kv2 ∈ acc, kv2.1 ≠ kv.1) →
    (ks.map Prod.fst).Nodup →
    ks.foldl (fun m kv => mapSet m kv.1 kv.2) acc = acc ++ ks := by
  induction ks with
  | nil => intro acc _ _; simp
  | cons kv ks ih =>
    intro acc hdisj hnd
    obtain ⟨k, v⟩ := kv
    show ks.foldl (fun m kv => mapSet m kv.1 kv.2) (mapSet acc k v)
        = acc ++ (k, v) :: ks
    rw [mapSet_fresh v (fun kv2 h2 => hdisj (k, v) (List.mem_cons_self _ _) kv2 h2)]
    have hk_notin : ∀ kv2 ∈ ks, k ≠ kv2.1 := by
      intro kv2 h2 he
      have : k ∈ ks.map Prod.fst := by
        rw [he]; exact List.mem_map_of_mem _ h2
      exact (List.nodup_cons.mp (by simpa using hnd)).1 this
    rw [ih (acc ++ [(k, v)])
      (fun kv2 h2 kv3 h3 => by
        rcases List.mem_append.mp h3 with h3 | h3
        · exact hdisj kv2 (List.mem_cons_of_mem _ h2) kv3 h3
        · have : kv3 = (k, v) := by simpa using h3
          rw [this]
          exact hk_notin kv2 h2)
      (List.nodup_cons.mp (by simpa using hnd)).2]
    simp

theorem mapGet_of_nodup (ks : List (Bytes × Bytes))
    (hnd : (ks.map Prod.fst).Nodup) :
    ∀ kv ∈ ks, mapGet ks kv.1 = some kv.2 := by
  induction ks with
  | nil => intro kv h; exact absurd h (List.not_mem_nil _)
  | cons kv0 ks ih =>
    intro kv h
    obtain ⟨k0, v0⟩ := kv0
    rcases List.mem_cons.mp h with h | h
    · rw [h]
      show (if k0 = k0 then some v0 else mapGet ks k0) = some v0
      rw [if_pos rfl]
    · have hne : k0 ≠ kv.1 := by
        intro he
        have : k0 ∈ ks.map Prod.fst := by
          rw [he]; exact List.mem_map_of_mem _ h
        exact (List.nodup_cons.mp (by simpa using hnd)).1 this
      show (if k0 = kv.1 then some v0 else mapGet ks kv.1) = some kv.2
      rw [if_neg hne]
      exact ih (List.nodup_cons.mp (by simpa using hnd)).2 kv h

theorem stringer_foldK (m : List (Bytes × Bytes)) :
    ∀ (ks : List (Bytes × Bytes)) (acc : Bytes),
    (∀ kv ∈ ks, mapGet m kv.1 = some kv.2) →
    (ks.map Prod.fst).foldl (fun acc key =>
        acc ++ bytes "K " ++ natDigits key.length ++ [linesepC]
            ++ key ++ [linesepC]
            ++ bytes "V " ++ natDigits ((mapGet m key).getD []).length ++ [linesepC]
            ++ ((mapGet m key).getD []) ++ [linesepC]) acc
      = acc ++ (ks.map serK).flatten := by
  intro ks
  induction ks with
  | nil => intro acc _; simp
  | cons kv ks ih =>
    intro acc hget
    obtain ⟨k, v⟩ := kv
    have hk : mapGet m k = some v := hget (k, v) (List.mem_cons_self _ _)
    simp only [List.map_cons, List.foldl_cons, hk, Option.getD_some]
    rw [ih _ (fun x hx => hget x (List.mem_cons_of_mem _ hx))]
    simp [serK, linesepC, List.append_assoc]

theorem stringer_foldD :
    ∀ (ds : List Bytes) (acc : Bytes),
    ds.foldl (fun acc key =>
        acc ++ bytes "D " ++ natDigits key.length ++ [linesepC]
            ++ key ++ [linesepC]) acc
      = acc ++ (ds.map serD).flatten := by
  intro ds
  induction ds with
  | nil => intro acc; simp
  | cons d ds ih =>
    intro acc
    simp only [List.foldl_cons]
    rw [ih]
    simp [serD, linesepC, List.append_assoc]

theorem Stringer_serProps (ks : List (Bytes × Bytes)) (ds : List Bytes)
    (hnd : (ks.map Prod.fst).Nodup) :
    Stringer (propsOf ks ds) = serProps ks ds := by
  unfold Stringer propsOf serProps
  rw [stringer_foldK ks ks [] (mapGet_of_nodup ks hnd), stringer_foldD ds []]
  simp [List.append_assoc]

/-- Claim C2, counterexample: the round trip is not the identity for every
interleaving of `K` and `D` entries.  A block whose `D` entry precedes its
`K` entry parses successfully, but `Stringer` re-serializes all `K` entries
before all `D` entries, so the output differs from the input. -/
theorem C2_D_before_K_not_stable :
    NewProperties ⟨[], bytes "D 1\na\nK 1\nb\nV 1\nc\nPROPS-END\n"⟩
      = .ok (⟨[(bytes "b", bytes "c")], [bytes "b"], [bytes "a"]⟩, ⟨[], []⟩)
    ∧ Stringer ⟨[(bytes "b", bytes "c")], [bytes "b"], [bytes "a"]⟩
      = bytes "K 1\nb\nV 1\nc\nD 1\na\nPROPS-END\n"
    ∧ bytes "K 1\nb\nV 1\nc\nD 1\na\nPROPS-END\n"
      ≠ bytes "D 1\na\nK 1\nb\nV 1\nc\nPROPS-END\n" :=
  ⟨rfl, rfl, by decide⟩

/-- Claim C2 (amended): parse-then-serialize reproduces the input exactly —
arbitrary byte values included — for well-formed blocks whose `K` entries
all precede the `D` entries (the order `Stringer` itself produces) and
whose keys are newline-free and distinct: `NewProperties` consumes exactly
the block, returning the expected property table, and `Stringer` maps that
table back to the original bytes. -/
theorem C2_parse_serialize_roundtrip (ks : List (Bytes × Bytes)) (ds : List Bytes)
    (tail : Bytes)
    (hks : ∀ kv ∈ ks, '\n' ∉ kv.1) (hds : ∀ d ∈ ds, '\n' ∉ d)
    (hnd : (ks.map Prod.fst).Nodup) :
    NewProperties ⟨[], serProps ks ds ++ tail⟩ = .ok (propsOf ks ds, ⟨[], tail⟩)
    ∧ Stringer (propsOf ks ds) = serProps ks ds := by
  constructor
  · rw [NewProperties_serProps ks ds tail hks hds]
    have h := foldl_mapSet_append ks [] (by simp) hnd
    simp only [List.nil_append] at h
    rw [h]
    rfl
  · exact Stringer_serProps ks ds hnd

/-- Witness for `C2_parse_serialize_roundtrip` at a concrete block with a
non-ASCII value byte. -/
theorem C2_witness :
    ((∀ kv ∈ ([(bytes "b", ['é'])] : List (Bytes × Bytes)), '\n' ∉ kv.1)
      ∧ (∀ d ∈ [bytes "a"], '\n' ∉ d)
      ∧ (([(bytes "b", ['é'])] : List (Bytes × Bytes)).map Prod.fst).Nodup)
    ∧ (NewProperties ⟨[], serProps [(bytes "b", ['é'])] [bytes "a"] ++ bytes "X"⟩
        = .ok (propsOf [(bytes "b", ['é'])] [bytes "a"], ⟨[], bytes "X"⟩)
      ∧ Stringer (propsOf [(bytes "b", ['é'])] [bytes "a"])
        = serProps [(bytes "b", ['é'])] [bytes "a"]) :=
  ⟨⟨by decide, by decide, by decide⟩,
   C2_parse_serialize_roundtrip _ _ _ (by decide) (by decide) (by decide)⟩

/-! ## Helper lemmas: header-value splicing (C8) -/

theorem take_len_append (l1 l2 : Bytes) : (l1 ++ l2).take l1.length = l1 := by
  simp

theorem drop_len_append (l1 l2 : Bytes) : (l1 ++ l2).drop l1.length = l2 := by
  simp

theorem spliceHeaderValue_at {htype : String} (mutate : Bytes → Bytes)
    {a val : Bytes} (tail : Bytes)
    (hc : cleanFor (bytes htype) a) (hval : '\n' ∉ val) :
    spliceHeaderValue htype mutate (a ++ (bytes htype ++ (val ++ '\n' :: tail)))
      = a ++ (bytes htype ++ (mutate val ++ '\n' :: tail)) := by
  have hidx : idxOfSeq (bytes htype) (a ++ (bytes htype ++ (val ++ '\n' :: tail)))
      = some a.length := by
    rw [idxOfSeq_skip hc, idxOfSeq_self]
    rfl
  have hlen1 : a.length + (bytes htype).length = (a ++ bytes htype).length :=
    (List.length_append _ _).symm
  have hdropOffs : (a ++ (bytes htype ++ (val ++ '\n' :: tail))).drop
        (a.length + (bytes htype).length) = val ++ '\n' :: tail := by
    rw [hlen1, ← List.append_assoc, drop_len_append]
  have hnl : idxOfSeq [linesepC] (val ++ '\n' :: tail) = some val.length :=
    idxOfSeq_nl_at hval tail
  have htake : (a ++ (bytes htype ++ (val ++ '\n' :: tail))).take
        (a.length + (bytes htype).length) = a ++ bytes htype := by
    rw [hlen1, ← List.append_assoc, take_len_append]
  have hafter : (a ++ (bytes htype ++ (val ++ '\n' :: tail))).drop
        (a.length + (bytes htype).length + val.length) = '\n' :: tail := by
    have h2 : a.length + (bytes htype).length + val.length
        = ((a ++ bytes htype) ++ val).length := by
      simp [List.length_append]
      omega
    have h3 : a ++ (bytes htype ++ (val ++ '\n' :: tail))
        = ((a ++ bytes htype) ++ val) ++ '\n' :: tail := by
      simp [List.append_assoc]
    rw [h2, h3, drop_len_append]
  have hpath : (val ++ '\n' :: tail).take val.length = val :=
    take_len_append val ('\n' :: tail)
  simp only [spliceHeaderValue, hidx, hdropOffs, hnl, htake, hafter, hpath]
  simp [List.append_assoc]

theorem spliceHeaderValue_head {htype : String} (mutate : Bytes → Bytes)
    {val : Bytes} (tail : Bytes) (hval : '\n' ∉ val) :
    spliceHeaderValue htype mutate (bytes htype ++ (val ++ '\n' :: tail))
      = bytes htype ++ (mutate val ++ '\n' :: tail) := by
  have h := spliceHeaderValue_at mutate tail (cleanFor_nil (bytes htype)) hval
  simpa using h

/-- Claim C8, counterexample: `pop` does not remove the first segment of
every individual path inside a multi-line `svn:mergeinfo` value.  The
revision hook applies `popSegment` once to the whole value, which merely
strips up to the first slash; per-path popping (the spec's reading,
`claimPopMergeinfo`) would also rewrite the second line. -/
theorem C8_mergeinfo_not_per_path :
    popRevhook 1
        ⟨[(bytes "svn:mergeinfo", bytes "/a/b:1-2\n/c/d:3-4")],
         [bytes "svn:mergeinfo"], []⟩
      = ⟨[(bytes "svn:mergeinfo", bytes "a/b:1-2\n/c/d:3-4")],
         [bytes "svn:mergeinfo"], []⟩
    ∧ claimPopMergeinfo (bytes "/a/b:1-2\n/c/d:3-4") = bytes "a/b:1-2\nc/d:3-4"
    ∧ bytes "a/b:1-2\n/c/d:3-4" ≠ bytes "a/b:1-2\nc/d:3-4" :=
  ⟨rfl, rfl, by decide⟩

/-- Claim C8 (amended): the node hook of `pop` rewrites the `Node-path`
and `Node-copyfrom-path` header values through `popSegment`, while the
revision hook applies `popSegment` once to the whole `svn:mergeinfo`
value rather than to each path listed in it. -/
theorem C8_pop_actual :
    (∀ (rev idx : Int) (p q mid post props content : Bytes),
      '\n' ∉ p → '\n' ∉ q →
      cleanFor (bytes "Node-copyfrom-path: ")
        (bytes "Node-path: " ++ (popSegment p ++ '\n' :: mid)) →
      popNodehook rev idx
          (bytes "Node-path: " ++ (p ++ '\n'
            :: (mid ++ (bytes "Node-copyfrom-path: " ++ (q ++ '\n' :: post)))))
          props content
        = (bytes "Node-path: " ++ (popSegment p ++ '\n'
            :: (mid ++ (bytes "Node-copyfrom-path: "
                ++ (popSegment q ++ '\n' :: post)))))
          ++ props ++ content)
    ∧ (∀ (rev : Int) (props : Properties) (v : Bytes),
        mapGet props.properties (bytes "svn:mergeinfo") = some v →
        popRevhook rev props
          = { props with properties := mapSet props.properties (bytes "svn:mergeinfo") (popSegment v) }) := by
  constructor
  · intro rev idx p q mid post props content hp hq hclean
    have h1 : spliceHeaderValue "Node-path: " popSegment
          (bytes "Node-path: " ++ (p ++ '\n'
            :: (mid ++ (bytes "Node-copyfrom-path: " ++ (q ++ '\n' :: post)))))
        = bytes "Node-path: " ++ (popSegment p ++ '\n'
            :: (mid ++ (bytes "Node-copyfrom-path: " ++ (q ++ '\n' :: post)))) :=
      spliceHeaderValue_head popSegment _ hp
    have hassoc : bytes "Node-path: " ++ (popSegment p ++ '\n'
          :: (mid ++ (bytes "Node-copyfrom-path: " ++ (q ++ '\n' :: post))))
        = (bytes "Node-path: " ++ (popSegment p ++ '\n' :: mid))
          ++ (bytes "Node-copyfrom-path: " ++ (q ++ '\n' :: post)) := by
      simp [List.append_assoc]
    have h2 : spliceHeaderValue "Node-copyfrom-path: " popSegment
          (bytes "Node-path: " ++ (popSegment p ++ '\n'
            :: (mid ++ (bytes "Node-copyfrom-path: " ++ (q ++ '\n' :: post)))))
        = (bytes "Node-path: " ++ (popSegment p ++ '\n' :: mid))
          ++ (bytes "Node-copyfrom-path: " ++ (popSegment q ++ '\n' :: post)) := by
      rw [hassoc]
      exact spliceHeaderValue_at popSegment _ hclean hq
    simp only [popNodehook, h1, h2]
    simp [List.append_assoc]
  · intro rev props v hv
    unfold popRevhook
    rw [hv]

/-- Witness for `C8_pop_actual` at a concrete node header and a concrete
mergeinfo property table. -/
theorem C8_witness :
    (('\n' ∉ bytes "a/b") ∧ ('\n' ∉ bytes "c/d")
      ∧ cleanFor (bytes "Node-copyfrom-path: ")
          (bytes "Node-path: "
            ++ (popSegment (bytes "a/b") ++ '\n' :: bytes "Node-kind: file\n"))
      ∧ mapGet ([(bytes "svn:mergeinfo", bytes "/a/b:1-2\n/c/d:3-4")])
          (bytes "svn:mergeinfo") = some (bytes "/a/b:1-2\n/c/d:3-4"))
    ∧ popNodehook 1 0
        (bytes "Node-path: " ++ (bytes "a/b" ++ '\n'
          :: (bytes "Node-kind: file\n"
            ++ (bytes "Node-copyfrom-path: " ++ (bytes "c/d" ++ '\n' :: [])))))
        (bytes "PROPS-END\n") []
      = (bytes "Node-path: " ++ (popSegment (bytes "a/b") ++ '\n'
          :: (bytes "Node-kind: file\n"
            ++ (bytes "Node-copyfrom-path: "
              ++ (popSegment (bytes "c/d") ++ '\n' :: [])))))
        ++ bytes "PROPS-END\n" ++ []
    ∧ popRevhook 1
        ⟨[(bytes "svn:mergeinfo", bytes "/a/b:1-2\n/c/d:3-4")],
         [bytes "svn:mergeinfo"], []⟩
      = { (⟨[(bytes "svn:mergeinfo", bytes "/a/b:1-2\n/c/d:3-4")],
           [bytes "svn:mergeinfo"], []⟩ : Properties) with
          properties := mapSet [(bytes "svn:mergeinfo", bytes "/a/b:1-2\n/c/d:3-4")] (bytes "svn:mergeinfo") (popSegment (bytes "/a/b:1-2\n/c/d:3-4")) } :=
  ⟨⟨by decide, by decide, by decide, rfl⟩,
   C8_pop_actual.1 1 0 (bytes "a/b") (bytes "c/d") (bytes "Node-kind: file\n")
     [] (bytes "PROPS-END\n") [] (by decide) (by decide) (by decide),
   C8_pop_actual.2 1 _ (bytes "/a/b:1-2\n/c/d:3-4") rfl⟩

/-! ## Helper lemmas: the length-header pipeline on `lenTriple` (C1) -/

theorem natDigits_ne_of_not_digit {c : Char} (hc : c.isDigit = false) (n : Nat) :
    ∀ x ∈ natDigits n, x ≠ c := fun x hx he => by
  have hd := natDigits_all_digit n x hx
  rw [he, hc] at hd
  exact absurd hd (by simp)

theorem em_digits {pat : Bytes} {c0 : Char} {p' : Bytes} (hp : pat = c0 :: p')
    (hc : c0.isDigit = false) (n : Nat) : earlyMismatch pat (natDigits n) :=
  earlyMismatch_of_head_notMem hp (natDigits_ne_of_not_digit hc n)

theorem setLenAux_clean {pat a : Bytes} (h : cleanFor pat a) (f v : Nat)
    (hf : a.length ≤ f) : setLenAux f pat v a = a := by
  have h2 := setLenAux_skip h [] f v (by simpa using hf)
  have h3 : setLenAux 0 pat v [] = [] := rfl
  simpa [h3] using h2

theorem cleanFor_prefixT {pat : Bytes} {c0 : Char} {p' : Bytes} (hp : pat = c0 :: p')
    (hc : c0.isDigit = false)
    (h1 : earlyMismatch pat (bytes "Prop-content-length: "))
    (h4 : earlyMismatch pat ['\n'])
    {pre : Bytes} (hpre : earlyMismatch pat pre) (plen : Nat) :
    cleanFor pat (pre ++ (bytes "Prop-content-length: " ++ (natDigits plen ++ ['\n']))) :=
  cleanFor_append hpre (cleanFor_append h1 (cleanFor_append (em_digits hp hc plen)
    (cleanFor_of_earlyMismatch h4)))

theorem cleanFor_prefixC {pat : Bytes} {c0 : Char} {p' : Bytes} (hp : pat = c0 :: p')
    (hc : c0.isDigit = false)
    (h1 : earlyMismatch pat (bytes "Prop-content-length: "))
    (h2 : earlyMismatch pat (bytes "Text-content-length: "))
    (h4 : earlyMismatch pat ['\n'])
    {pre : Bytes} (hpre : earlyMismatch pat pre) (plen t : Nat) :
    cleanFor pat (pre ++ (bytes "Prop-content-length: " ++ (natDigits plen
      ++ (['\n'] ++ (bytes "Text-content-length: " ++ (natDigits t ++ ['\n'])))))) :=
  cleanFor_append hpre (cleanFor_append h1 (cleanFor_append (em_digits hp hc plen)
    (cleanFor_append h4 (cleanFor_append h2 (cleanFor_append (em_digits hp hc t)
      (cleanFor_of_earlyMismatch h4))))))

theorem cleanFor_restT {pat : Bytes} {c0 : Char} {p' : Bytes} (hp : pat = c0 :: p')
    (hc : c0.isDigit = false)
    (h3 : earlyMismatch pat (bytes "Content-length: "))
    (h4 : earlyMismatch pat ['\n'])
    {post : Bytes} (hpost : cleanFor pat post) (c : Nat) :
    cleanFor pat ('\n' :: (bytes "Content-length: " ++ (natDigits c ++ '\n' :: post))) := by
  rw [show ('\n' :: (bytes "Content-length: " ++ (natDigits c ++ '\n' :: post)) : Bytes)
      = ['\n'] ++ (bytes "Content-length: " ++ (natDigits c ++ (['\n'] ++ post)))
      from by simp]
  exact cleanFor_append h4 (cleanFor_append h3 (cleanFor_append (em_digits hp hc c)
    (cleanFor_append h4 hpost)))

theorem cleanFor_restC {pat : Bytes}
    (h4 : earlyMismatch pat ['\n'])
    {post : Bytes} (hpost : cleanFor pat post) :
    cleanFor pat ('\n' :: post) := by
  rw [show ('\n' :: post : Bytes) = ['\n'] ++ post from rfl]
  exact cleanFor_append h4 hpost

theorem cleanFor_restP {pat : Bytes} {c0 : Char} {p' : Bytes} (hp : pat = c0 :: p')
    (hc : c0.isDigit = false)
    (h2 : earlyMismatch pat (bytes "Text-content-length: "))
    (h3 : earlyMismatch pat (bytes "Content-length: "))
    (h4 : earlyMismatch pat ['\n'])
    {post : Bytes} (hpost : cleanFor pat post) (t c : Nat) :
    cleanFor pat ('\n' :: (bytes "Text-content-length: " ++ (natDigits t
      ++ '\n' :: (bytes "Content-length: " ++ (natDigits c ++ '\n' :: post))))) := by
  rw [show ('\n' :: (bytes "Text-content-length: " ++ (natDigits t
        ++ '\n' :: (bytes "Content-length: " ++ (natDigits c ++ '\n' :: post)))) : Bytes)
      = ['\n'] ++ (bytes "Text-content-length: " ++ (natDigits t
        ++ (['\n'] ++ (bytes "Content-length: " ++ (natDigits c ++ (['\n'] ++ post))))))
      from by simp]
  exact cleanFor_append h4 (cleanFor_append h2 (cleanFor_append (em_digits hp hc t)
    (cleanFor_append h4 (cleanFor_append h3 (cleanFor_append (em_digits hp hc c)
      (cleanFor_append h4 hpost))))))

theorem cleanFor_triple_of {pat : Bytes} {c0 : Char} {p' : Bytes} (hp : pat = c0 :: p')
    (hc : c0.isDigit = false)
    (h1 : earlyMismatch pat (bytes "Prop-content-length: "))
    (h2 : earlyMismatch pat (bytes "Text-content-length: "))
    (h3 : earlyMismatch pat (bytes "Content-length: "))
    (h4 : earlyMismatch pat ['\n'])
    {pre post : Bytes} (hpre : earlyMismatch pat pre) (hpost : cleanFor pat post)
    (plen t c : Nat) :
    cleanFor pat (lenTriple pre plen t c post) := by
  rw [show lenTriple pre plen t c post
      = pre ++ (bytes "Prop-content-length: " ++ (natDigits plen
        ++ (['\n'] ++ (bytes "Text-content-length: " ++ (natDigits t
        ++ (['\n'] ++ (bytes "Content-length: " ++ (natDigits c
        ++ (['\n'] ++ post))))))))) from by simp [lenTriple]]
  exact cleanFor_append hpre (cleanFor_append h1 (cleanFor_append (em_digits hp hc plen)
    (cleanFor_append h4 (cleanFor_append h2 (cleanFor_append (em_digits hp hc t)
      (cleanFor_append h4 (cleanFor_append h3 (cleanFor_append (em_digits hp hc c)
        (cleanFor_append h4 hpost)))))))))

theorem SetLength_text_triple (pre post : Bytes) (plen t0 c0 t : Nat)
    (hpre : preClean pre) (hpost : postClean post) :
    SetLength "Text-content" (lenTriple pre plen t0 c0 post) t
      = lenTriple pre plen t c0 post := by
  have hpreT : earlyMismatch (bytes "Text-content-length: ") pre :=
    hpre _ (by simp [lenPatterns])
  have hpostT : cleanFor (bytes "Text-content-length: ") post :=
    hpost _ (by simp [lenPatterns])
  have hA : cleanFor (bytes "Text-content-length: ")
      (pre ++ (bytes "Prop-content-length: " ++ (natDigits plen ++ ['\n']))) :=
    cleanFor_prefixT rfl (by decide) (by decide) (by decide) hpreT plen
  have hREST : cleanFor (bytes "Text-content-length: ")
      ('\n' :: (bytes "Content-length: " ++ (natDigits c0 ++ '\n' :: post))) :=
    cleanFor_restT rfl (by decide) (by decide) (by decide) hpostT c0
  have hshape : lenTriple pre plen t0 c0 post
      = (pre ++ (bytes "Prop-content-length: " ++ (natDigits plen ++ ['\n'])))
        ++ (bytes "Text-content-length: " ++ natDigits t0
            ++ ('\n' :: (bytes "Content-length: " ++ (natDigits c0 ++ '\n' :: post)))) := by
    simp [lenTriple, List.append_assoc]
  unfold SetLength
  rw [show bytes ("Text-content" ++ "-length: ") = bytes "Text-content-length: " from rfl]
  rw [hshape]
  rw [setLenAux_skip hA _ _ t le_rfl]
  rw [setLenAux_hit (by decide) (natDigits_ne_nil t0) (natDigits_all_digit t0) (by rfl) le_rfl]
  rw [setLenAux_clean hREST _ t le_rfl]
  simp [lenTriple, List.append_assoc]

theorem SetLength_content_triple (pre post : Bytes) (plen t c0 c : Nat)
    (hpre : preClean pre) (hpost : postClean post) :
    SetLength "Content" (lenTriple pre plen t c0 post) c
      = lenTriple pre plen t c post := by
  have hpreC : earlyMismatch (bytes "Content-length: ") pre :=
    hpre _ (by simp [lenPatterns])
  have hpostC : cleanFor (bytes "Content-length: ") post :=
    hpost _ (by simp [lenPatterns])
  have hA : cleanFor (bytes "Content-length: ")
      (pre ++ (bytes "Prop-content-length: " ++ (natDigits plen
        ++ (['\n'] ++ (bytes "Text-content-length: " ++ (natDigits t ++ ['\n'])))))) :=
    cleanFor_prefixC rfl (by decide) (by decide) (by decide) (by decide) hpreC plen t
  have hREST : cleanFor (bytes "Content-length: ") ('\n' :: post) :=
    cleanFor_restC (by decide) hpostC
  have hshape : lenTriple pre plen t c0 post
      = (pre ++ (bytes "Prop-content-length: " ++ (natDigits plen
          ++ (['\n'] ++ (bytes "Text-content-length: " ++ (natDigits t ++ ['\n']))))))
        ++ (bytes "Content-length: " ++ natDigits c0 ++ ('\n' :: post)) := by
    simp [lenTriple, List.append_assoc]
  unfold SetLength
  rw [show bytes ("Content" ++ "-length: ") = bytes "Content-length: " from rfl]
  rw [hshape]
  rw [setLenAux_skip hA _ _ c le_rfl]
  rw [setLenAux_hit (by decide) (natDigits_ne_nil c0) (natDigits_all_digit c0) (by rfl) le_rfl]
  rw [setLenAux_clean hREST _ c le_rfl]
  simp [lenTriple, List.append_assoc]

theorem SetLength_prop_triple (pre post : Bytes) (plen0 t c0 plen : Nat)
    (hpre : preClean pre) (hpost : postClean post) :
    SetLength "Prop-content" (lenTriple pre plen0 t c0 post) plen
      = lenTriple pre plen t c0 post := by
  have hpreP : earlyMismatch (bytes "Prop-content-length: ") pre :=
    hpre _ (by simp [lenPatterns])
  have hpostP : cleanFor (bytes "Prop-content-length: ") post :=
    hpost _ (by simp [lenPatterns])
  have hA : cleanFor (bytes "Prop-content-length: ") pre :=
    cleanFor_of_earlyMismatch hpreP
  have hREST : cleanFor (bytes "Prop-content-length: ")
      ('\n' :: (bytes "Text-content-length: " ++ (natDigits t
        ++ '\n' :: (bytes "Content-length: " ++ (natDigits c0 ++ '\n' :: post))))) :=
    cleanFor_restP rfl (by decide) (by decide) (by decide) (by decide) hpostP t c0
  have hshape : lenTriple pre plen0 t c0 post
      = pre ++ (bytes "Prop-content-length: " ++ natDigits plen0
          ++ ('\n' :: (bytes "Text-content-length: " ++ (natDigits t
            ++ '\n' :: (bytes "Content-length: " ++ (natDigits c0 ++ '\n' :: post)))))) := by
    simp [lenTriple, List.append_assoc]
  unfold SetLength
  rw [show bytes ("Prop-content" ++ "-length: ") = bytes "Prop-content-length: " from rfl]
  rw [hshape]
  rw [setLenAux_skip hA _ _ plen le_rfl]
  rw [setLenAux_hit (by decide) (natDigits_ne_nil plen0) (natDigits_all_digit plen0) (by rfl) le_rfl]
  rw [setLenAux_clean hREST _ plen le_rfl]
  simp [lenTriple, List.append_assoc]

theorem stripChecksums_triple (pre post : Bytes) (plen t c : Nat)
    (hpre : preClean pre) (hpost : postClean post) :
    stripChecksums (lenTriple pre plen t c post) = lenTriple pre plen t c post := by
  have h1 : cleanFor (bytes "Text-content-md5:") (lenTriple pre plen t c post) :=
    cleanFor_triple_of rfl (by decide) (by decide) (by decide) (by decide) (by decide)
      (hpre _ (by decide)) (hpost _ (by decide)) plen t c
  have h2 : cleanFor (bytes "Text-content-sha1:") (lenTriple pre plen t c post) :=
    cleanFor_triple_of rfl (by decide) (by decide) (by decide) (by decide) (by decide)
      (hpre _ (by decide)) (hpost _ (by decide)) plen t c
  have h3 : cleanFor (bytes "Text-copy-source-md5:") (lenTriple pre plen t c post) :=
    cleanFor_triple_of rfl (by decide) (by decide) (by decide) (by decide) (by decide)
      (hpre _ (by decide)) (hpost _ (by decide)) plen t c
  have h4 : cleanFor (bytes "Text-copy-source-sha1:") (lenTriple pre plen t c post) :=
    cleanFor_triple_of rfl (by decide) (by decide) (by decide) (by decide) (by decide)
      (hpre _ (by decide)) (hpost _ (by decide)) plen t c
  simp only [stripChecksums]
  rw [delLine_of_cleanFor h1, delLine_of_cleanFor h2, delLine_of_cleanFor h3,
    delLine_of_cleanFor h4]

theorem triple_lengths (pre post : Bytes) (plen t c : Nat) (hpre : preClean pre) :
    lenHeaderVal "Prop-content-length" (lenTriple pre plen t c post) = (plen : Int)
    ∧ lenHeaderVal "Text-content-length" (lenTriple pre plen t c post) = (t : Int)
    ∧ lenHeaderVal "Content-length" (lenTriple pre plen t c post) = (c : Int) := by
  have hcP : cleanFor (bytes "Prop-content-length: ") pre :=
    cleanFor_of_earlyMismatch (hpre _ (by simp [lenPatterns]))
  have hcT : cleanFor (bytes "Text-content-length: ")
      (pre ++ (bytes "Prop-content-length: " ++ (natDigits plen ++ ['\n']))) :=
    cleanFor_prefixT rfl (by decide) (by decide) (by decide)
      (hpre _ (by decide)) plen
  have hcC : cleanFor (bytes "Content-length: ")
      (pre ++ (bytes "Prop-content-length: " ++ (natDigits plen
        ++ (['\n'] ++ (bytes "Text-content-length: " ++ (natDigits t ++ ['\n'])))))) :=
    cleanFor_prefixC rfl (by decide) (by decide) (by decide) (by decide)
      (hpre _ (by decide)) plen t
  have hP : payload "Prop-content-length" (lenTriple pre plen t c post)
      = some (natDigits plen) := by
    rw [show lenTriple pre plen t c post
        = pre ++ bytes "Prop-content-length: " ++ natDigits plen
          ++ '\n' :: (bytes "Text-content-length: " ++ (natDigits t
            ++ '\n' :: (bytes "Content-length: " ++ (natDigits c ++ '\n' :: post))))
        from by simp [lenTriple, List.append_assoc]]
    exact payload_at hcP (nl_not_mem_natDigits plen)
  have hT : payload "Text-content-length" (lenTriple pre plen t c post)
      = some (natDigits t) := by
    rw [show lenTriple pre plen t c post
        = (pre ++ (bytes "Prop-content-length: " ++ (natDigits plen ++ ['\n'])))
          ++ bytes "Text-content-length: " ++ natDigits t
          ++ '\n' :: (bytes "Content-length: " ++ (natDigits c ++ '\n' :: post))
        from by simp [lenTriple, List.append_assoc]]
    exact payload_at hcT (nl_not_mem_natDigits t)
  have hC : payload "Content-length" (lenTriple pre plen t c post)
      = some (natDigits c) := by
    rw [show lenTriple pre plen t c post
        = (pre ++ (bytes "Prop-content-length: " ++ (natDigits plen
            ++ (['\n'] ++ (bytes "Text-content-length: " ++ (natDigits t ++ ['\n']))))))
          ++ bytes "Content-length: " ++ natDigits c ++ '\n' :: post
        from by simp [lenTriple, List.append_assoc]]
    exact payload_at hcC (nl_not_mem_natDigits c)
  refine ⟨?_, ?_, ?_⟩ <;> unfold lenHeaderVal
  · rw [hP]; simp [goAtoi0_natDigits]
  · rw [hT]; simp [goAtoi0_natDigits]
  · rw [hC]; simp [goAtoi0_natDigits]

theorem triple_agrees (pre post : Bytes) (plen t : Nat) (hpre : preClean pre) :
    nodeLengthsAgree (lenTriple pre plen t (plen + t) post) := by
  obtain ⟨h1, h2, h3⟩ := triple_lengths pre post plen t (plen + t) hpre
  unfold nodeLengthsAgree
  rw [h1, h2, h3]
  push_cast
  ring

theorem stripSelected_nil (h : Bytes) : stripSelected [] h = true := by
  unfold stripSelected
  cases payload "Node-path" h <;> simp

/-- Claim C1, counterexample: `replace /^$/foo/` on a well-formed node
with empty content and no `Text-content-length` header fabricates a body
(`foo`) and bumps `Content-length` to 13, but `SetLength` cannot insert
the missing `Text-content-length` line, so the emitted node violates
`Content-length = Prop-content-length + Text-content-length`. -/
theorem C1_replace_violates_lengths :
    innerreplace replAllEmptyFoo 1 0
        (bytes "Node-path: d\nNode-kind: dir\nNode-action: add\nProp-content-length: 10\nContent-length: 10\n\n")
        (bytes "PROPS-END\n") []
      = bytes "Node-path: d\nNode-kind: dir\nNode-action: add\nProp-content-length: 10\nContent-length: 13\n\n"
        ++ bytes "PROPS-END\n" ++ bytes "foo"
    ∧ nodeLengthsAgree (bytes "Node-path: d\nNode-kind: dir\nNode-action: add\nProp-content-length: 10\nContent-length: 10\n\n")
    ∧ ¬ nodeLengthsAgree (bytes "Node-path: d\nNode-kind: dir\nNode-action: add\nProp-content-length: 10\nContent-length: 13\n\n") :=
  ⟨by decide, by decide, by decide⟩

/-- Claim C1 (amended): on node headers that carry all three length
lines (shape `lenTriple`, with pattern-clean surroundings), the three
cited rewrite sites preserve `Content-length = Prop-content-length +
Text-content-length`: the `replace` hook rewrites `Text-content-length`
to the new body length and `Content-length` to properties + body; the
`strip` hook does the same with its diagnostic cookie as body; and the
`ReadNode` re-serialization sets `Prop-content-length` and
`Content-length` from the properties and content actually read.  The
invariant can fail only when a length line is absent, as in the
counterexample. -/
theorem C1_rewrite_sites_keep_length_invariant :
    (∀ (replAll : Bytes → Bytes) (rev idx : Int) (pre post : Bytes)
        (plen t0 c0 : Nat) (properties content : Bytes),
      preClean pre → postClean post → plen = properties.length →
      content ≠ replAll content →
      innerreplace replAll rev idx (lenTriple pre plen t0 c0 post) properties content
        = lenTriple pre plen (replAll content).length
            (plen + (replAll content).length) post
          ++ properties ++ replAll content
        ∧ nodeLengthsAgree (lenTriple pre plen (replAll content).length
            (plen + (replAll content).length) post))
    ∧ (∀ (rev idx : Int) (pre post : Bytes) (plen t0 c0 : Nat)
        (properties content : Bytes),
      preClean pre → postClean post → plen = properties.length →
      content.length > 0 → (bytes "link ").isPrefixOf content = false →
      innerstrip [] rev idx (lenTriple pre plen t0 c0 post) properties content
        = lenTriple pre plen (stripTell rev (lenTriple pre plen t0 c0 post)).length
            (plen + (stripTell rev (lenTriple pre plen t0 c0 post)).length) post
          ++ properties ++ stripTell rev (lenTriple pre plen t0 c0 post)
        ∧ nodeLengthsAgree (lenTriple pre plen
            (stripTell rev (lenTriple pre plen t0 c0 post)).length
            (plen + (stripTell rev (lenTriple pre plen t0 c0 post)).length) post))
    ∧ (∀ (pre post : Bytes) (plen0 t0 c0 plen clen : Nat),
      preClean pre → postClean post →
      SetLength "Content"
          (SetLength "Prop-content" (lenTriple pre plen0 t0 c0 post) plen)
          (plen + clen)
        = lenTriple pre plen t0 (plen + clen) post
        ∧ (t0 = clen →
          nodeLengthsAgree (lenTriple pre plen t0 (plen + clen) post))) := by
  refine ⟨?_, ?_, ?_⟩
  · intro replAll rev idx pre post plen t0 c0 properties content hpre hpost hplen hne
    subst hplen
    refine ⟨?_, triple_agrees pre post properties.length (replAll content).length hpre⟩
    have hparts : innerreplaceParts replAll (lenTriple pre properties.length t0 c0 post)
          properties content
        = (stripChecksums (SetLength "Content"
            (SetLength "Text-content" (lenTriple pre properties.length t0 c0 post)
              (replAll content).length)
            (properties.length + (replAll content).length)), properties, replAll content) := by
      simp only [innerreplaceParts]
      rw [if_pos hne]
    simp only [innerreplace, hparts]
    rw [SetLength_text_triple pre post properties.length t0 c0
        (replAll content).length hpre hpost,
      SetLength_content_triple pre post properties.length (replAll content).length c0
        (properties.length + (replAll content).length) hpre hpost,
      stripChecksums_triple pre post properties.length (replAll content).length
        (properties.length + (replAll content).length) hpre hpost]
  · intro rev idx pre post plen t0 c0 properties content hpre hpost hplen hclen hlink
    subst hplen
    refine ⟨?_, triple_agrees pre post properties.length _ hpre⟩
    simp only [innerstrip]
    rw [if_pos (stripSelected_nil _), if_pos hclen,
      if_pos (show ¬((bytes "link ").isPrefixOf content = true) from by simp [hlink])]
    rw [SetLength_text_triple pre post properties.length t0 c0
        (stripTell rev (lenTriple pre properties.length t0 c0 post)).length hpre hpost,
      SetLength_content_triple pre post properties.length
        (stripTell rev (lenTriple pre properties.length t0 c0 post)).length c0
        (properties.length
          + (stripTell rev (lenTriple pre properties.length t0 c0 post)).length)
        hpre hpost,
      stripChecksums_triple pre post properties.length
        (stripTell rev (lenTriple pre properties.length t0 c0 post)).length
        (properties.length
          + (stripTell rev (lenTriple pre properties.length t0 c0 post)).length)
        hpre hpost]
  · intro pre post plen0 t0 c0 plen clen hpre hpost
    refine ⟨?_, fun ht => ?_⟩
    · rw [SetLength_prop_triple pre post plen0 t0 c0 plen hpre hpost,
        SetLength_content_triple pre post plen t0 c0 (plen + clen) hpre hpost]
    · subst ht
      exact triple_agrees pre post plen t0 hpre

/-- Witness for `C1_rewrite_sites_keep_length_invariant` at concrete
headers, properties and contents. -/
theorem C1_witness :
    (preClean (bytes "Node-path: d\n") ∧ postClean ['\n']
      ∧ 10 = (bytes "PROPS-END\n").length
      ∧ ([] : Bytes) ≠ replAllEmptyFoo []
      ∧ (bytes "x").length > 0
      ∧ (bytes "link ").isPrefixOf (bytes "x") = false)
    ∧ (innerreplace replAllEmptyFoo 1 0 (lenTriple (bytes "Node-path: d\n") 10 5 15 ['\n'])
          (bytes "PROPS-END\n") []
        = lenTriple (bytes "Node-path: d\n") 10 (replAllEmptyFoo []).length
            (10 + (replAllEmptyFoo []).length) ['\n']
          ++ bytes "PROPS-END\n" ++ replAllEmptyFoo []
      ∧ nodeLengthsAgree (lenTriple (bytes "Node-path: d\n") 10 (replAllEmptyFoo []).length
          (10 + (replAllEmptyFoo []).length) ['\n']))
    ∧ (innerstrip [] 2 0 (lenTriple (bytes "Node-path: d\n") 10 5 15 ['\n'])
          (bytes "PROPS-END\n") (bytes "x")
        = lenTriple (bytes "Node-path: d\n") 10
            (stripTell 2 (lenTriple (bytes "Node-path: d\n") 10 5 15 ['\n'])).length
            (10 + (stripTell 2 (lenTriple (bytes "Node-path: d\n") 10 5 15 ['\n'])).length)
            ['\n']
          ++ bytes "PROPS-END\n"
          ++ stripTell 2 (lenTriple (bytes "Node-path: d\n") 10 5 15 ['\n'])
      ∧ nodeLengthsAgree (lenTriple (bytes "Node-path: d\n") 10
          (stripTell 2 (lenTriple (bytes "Node-path: d\n") 10 5 15 ['\n'])).length
          (10 + (stripTell 2 (lenTriple (bytes "Node-path: d\n") 10 5 15 ['\n'])).length)
          ['\n']))
    ∧ (SetLength "Content"
          (SetLength "Prop-content" (lenTriple (bytes "Node-path: d\n") 5 7 9 ['\n']) 4)
          (4 + 7)
        = lenTriple (bytes "Node-path: d\n") 4 7 (4 + 7) ['\n']
      ∧ (7 = 7 →
        nodeLengthsAgree (lenTriple (bytes "Node-path: d\n") 4 7 (4 + 7) ['\n']))) :=
  ⟨⟨by decide, by decide, by decide, by decide, by decide, by decide⟩,
   C1_rewrite_sites_keep_length_invariant.1 replAllEmptyFoo 1 0 (bytes "Node-path: d\n")
     ['\n'] 10 5 15 (bytes "PROPS-END\n") [] (by decide) (by decide) (by decide)
     (by decide),
   C1_rewrite_sites_keep_length_invariant.2.1 2 0 (bytes "Node-path: d\n") ['\n']
     10 5 15 (bytes "PROPS-END\n") (bytes "x") (by decide) (by decide) (by decide)
     (by decide) (by decide),
   C1_rewrite_sites_keep_length_invariant.2.2 (bytes "Node-path: d\n") ['\n']
     5 7 9 4 7 (by decide) (by decide)⟩

/-! ## Helper lemmas: `doSelect` on well-formed dumps (C3) -/

theorem serLines_nil : serLines [] = [] := rfl

theorem serLines_cons (l : Bytes) (ls : List Bytes) :
    serLines (l :: ls) = (l ++ ['\n']) ++ serLines ls := by
  simp [serLines]

theorem ReadUntilNext_eof (lines : List Bytes) :
    ∀ (stash : Bytes) (fuel : Nat),
    (∀ l ∈ lines, plainLine l) →
    (serLines lines).length < fuel →
    ReadUntilNext fuel "Revision-number:" none stash ⟨[], serLines lines⟩
      = .ok (stash ++ serLines lines, ⟨[], []⟩) := by
  induction lines with
  | nil =>
    intro stash fuel _ hf
    obtain ⟨f, rfl⟩ : ∃ f, fuel = f + 1 := ⟨fuel - 1, by omega⟩
    have hrl : LineBufferedSource.Readline ⟨[], serLines []⟩ = ([], ⟨[], []⟩) :=
      Readline_eof rfl
    simp only [ReadUntilNext, hrl]
    simp [serLines_nil]
  | cons l ls ih =>
    intro stash fuel hpl hf
    obtain ⟨f, rfl⟩ : ∃ f, fuel = f + 1 := ⟨fuel - 1, by omega⟩
    obtain ⟨hl, hpre⟩ := hpl l (List.mem_cons_self _ _)
    have hsh : serLines (l :: ls) = l ++ '\n' :: serLines ls := by
      rw [serLines_cons]
      simp [List.append_assoc]
    have hrl : LineBufferedSource.Readline ⟨[], serLines (l :: ls)⟩
        = (l ++ ['\n'], ⟨[], serLines ls⟩) := by
      rw [hsh]
      exact Readline_found (readBytesNl_line hl (serLines ls))
    simp only [ReadUntilNext, hrl]
    rw [if_neg (by simp), if_neg (by rw [hpre]; simp)]
    rw [ih (stash ++ (l ++ ['\n'])) f
      (fun x hx => hpl x (List.mem_cons_of_mem _ hx))
      (by rw [hsh] at hf; simp only [List.length_append, List.length_cons] at hf ⊢; omega)]
    rw [serLines_cons]
    simp [List.append_assoc]

theorem ReadUntilNext_hit (lines : List Bytes) :
    ∀ (stash rest : Bytes) (r : Nat) (fuel : Nat),
    (∀ l ∈ lines, plainLine l) →
    (serLines lines).length < fuel →
    ReadUntilNext fuel "Revision-number:" none stash
        ⟨[], serLines lines ++ (revLine r ++ rest)⟩
      = .ok (stash ++ serLines lines, ⟨revLine r, rest⟩) := by
  induction lines with
  | nil =>
    intro stash rest r fuel _ hf
    obtain ⟨f, rfl⟩ : ∃ f, fuel = f + 1 := ⟨fuel - 1, by omega⟩
    have hnl : '\n' ∉ bytes "Revision-number: " ++ natDigits r := by
      intro hx
      rcases List.mem_append.mp hx with hx | hx
      · exact absurd hx (by decide)
      · exact nl_not_mem_natDigits r hx
    have hrl : LineBufferedSource.Readline ⟨[], serLines [] ++ (revLine r ++ rest)⟩
        = (revLine r, ⟨[], rest⟩) := by
      rw [serLines_nil, List.nil_append,
        show revLine r ++ rest
          = (bytes "Revision-number: " ++ natDigits r) ++ '\n' :: rest from by
            simp [revLine, List.append_assoc]]
      exact Readline_found (readBytesNl_line hnl rest)
    simp only [ReadUntilNext, hrl]
    have hne : revLine r ≠ [] := by
      simp [revLine, bytes]
    rw [if_neg (by simpa using hne)]
    rw [if_pos (isPrefixOf_of_split (show revLine r
        = bytes "Revision-number:" ++ (' ' :: (natDigits r ++ ['\n'])) from by
      simp [revLine, List.append_assoc]
      rfl))]
    simp [serLines_nil, LineBufferedSource.Push]
  | cons l ls ih =>
    intro stash rest r fuel hpl hf
    obtain ⟨f, rfl⟩ : ∃ f, fuel = f + 1 := ⟨fuel - 1, by omega⟩
    obtain ⟨hl, hpre⟩ := hpl l (List.mem_cons_self _ _)
    have hsh : serLines (l :: ls) ++ (revLine r ++ rest)
        = l ++ '\n' :: (serLines ls ++ (revLine r ++ rest)) := by
      rw [serLines_cons]
      simp [List.append_assoc]
    have hrl : LineBufferedSource.Readline
          ⟨[], serLines (l :: ls) ++ (revLine r ++ rest)⟩
        = (l ++ ['\n'], ⟨[], serLines ls ++ (revLine r ++ rest)⟩) := by
      rw [hsh]
      exact Readline_found (readBytesNl_line hl _)
    simp only [ReadUntilNext, hrl]
    rw [if_neg (by simp), if_neg (by rw [hpre]; simp)]
    rw [ih (stash ++ (l ++ ['\n'])) rest r f
      (fun x hx => hpl x (List.mem_cons_of_mem _ hx))
      (by rw [serLines_cons] at hf
          simp only [List.length_append, List.length_cons] at hf ⊢
          omega)]
    rw [serLines_cons]
    simp [List.append_assoc]

theorem revLine_len_pos (r : Nat) : 0 < (revLine r).length := by
  simp [revLine, bytes]

theorem doSelectLoop_blocks (blocks : List (Nat × List Bytes)) :
    ∀ (seg0 : List Bytes) (fuel : Nat) (ds : DumpfileSource),
    ds.Lbs = ⟨[], serLines seg0 ++ serBlocks blocks⟩ →
    (∀ l ∈ seg0, plainLine l) →
    (∀ b ∈ blocks, b.1 ≤ 2147483647 ∧ ∀ l ∈ b.2, plainLine l) →
    (serLines seg0 ++ serBlocks blocks).length < fuel →
    doSelectLoop fuel ⟨[(0, maxInt32)]⟩ false true ds
      = .ok { ds with Lbs := ⟨[], []⟩, out := ds.out ++ (serLines seg0 ++ serBlocks blocks) } := by
  induction blocks with
  | nil =>
    intro seg0 fuel ds hds hseg _ hf
    obtain ⟨lbs0, rev, idx, er, outv⟩ := ds
    simp only at hds
    subst hds
    obtain ⟨f, rfl⟩ : ∃ f, fuel = f + 1 := ⟨fuel - 1, by omega⟩
    have hb0 : serBlocks [] = [] := rfl
    simp only [doSelectLoop, hb0, List.append_nil]
    rw [ReadUntilNext_eof seg0 [] _ hseg (by simp)]
    simp [LineBufferedSource.HasLineBuffered, DumpfileSource.write, hb0]
  | cons b blocks ih =>
    intro seg0 fuel ds hds hseg hbl hf
    obtain ⟨r, seg⟩ := b
    obtain ⟨lbs0, rev, idx, er, outv⟩ := ds
    simp only at hds
    subst hds
    obtain ⟨f, rfl⟩ : ∃ f, fuel = f + 1 := ⟨fuel - 1, by omega⟩
    obtain ⟨hr, hsegb⟩ := hbl (r, seg) (List.mem_cons_self _ _)
    have hstream : serLines seg0 ++ serBlocks ((r, seg) :: blocks)
        = serLines seg0 ++ (revLine r ++ (serLines seg ++ serBlocks blocks)) := by
      simp [serBlocks, List.append_assoc]
    rw [hstream]
    simp only [doSelectLoop]
    rw [ReadUntilNext_hit seg0 [] (serLines seg ++ serBlocks blocks) r _ hseg
      (by simp [List.length_append]; omega)]
    have hhb : LineBufferedSource.HasLineBuffered ⟨revLine r, serLines seg ++ serBlocks blocks⟩
        = true := by
      simp [LineBufferedSource.HasLineBuffered, revLine, bytes]
    have hgf : goFields (revLine r) = [bytes "Revision-number:", natDigits r] :=
      goFields_header_line "Revision-number:" (natDigits r) (by decide) (by decide)
        (natDigits_all_digit _) (natDigits_ne_nil _)
    have hcont : SubversionRange.ContainsRev ⟨[(0, maxInt32)]⟩ ((r : Nat) : Int) = true := by
      simp [SubversionRange.ContainsRev, maxInt32]
      omega
    have hget : ([bytes "Revision-number:", natDigits r].get? 1) = some (natDigits r) := rfl
    simp only [DumpfileSource.write, LineBufferedSource.Flush, if_true,
      eq_self_iff_true, hgf, hget, goAtoi0_natDigits, hcont]
    rw [if_neg (by simp [hhb])]
    simp only [show ((true : Bool) != false) = true from rfl, if_true, eq_self_iff_true]
    rw [if_neg (show ¬((!false
        && decide (((r : Nat) : Int) > SubversionRange.Upperbound ⟨[(0, maxInt32)]⟩)) = true)
      from by simp [SubversionRange.Upperbound, maxInt32]; omega)]
    rw [ih seg f _ (by rfl) hsegb
      (fun x hx => hbl x (List.mem_cons_of_mem _ hx))
      (by have h1 := revLine_len_pos r
          have h2 : (serBlocks ((r, seg) :: blocks)).length
              = (revLine r).length + ((serLines seg).length + (serBlocks blocks).length) := by
            simp [serBlocks, List.length_append]
          simp only [List.length_append] at hf ⊢
          omega)]
    simp [serBlocks, List.append_assoc]

/-- Claim C3: on a well-formed dump (newline-terminated lines; any
preamble of non-revision lines followed by revision blocks whose numbers
fit in an int32), `select 0:HEAD` — the parsed range is `[(0,
maxInt32)]` — writes output byte-for-byte equal to the input and
consumes the whole stream. -/
theorem C3_select_identity (seg0 : List Bytes) (blocks : List (Nat × List Bytes))
    (rev0 idx0 : Int) (er0 : List Bytes) (out0 : Bytes)
    (hseg : ∀ l ∈ seg0, plainLine l)
    (hbl : ∀ b ∈ blocks, b.1 ≤ 2147483647 ∧ ∀ l ∈ b.2, plainLine l) :
    NewSubversionRange (bytes "0:HEAD") = .ok ⟨[(0, maxInt32)]⟩
    ∧ sselect ⟨⟨[], serLines seg0 ++ serBlocks blocks⟩, rev0, idx0, er0, out0⟩
        ⟨[(0, maxInt32)]⟩
      = .ok ⟨⟨[], []⟩, rev0, idx0, er0, out0 ++ (serLines seg0 ++ serBlocks blocks)⟩ := by
  refine ⟨rfl, ?_⟩
  unfold sselect doSelect
  rw [show (SubversionRange.ContainsRev ⟨[(0, maxInt32)]⟩ 0 != false) = true from rfl]
  rw [doSelectLoop_blocks blocks seg0 _ _ (by rfl) hseg hbl (by simp)]

/-- Witness for `C3_select_identity` at a concrete two-revision dump. -/
theorem C3_witness :
    ((∀ l ∈ [bytes "SVN-fs-dump-format-version: 2", ([] : Bytes)], plainLine l)
      ∧ ∀ b ∈ [((0 : Nat), [bytes "x"]), (1, ([] : List Bytes))],
          b.1 ≤ 2147483647 ∧ ∀ l ∈ b.2, plainLine l)
    ∧ (NewSubversionRange (bytes "0:HEAD") = .ok ⟨[(0, maxInt32)]⟩
      ∧ sselect
          ⟨⟨[], serLines [bytes "SVN-fs-dump-format-version: 2", []]
            ++ serBlocks [(0, [bytes "x"]), (1, [])]⟩, 0, 0, [], []⟩
          ⟨[(0, maxInt32)]⟩
        = .ok ⟨⟨[], []⟩, 0, 0, [],
            [] ++ (serLines [bytes "SVN-fs-dump-format-version: 2", []]
              ++ serBlocks [(0, [bytes "x"]), (1, [])])⟩) :=
  ⟨⟨by decide, by decide⟩,
   C3_select_identity [bytes "SVN-fs-dump-format-version: 2", []]
     [(0, [bytes "x"]), (1, [])] 0 0 [] [] (by decide) (by decide)⟩

/-! ## Helper lemmas: the pass-empty emitter (C7) -/

theorem nl_not_mem_revhead (r : Nat) :
    '\n' ∉ bytes "Revision-number: " ++ natDigits r := by
  intro hx
  rcases List.mem_append.mp hx with hx | hx
  · exact absurd hx (by decide)
  · exact nl_not_mem_natDigits r hx

theorem Readline_revLine (r : Nat) (rest : Bytes) :
    LineBufferedSource.Readline ⟨[], revLine r ++ rest⟩
      = ((bytes "Revision-number: " ++ natDigits r) ++ ['\n'], ⟨[], rest⟩) := by
  rw [show revLine r ++ rest
      = (bytes "Revision-number: " ++ natDigits r) ++ '\n' :: rest from by
    simp [revLine, List.append_assoc]]
  exact Readline_found (readBytesNl_line (nl_not_mem_revhead r) rest)

theorem revLine_ne_nil (r : Nat) :
    ((bytes "Revision-number: " ++ natDigits r) ++ ['\n'] : Bytes) ≠ [] := by
  simp

theorem revLine_ne_blank (r : Nat) :
    ((bytes "Revision-number: " ++ natDigits r) ++ ['\n'] : Bytes) ≠ [linesepC] := by
  intro h
  have hlen := congrArg List.length h
  simp [bytes, List.length_append, linesepC] at hlen

theorem revLine_hdr_starts (r : Nat) :
    (bytes "Revision-number:").isPrefixOf
      ((bytes "Revision-number: " ++ natDigits r) ++ ['\n']) = true :=
  isPrefixOf_of_split (show (bytes "Revision-number: " ++ natDigits r) ++ ['\n']
      = bytes "Revision-number:" ++ ((' ' :: natDigits r) ++ ['\n']) from by
    simp [List.append_assoc]
    rfl)

/-- Claim C7, counterexample: with pass-through and pass-empty set and a
hook eliding every node, a selected revision that carried a node record
loses its revision header (and the final revision's header is dropped at
end of stream as well): the whole output is empty. -/
theorem C7_all_elided_drops_header :
    (Report (NewDumpfileSource (bytes "Revision-number: 1\nProp-content-length: 10\nContent-length: 10\n\nPROPS-END\n\nNode-path: a\nNode-action: add\nProp-content-length: 10\nContent-length: 10\n\nPROPS-END\n\nRevision-number: 2\nProp-content-length: 10\nContent-length: 10\n\nPROPS-END\n\n"))
        ⟨[(0, maxInt32)]⟩ (some fun _ _ _ _ _ => []) none true true).map
        DumpfileSource.out
      = .ok []
    ∧ containsSeq (bytes "Revision-number: 1")
        (bytes "Revision-number: 1\nProp-content-length: 10\nContent-length: 10\n\nPROPS-END\n\nNode-path: a\nNode-action: add\nProp-content-length: 10\nContent-length: 10\n\nPROPS-END\n\nRevision-number: 2\nProp-content-length: 10\nContent-length: 10\n\nPROPS-END\n\n") = true
    ∧ containsSeq (bytes "Node-path: a")
        (bytes "Revision-number: 1\nProp-content-length: 10\nContent-length: 10\n\nPROPS-END\n\nNode-path: a\nNode-action: add\nProp-content-length: 10\nContent-length: 10\n\nPROPS-END\n\nRevision-number: 2\nProp-content-length: 10\nContent-length: 10\n\nPROPS-END\n\n") = true :=
  ⟨rfl, by decide, by decide⟩

/-- Claim C7 (amended): under pass-empty the emitter keeps a pending
revision header only when the revision had *no* node records at all
(`nodecount = 0`) and another `Revision-number` line follows: a node
elided by the hook still increments `nodecount`, so a revision whose
nodes were all elided is dropped, and any pending header is also dropped
at end of stream. -/
theorem C7_passempty_requires_zero_nodecount :
    (∀ (nh : NodeHook) (ph : PropHook) (emit : Bool) (stash : Bytes) (f : Nat)
        (ds : DumpfileSource) (r : Nat) (rest : Bytes),
      ds.Lbs = ⟨[], revLine r ++ rest⟩ → stash ≠ [] →
      reportNodes (f + 1) nh ph true true emit stash 0 ds
        = .ok (.nextRev emit
            (DumpfileSource.say { ds with Lbs := ⟨revLine r, rest⟩ } stash)))
    ∧ (∀ (nh : NodeHook) (ph : PropHook) (emit : Bool) (stash : Bytes) (f : Nat)
        (ds : DumpfileSource) (r : Nat) (rest : Bytes) (n : Nat),
      ds.Lbs = ⟨[], revLine r ++ rest⟩ →
      reportNodes (f + 1) nh ph true true emit stash (n + 1) ds
        = .ok (.nextRev emit { ds with Lbs := ⟨revLine r, rest⟩ }))
    ∧ (∀ (nh : NodeHook) (ph : PropHook) (emit : Bool) (stash : Bytes) (f : Nat)
        (n : Nat) (ds : DumpfileSource),
      ds.Lbs = ⟨[], []⟩ →
      reportNodes (f + 1) nh ph true true emit stash n ds
        = .ok (.stop { ds with Lbs := ⟨[], []⟩ })) := by
  refine ⟨?_, ?_, ?_⟩
  · intro nh ph emit stash f ds r rest hds hstash
    obtain ⟨lbs0, rev, idx, er, outv⟩ := ds
    simp only at hds
    subst hds
    simp only [reportNodes, Readline_revLine]
    rw [if_neg (by simp),
      if_neg (by simpa using revLine_ne_blank r),
      if_pos (revLine_hdr_starts r),
      if_pos (by simp [hstash])]
    simp [LineBufferedSource.Push, revLine, List.append_assoc]
  · intro nh ph emit stash f ds r rest n hds
    obtain ⟨lbs0, rev, idx, er, outv⟩ := ds
    simp only at hds
    subst hds
    simp only [reportNodes, Readline_revLine]
    rw [if_neg (by simp),
      if_neg (by simpa using revLine_ne_blank r),
      if_pos (revLine_hdr_starts r),
      if_neg (by simp)]
    simp [LineBufferedSource.Push, revLine, List.append_assoc]
  · intro nh ph emit stash f n ds hds
    obtain ⟨lbs0, rev, idx, er, outv⟩ := ds
    simp only at hds
    subst hds
    have hrl : LineBufferedSource.Readline ⟨[], []⟩ = ([], ⟨[], []⟩) :=
      Readline_eof rfl
    simp only [reportNodes, hrl]
    rw [if_pos trivial]

/-- Witness for `C7_passempty_requires_zero_nodecount` at concrete
states. -/
theorem C7_witness :
    ((⟨⟨[], revLine 1 ++ bytes "X"⟩, 0, 0, [], []⟩ : DumpfileSource).Lbs
        = ⟨[], revLine 1 ++ bytes "X"⟩
      ∧ (bytes "S") ≠ []
      ∧ (⟨⟨[], []⟩, 0, 0, [], []⟩ : DumpfileSource).Lbs = ⟨[], []⟩)
    ∧ reportNodes 4 none none true true true (bytes "S") 0
        ⟨⟨[], revLine 1 ++ bytes "X"⟩, 0, 0, [], []⟩
      = .ok (.nextRev true
          (DumpfileSource.say
            { (⟨⟨[], revLine 1 ++ bytes "X"⟩, 0, 0, [], []⟩ : DumpfileSource) with
              Lbs := ⟨revLine 1, bytes "X"⟩ } (bytes "S")))
    ∧ reportNodes 4 none none true true true (bytes "S") 1
        ⟨⟨[], revLine 1 ++ bytes "X"⟩, 0, 0, [], []⟩
      = .ok (.nextRev true
          { (⟨⟨[], revLine 1 ++ bytes "X"⟩, 0, 0, [], []⟩ : DumpfileSource) with
            Lbs := ⟨revLine 1, bytes "X"⟩ })
    ∧ reportNodes 4 none none true true true (bytes "S") 0
        ⟨⟨[], []⟩, 0, 0, [], []⟩
      = .ok (.stop { (⟨⟨[], []⟩, 0, 0, [], []⟩ : DumpfileSource) with
          Lbs := ⟨[], []⟩ }) :=
  ⟨⟨rfl, by decide, rfl⟩,
   C7_passempty_requires_zero_nodecount.1 none none true (bytes "S") 3
     ⟨⟨[], revLine 1 ++ bytes "X"⟩, 0, 0, [], []⟩ 1 (bytes "X") rfl (by decide),
   C7_passempty_requires_zero_nodecount.2.1 none none true (bytes "S") 3
     ⟨⟨[], revLine 1 ++ bytes "X"⟩, 0, 0, [], []⟩ 1 (bytes "X") 0 rfl,
   C7_passempty_requires_zero_nodecount.2.2 none none true (bytes "S") 3 0
     ⟨⟨[], []⟩, 0, 0, [], []⟩ rfl⟩

/-! ## Helper lemmas: the `renumber` loop, line by line (C5) -/

theorem rnl_blank_afterNode (f : Nat) (m : List (Bytes × Int)) (ctr : Int)
    (ps : PropParserState) (rest out : Bytes) :
    renumberLoop (f + 1) ⟨m, ctr, .InHeader, ps, 0, 0⟩ ⟨[], '\n' :: rest⟩ out
      = renumberLoop f ⟨m, ctr, .AwaitingHeader, ps, 0, 0⟩ ⟨[], rest⟩
          (out ++ ['\n']) := by
  have hrl : LineBufferedSource.Readline ⟨[], '\n' :: rest⟩ = (['\n'], ⟨[], rest⟩) :=
    Readline_found (readBytesNl_nl rest)
  simp only [renumberLoop, hrl]
  simp [linesepC]

theorem rnl_blank_afterRevHdr (f : Nat) (m : List (Bytes × Int)) (ctr : Int)
    (ps : PropParserState) (rest out : Bytes) :
    renumberLoop (f + 1) ⟨m, ctr, .InHeader, ps, 0, 10⟩ ⟨[], '\n' :: rest⟩ out
      = renumberLoop f ⟨m, ctr, .InProps, ps, 0, 10⟩ ⟨[], rest⟩
          (out ++ ['\n']) := by
  have hrl : LineBufferedSource.Readline ⟨[], '\n' :: rest⟩ = (['\n'], ⟨[], rest⟩) :=
    Readline_found (readBytesNl_nl rest)
  simp only [renumberLoop, hrl]
  simp [linesepC]

theorem rnl_blank_afterProps (f : Nat) (m : List (Bytes × Int)) (ctr : Int)
    (pcl : Int) (rest out : Bytes) :
    renumberLoop (f + 1) ⟨m, ctr, .InProps, .propsEnd, 0, pcl⟩ ⟨[], '\n' :: rest⟩ out
      = renumberLoop f ⟨m, ctr, .AwaitingHeader, .propsEnd, 0, pcl⟩ ⟨[], rest⟩
          (out ++ ['\n']) := by
  have hrl : LineBufferedSource.Readline ⟨[], '\n' :: rest⟩ = (['\n'], ⟨[], rest⟩) :=
    Readline_found (readBytesNl_nl rest)
  simp only [renumberLoop, hrl]
  simp [linesepC]

theorem rnl_pclLine (f : Nat) (st : RenumState) (rest out : Bytes) :
    renumberLoop (f + 1) st ⟨[], bytes "Prop-content-length: 10\n" ++ rest⟩ out
      = renumberLoop f { st with propContentLength := 10 } ⟨[], rest⟩
          (out ++ bytes "Prop-content-length: 10\n") := by
  have hrl : LineBufferedSource.Readline ⟨[], bytes "Prop-content-length: 10\n" ++ rest⟩
      = (bytes "Prop-content-length: 10\n", ⟨[], rest⟩) := by
    rw [show bytes "Prop-content-length: 10\n" ++ rest
        = bytes "Prop-content-length: 10" ++ '\n' :: rest from rfl]
    exact Readline_found (readBytesNl_line
      (show ('\n' : Char) ∉ bytes "Prop-content-length: 10" by decide) rest)
  have h1 : payload "Revision-number" (bytes "Prop-content-length: 10\n") = none := rfl
  have h2 : payload "Node-path" (bytes "Prop-content-length: 10\n") = none := rfl
  have h3 : payload "Text-content-length" (bytes "Prop-content-length: 10\n") = none := rfl
  have h4 : payload "SVN-fs-dump-format-version" (bytes "Prop-content-length: 10\n") = none := rfl
  have h5 : payload "UUID" (bytes "Prop-content-length: 10\n") = none := rfl
  have h6 : payload "Prop-content-length" (bytes "Prop-content-length: 10\n")
      = some (bytes "10") := rfl
  have h7 : goAtoi0 (bytes "10") = 10 := rfl
  simp only [renumberLoop, hrl, h1, h2, h3, h4, h5, h6, h7]
  rw [if_neg (by decide), if_neg (by decide)]

theorem rnl_propsEndLine (f : Nat) (m : List (Bytes × Int)) (ctr : Int)
    (pcl : Int) (rest out : Bytes) :
    renumberLoop (f + 1) ⟨m, ctr, .InProps, .awaitingNext, 0, pcl⟩
        ⟨[], bytes "PROPS-END\n" ++ rest⟩ out
      = renumberLoop f ⟨m, ctr, .InProps, .propsEnd, 0, pcl⟩ ⟨[], rest⟩
          (out ++ bytes "PROPS-END\n") := by
  have hrl : LineBufferedSource.Readline ⟨[], bytes "PROPS-END\n" ++ rest⟩
      = (bytes "PROPS-END\n", ⟨[], rest⟩) := by
    rw [show bytes "PROPS-END\n" ++ rest = bytes "PROPS-END" ++ '\n' :: rest from rfl]
    exact Readline_found (readBytesNl_line
      (show ('\n' : Char) ∉ bytes "PROPS-END" by decide) rest)
  have h1 : payload "Revision-number" (bytes "PROPS-END\n") = none := rfl
  have h2 : payload "Node-path" (bytes "PROPS-END\n") = none := rfl
  have h3 : payload "Text-content-length" (bytes "PROPS-END\n") = none := rfl
  have h4 : payload "SVN-fs-dump-format-version" (bytes "PROPS-END\n") = none := rfl
  have h5 : payload "UUID" (bytes "PROPS-END\n") = none := rfl
  have h6 : payload "Prop-content-length" (bytes "PROPS-END\n") = none := rfl
  have h7 : payload "Node-copyfrom-rev" (bytes "PROPS-END\n") = none := rfl
  have hK : (bytes "K ").isPrefixOf (bytes "PROPS-END\n") = false := rfl
  have hD : (bytes "D ").isPrefixOf (bytes "PROPS-END\n") = false := rfl
  have hPE : (bytes "PROPS-END").isPrefixOf (bytes "PROPS-END\n") = true := rfl
  simp only [renumberLoop, hrl, h1, h2, h3, h4, h5, h6, h7, hK, hD, hPE]
  simp [linesepC]
  rw [if_neg (by decide), if_neg (by decide)]

theorem payload_line {hd : String} {val : Bytes} (hval : '\n' ∉ val) :
    payload hd (bytes (hd ++ ": ") ++ (val ++ ['\n'])) = some val := by
  have h := @payload_at hd [] val [] (cleanFor_nil (bytes (hd ++ ": "))) hval
  simpa [List.append_assoc] using h

theorem payload_none_prefixed {hd : String} {pre : Bytes}
    (hem : earlyMismatch (bytes (hd ++ ": ")) pre) {tailp : Bytes}
    (hc : cleanFor (bytes (hd ++ ": ")) tailp) :
    payload hd (pre ++ tailp) = none :=
  payload_none_of_cleanFor (cleanFor_append hem hc)

theorem rnl_nodePathLine (f : Nat) (m : List (Bytes × Int)) (ctr : Int)
    (ps : PropParserState) (pcl : Int) (p rest out : Bytes) (hp : pathClean p) :
    renumberLoop (f + 1) ⟨m, ctr, .AwaitingHeader, ps, 0, pcl⟩
        ⟨[], (bytes "Node-path: " ++ (p ++ ['\n'])) ++ rest⟩ out
      = renumberLoop f ⟨m, ctr, .InHeader, .awaitingNext, 0, 0⟩ ⟨[], rest⟩
          (out ++ (bytes "Node-path: " ++ (p ++ ['\n']))) := by
  have hnl2 : '\n' ∉ bytes "Node-path: " ++ p := by
    intro hx
    rcases List.mem_append.mp hx with hx | hx
    · exact absurd hx (by decide)
    · exact hp.1 hx
  have hrl : LineBufferedSource.Readline
        ⟨[], (bytes "Node-path: " ++ (p ++ ['\n'])) ++ rest⟩
      = (bytes "Node-path: " ++ (p ++ ['\n']), ⟨[], rest⟩) := by
    rw [show (bytes "Node-path: " ++ (p ++ ['\n'])) ++ rest
        = (bytes "Node-path: " ++ p) ++ '\n' :: rest from by simp [List.append_assoc]]
    rw [Readline_found (readBytesNl_line hnl2 rest)]
    simp [List.append_assoc]
  have hc1 : cleanFor (bytes "Revision-number: ") (p ++ ['\n']) :=
    hp.2 _ (by simp [nodePatterns])
  have h1 : payload "Revision-number" (bytes "Node-path: " ++ (p ++ ['\n'])) = none :=
    payload_none_prefixed (by decide) hc1
  have h2 : payload "Node-path" (bytes "Node-path: " ++ (p ++ ['\n'])) = some p :=
    payload_line hp.1
  simp only [renumberLoop, hrl, h1, h2]
  rw [if_neg (by simp),
    if_neg (by intro h
               have hlen := congrArg List.length h
               simp [bytes, List.length_append] at hlen),
    if_neg (by simp)]

theorem rnl_copyfromLine (f : Nat) (st : RenumState) (c : Nat) (rest out : Bytes) :
    renumberLoop (f + 1) st
        ⟨[], (bytes "Node-copyfrom-rev: " ++ (natDigits c ++ ['\n'])) ++ rest⟩ out
      = renumberLoop f st ⟨[], rest⟩
          (out ++ bytes "Node-copyfrom-rev: "
            ++ intDigits ((mapGetI st.renumbering (natDigits c)).getD 0)
            ++ [linesepC]) := by
  have hnl2 : '\n' ∉ bytes "Node-copyfrom-rev: " ++ natDigits c := by
    intro hx
    rcases List.mem_append.mp hx with hx | hx
    · exact absurd hx (by decide)
    · exact nl_not_mem_natDigits c hx
  have hrl : LineBufferedSource.Readline
        ⟨[], (bytes "Node-copyfrom-rev: " ++ (natDigits c ++ ['\n'])) ++ rest⟩
      = (bytes "Node-copyfrom-rev: " ++ (natDigits c ++ ['\n']), ⟨[], rest⟩) := by
    rw [show (bytes "Node-copyfrom-rev: " ++ (natDigits c ++ ['\n'])) ++ rest
        = (bytes "Node-copyfrom-rev: " ++ natDigits c) ++ '\n' :: rest from by
      simp [List.append_assoc]]
    rw [Readline_found (readBytesNl_line hnl2 rest)]
    simp [List.append_assoc]
  have h1 : payload "Revision-number"
      (bytes "Node-copyfrom-rev: " ++ (natDigits c ++ ['\n'])) = none :=
    payload_none_prefixed (by decide)
      (cleanFor_append (em_digits rfl (by decide) c) (by decide))
  have h2 : payload "Node-path"
      (bytes "Node-copyfrom-rev: " ++ (natDigits c ++ ['\n'])) = none :=
    payload_none_prefixed (by decide)
      (cleanFor_append (em_digits rfl (by decide) c) (by decide))
  have h3 : payload "Text-content-length"
      (bytes "Node-copyfrom-rev: " ++ (natDigits c ++ ['\n'])) = none :=
    payload_none_prefixed (by decide)
      (cleanFor_append (em_digits rfl (by decide) c) (by decide))
  have h4 : payload "SVN-fs-dump-format-version"
      (bytes "Node-copyfrom-rev: " ++ (natDigits c ++ ['\n'])) = none :=
    payload_none_prefixed (by decide)
      (cleanFor_append (em_digits rfl (by decide) c) (by decide))
  have h5 : payload "UUID"
      (bytes "Node-copyfrom-rev: " ++ (natDigits c ++ ['\n'])) = none :=
    payload_none_prefixed (by decide)
      (cleanFor_append (em_digits rfl (by decide) c) (by decide))
  have h6 : payload "Prop-content-length"
      (bytes "Node-copyfrom-rev: " ++ (natDigits c ++ ['\n'])) = none :=
    payload_none_prefixed (by decide)
      (cleanFor_append (em_digits rfl (by decide) c) (by decide))
  have h7 : payload "Node-copyfrom-rev"
      (bytes "Node-copyfrom-rev: " ++ (natDigits c ++ ['\n'])) = some (natDigits c) :=
    payload_line (nl_not_mem_natDigits c)
  simp only [renumberLoop, hrl, h1, h2, h3, h4, h5, h6, h7]
  rw [if_neg (by simp),
    if_neg (by intro h
               have hlen := congrArg List.length h
               simp [bytes, List.length_append] at hlen)]

theorem rnl_revLine (f : Nat) (m : List (Bytes × Int)) (ctr : Int)
    (ps : PropParserState) (pcl : Int) (r : Nat) (rest out : Bytes) :
    renumberLoop (f + 1) ⟨m, ctr, .AwaitingHeader, ps, 0, pcl⟩
        ⟨[], revLine r ++ rest⟩ out
      = renumberLoop f
          ⟨mapSetI m (natDigits r) ctr, ctr + 1, .InHeader, .awaitingNext, 0, 0⟩
          ⟨[], rest⟩
          (out ++ bytes "Revision-number: " ++ intDigits ctr ++ [linesepC]) := by
  have h1 : payload "Revision-number"
      ((bytes "Revision-number: " ++ natDigits r) ++ ['\n']) = some (natDigits r) := by
    rw [show ((bytes "Revision-number: " ++ natDigits r) ++ ['\n'] : Bytes)
        = bytes "Revision-number: " ++ (natDigits r ++ ['\n']) from by
      simp [List.append_assoc]]
    exact payload_line (nl_not_mem_natDigits r)
  simp only [renumberLoop, Readline_revLine, h1]
  rw [if_neg (by simp),
    if_neg (by intro h
               have hlen := congrArg List.length h
               simp [bytes, List.length_append] at hlen),
    if_neg (by simp)]

/-- Loop iterations consumed by one generated node record. -/
def nodeLines (n : Bytes × Option Nat) : Nat :=
  match n.2 with
  | some _ => 3
  | none => 2

theorem rnl_nodes (ns : List (Bytes × Option Nat)) :
    ∀ (fuel : Nat) (m : List (Bytes × Int)) (ctr : Int) (ps : PropParserState)
      (pcl : Int) (rest out : Bytes),
    (∀ n ∈ ns, pathClean n.1) →
    (ns.map nodeLines).sum ≤ fuel →
    ∃ (ps2 : PropParserState) (pcl2 : Int),
    renumberLoop fuel ⟨m, ctr, .AwaitingHeader, ps, 0, pcl⟩
        ⟨[], (ns.map serNodeC5).flatten ++ rest⟩ out
      = renumberLoop (fuel - (ns.map nodeLines).sum)
          ⟨m, ctr, .AwaitingHeader, ps2, 0, pcl2⟩ ⟨[], rest⟩
          (out ++ (ns.map (serNodeC5R m)).flatten) := by
  induction ns with
  | nil =>
    intro fuel m ctr ps pcl rest out _ _
    exact ⟨ps, pcl, by simp⟩
  | cons n ns ih =>
    intro fuel m ctr ps pcl rest out hps hfuel
    obtain ⟨p, cf⟩ := n
    have hp := hps (p, cf) (List.mem_cons_self _ _)
    cases cf with
    | none =>
      obtain ⟨f, rfl⟩ : ∃ f, fuel = (f + 1) + 1 := by
        refine ⟨fuel - 2, ?_⟩
        simp [nodeLines] at hfuel
        omega
      have hsh : ((((p, none) :: ns).map serNodeC5).flatten) ++ rest
          = (bytes "Node-path: " ++ (p ++ ['\n']))
            ++ ('\n' :: ((ns.map serNodeC5).flatten ++ rest)) := by
        simp only [List.map_cons, List.flatten_cons, serNodeC5, List.append_assoc]
        simp
      rw [hsh, rnl_nodePathLine (f + 1) m ctr ps pcl p _ out hp,
        rnl_blank_afterNode f m ctr .awaitingNext _ _]
      obtain ⟨ps2, pcl2, hrec⟩ := ih f m ctr .awaitingNext 0
        rest (out ++ (bytes "Node-path: " ++ (p ++ ['\n'])) ++ ['\n'])
        (fun x hx => hps x (List.mem_cons_of_mem _ hx))
        (by simp [nodeLines] at hfuel ⊢; omega)
      refine ⟨ps2, pcl2, ?_⟩
      rw [hrec]
      have hfe : (f + 1) + 1 - (((p, none) :: ns).map nodeLines).sum
          = f - (ns.map nodeLines).sum := by
        simp [nodeLines]
        omega
      rw [hfe]
      simp [serNodeC5R, List.append_assoc]
    | some c =>
      obtain ⟨f, rfl⟩ : ∃ f, fuel = ((f + 1) + 1) + 1 := by
        refine ⟨fuel - 3, ?_⟩
        simp [nodeLines] at hfuel
        omega
      have hsh : ((((p, some c) :: ns).map serNodeC5).flatten) ++ rest
          = (bytes "Node-path: " ++ (p ++ ['\n']))
            ++ ((bytes "Node-copyfrom-rev: " ++ (natDigits c ++ ['\n']))
              ++ ('\n' :: ((ns.map serNodeC5).flatten ++ rest))) := by
        simp only [List.map_cons, List.flatten_cons, serNodeC5, List.append_assoc]
        simp
      rw [hsh, rnl_nodePathLine (f + 1 + 1) m ctr ps pcl p _ out hp,
        rnl_copyfromLine (f + 1) ⟨m, ctr, .InHeader, .awaitingNext, 0, 0⟩ c _ _,
        rnl_blank_afterNode f m ctr .awaitingNext _ _]
      obtain ⟨ps2, pcl2, hrec⟩ := ih f m ctr .awaitingNext 0
        rest (out ++ (bytes "Node-path: " ++ (p ++ ['\n']))
          ++ bytes "Node-copyfrom-rev: "
          ++ intDigits ((mapGetI m (natDigits c)).getD 0) ++ [linesepC] ++ ['\n'])
        (fun x hx => hps x (List.mem_cons_of_mem _ hx))
        (by simp [nodeLines] at hfuel ⊢; omega)
      refine ⟨ps2, pcl2, ?_⟩
      rw [hrec]
      have hfe : ((f + 1) + 1) + 1 - (((p, some c) :: ns).map nodeLines).sum
          = f - (ns.map nodeLines).sum := by
        simp [nodeLines]
        omega
      rw [hfe]
      simp [serNodeC5R, linesepC, List.append_assoc]

/-- Loop iterations consumed by one generated revision block. -/
def revLines (b : Nat × List (Bytes × Option Nat)) : Nat :=
  5 + (b.2.map nodeLines).sum

/-- Loop iterations consumed by a generated dump. -/
def dumpLines (revs : List (Nat × List (Bytes × Option Nat))) : Nat :=
  (revs.map revLines).sum

theorem nodeLines_le (n : Bytes × Option Nat) :
    nodeLines n ≤ (serNodeC5 n).length := by
  obtain ⟨p, cf⟩ := n
  cases cf <;> simp [nodeLines, serNodeC5, bytes, List.length_append]

theorem nodesLines_le (ns : List (Bytes × Option Nat)) :
    (ns.map nodeLines).sum ≤ ((ns.map serNodeC5).flatten).length := by
  induction ns with
  | nil => simp
  | cons n ns ih =>
    have := nodeLines_le n
    simp only [List.map_cons, List.flatten_cons, List.sum_cons, List.length_append]
    omega

theorem dumpLines_le (revs : List (Nat × List (Bytes × Option Nat))) :
    dumpLines revs ≤ (serDumpC5 revs).length := by
  induction revs with
  | nil => simp [dumpLines, serDumpC5]
  | cons b revs ih =>
    obtain ⟨r, ns⟩ := b
    have h1 := nodesLines_le ns
    have h2 : 0 < (natDigits r).length := List.length_pos.mpr (natDigits_ne_nil r)
    simp only [dumpLines, serDumpC5, List.map_cons, List.sum_cons, List.flatten_cons,
      List.length_append, serRevC5, revLines, revLine, bytes] at ih h1 ⊢
    simp at ih h1 ⊢
    omega

theorem rnl_revs (revs : List (Nat × List (Bytes × Option Nat))) :
    ∀ (fuel : Nat) (m : List (Bytes × Int)) (ctr : Int) (ps : PropParserState)
      (pcl : Int) (out : Bytes),
    (∀ b ∈ revs, ∀ n ∈ b.2, pathClean n.1) →
    dumpLines revs < fuel →
    renumberLoop fuel ⟨m, ctr, .AwaitingHeader, ps, 0, pcl⟩ ⟨[], serDumpC5 revs⟩ out
      = .ok (out ++ serDumpC5R m ctr revs) := by
  induction revs with
  | nil =>
    intro fuel m ctr ps pcl out _ hf
    obtain ⟨f, rfl⟩ : ∃ f, fuel = f + 1 := ⟨fuel - 1, by omega⟩
    have hrl : LineBufferedSource.Readline ⟨[], serDumpC5 []⟩ = ([], ⟨[], []⟩) :=
      Readline_eof rfl
    simp only [renumberLoop, hrl]
    rw [if_pos trivial]
    simp [serDumpC5R]
  | cons b revs ih =>
    intro fuel m ctr ps pcl out hcl hf
    obtain ⟨r, ns⟩ := b
    have hfl : 5 + (ns.map nodeLines).sum + dumpLines revs < fuel := by
      simp only [dumpLines, List.map_cons, List.sum_cons, revLines] at hf
      simp only [dumpLines]
      omega
    obtain ⟨g, rfl⟩ : ∃ g, fuel = ((((g + 1) + 1) + 1) + 1) + 1 := by
      refine ⟨fuel - 5, ?_⟩
      omega
    have hsh : serDumpC5 ((r, ns) :: revs)
        = revLine r ++ (bytes "Prop-content-length: 10\n"
          ++ ('\n' :: (bytes "PROPS-END\n"
          ++ ('\n' :: ((ns.map serNodeC5).flatten ++ serDumpC5 revs))))) := by
      simp only [serDumpC5, List.map_cons, List.flatten_cons, serRevC5,
        List.append_assoc]
      rfl
    rw [hsh]
    rw [rnl_revLine (g + 1 + 1 + 1 + 1) m ctr ps pcl r _ out]
    rw [rnl_pclLine (g + 1 + 1 + 1) _ _ _]
    dsimp only
    rw [rnl_blank_afterRevHdr (g + 1 + 1) (mapSetI m (natDigits r) ctr) (ctr + 1)
      .awaitingNext _ _]
    rw [rnl_propsEndLine (g + 1) (mapSetI m (natDigits r) ctr) (ctr + 1) 10 _ _]
    rw [rnl_blank_afterProps g (mapSetI m (natDigits r) ctr) (ctr + 1) 10 _ _]
    obtain ⟨ps2, pcl2, hnodes⟩ := rnl_nodes ns g (mapSetI m (natDigits r) ctr)
      (ctr + 1) .propsEnd 10 (serDumpC5 revs)
      (out ++ bytes "Revision-number: " ++ intDigits ctr ++ [linesepC]
        ++ bytes "Prop-content-length: 10\n" ++ ['\n'] ++ bytes "PROPS-END\n" ++ ['\n'])
      (fun n hn => hcl (r, ns) (List.mem_cons_self _ _) n hn)
      (by omega)
    rw [hnodes]
    rw [ih (g - (ns.map nodeLines).sum) (mapSetI m (natDigits r) ctr) (ctr + 1)
      ps2 pcl2 _ (fun b hb n hn => hcl b (List.mem_cons_of_mem _ hb) n hn)
      (by omega)]
    simp only [serDumpC5R, linesepC, List.append_assoc, List.cons_append,
      List.singleton_append]
    rfl

theorem rmiDigitLoop_digits (m : List (Bytes × Int)) {d : Bytes}
    (hd : ∀ c ∈ d, c.isDigit = true) :
    ∀ (rest acc out : Bytes),
    rmiDigitLoop m (d ++ rest) acc out = rmiDigitLoop m rest (acc ++ d) out := by
  induction d with
  | nil => intro rest acc out; simp
  | cons c d ih =>
    intro rest acc out
    have hc := hd c (List.mem_cons_self _ _)
    show rmiDigitLoop m (c :: (d ++ rest)) acc out = _
    conv_lhs => unfold rmiDigitLoop
    rw [if_pos hc, ih (fun x hx => hd x (List.mem_cons_of_mem _ hx)) rest (acc ++ [c]) out]
    simp [List.append_assoc]

theorem rmiDigitLoop_nondigit (m : List (Bytes × Int)) {c : Char}
    (hc : c.isDigit = false) {acc : Bytes} (hacc : acc ≠ []) (rest out : Bytes) :
    rmiDigitLoop m (c :: rest) acc out
      = rmiDigitLoop m rest []
          (out ++ intDigits ((mapGetI m acc).getD 0) ++ [c]) := by
  conv_lhs => unfold rmiDigitLoop
  rw [if_neg (by simp [hc]), if_pos hacc]

theorem rmiDigitLoop_nil (m : List (Bytes × Int)) (acc out : Bytes) :
    rmiDigitLoop m [] acc out = out := rfl

theorem renumberMergeInfo_range (m : List (Bytes × Int)) (path : Bytes)
    (lo hi : Nat) (hnl : '\n' ∉ path) (hcol : ':' ∉ path) :
    renumberMergeInfo (path ++ [':'] ++ natDigits lo ++ ['-'] ++ natDigits hi) m
      = path ++ [':'] ++ intDigits ((mapGetI m (natDigits lo)).getD 0)
        ++ ['-'] ++ intDigits ((mapGetI m (natDigits hi)).getD 0) ++ ['\n'] := by
  have hnlV : '\n' ∉ path ++ [':'] ++ natDigits lo ++ ['-'] ++ natDigits hi := by
    intro hx
    rcases List.mem_append.mp hx with hx | hx
    · rcases List.mem_append.mp hx with hx | hx
      · rcases List.mem_append.mp hx with hx | hx
        · rcases List.mem_append.mp hx with hx | hx
          · exact hnl hx
          · simp at hx
        · exact absurd (natDigits_all_digit lo '\n' hx) (by decide)
      · simp at hx
    · exact absurd (natDigits_all_digit hi '\n' hx) (by decide)
  have hsplit1 : goSplitCh '\n'
      (path ++ [':'] ++ natDigits lo ++ ['-'] ++ natDigits hi)
      = [path ++ [':'] ++ natDigits lo ++ ['-'] ++ natDigits hi] :=
    goSplitCh_no_sep hnlV
  have hnc2 : ':' ∉ natDigits lo ++ ('-' :: (natDigits hi ++ ['\n'])) := by
    intro hx
    rcases List.mem_append.mp hx with hx | hx
    · exact absurd (natDigits_all_digit lo ':' hx) (by decide)
    · rcases List.mem_cons.mp hx with hx | hx
      · exact absurd hx (by decide)
      · rcases List.mem_append.mp hx with hx | hx
        · exact absurd (natDigits_all_digit hi ':' hx) (by decide)
        · simp at hx
  have hsplit2 : goSplitCh ':'
      ((path ++ [':'] ++ natDigits lo ++ ['-'] ++ natDigits hi) ++ [linesepC])
      = [path, natDigits lo ++ ('-' :: (natDigits hi ++ ['\n']))] := by
    rw [show (path ++ [':'] ++ natDigits lo ++ ['-'] ++ natDigits hi) ++ [linesepC]
        = path ++ ':' :: (natDigits lo ++ ('-' :: (natDigits hi ++ ['\n']))) from by
      simp [linesepC, List.append_assoc]]
    rw [goSplitCh_sep_append hcol, goSplitCh_no_sep hnc2]
  have hloop : rmiDigitLoop m (natDigits lo ++ ('-' :: (natDigits hi ++ ['\n']))) [] []
      = intDigits ((mapGetI m (natDigits lo)).getD 0)
        ++ ['-'] ++ intDigits ((mapGetI m (natDigits hi)).getD 0) ++ ['\n'] := by
    rw [rmiDigitLoop_digits m (natDigits_all_digit lo) _ [] []]
    rw [rmiDigitLoop_nondigit m (by decide) (by simpa using natDigits_ne_nil lo)]
    rw [rmiDigitLoop_digits m (natDigits_all_digit hi)]
    rw [rmiDigitLoop_nondigit m (by decide) (by simpa using natDigits_ne_nil hi)]
    rw [rmiDigitLoop_nil]
    simp [List.append_assoc]
  unfold renumberMergeInfo
  rw [hsplit1]
  simp only [List.map_cons, List.map_nil, hsplit2, List.flatten]
  rw [hloop]
  simp [List.append_assoc]

/-- Claim C5: `renumber` replaces the revision numbers of a generated
dump by the consecutive counters `base, base+1, …` (`serDumpC5R` emits
`ctr` for the first block and recurses with `ctr + 1` — no gaps), and
rewrites every `Node-copyfrom-rev` value through the same
revision-to-counter table, extended block by block by `mapSetI`;
`renumberMergeInfo` pushes revision numbers inside an `svn:mergeinfo`
range through the same table (appending a newline).  In particular,
with base 10 on revisions 0,1,2,3 the output revisions are 10,11,12,13
and a `Node-copyfrom-rev: 2` becomes `Node-copyfrom-rev: 12`. -/
theorem C5_renumber_consecutive_and_copyfrom :
    (∀ (revs : List (Nat × List (Bytes × Option Nat))) (base rev0 idx0 : Int)
        (er0 : List Bytes) (out0 : Bytes),
      (∀ b ∈ revs, ∀ n ∈ b.2, pathClean n.1) →
      renumber base ⟨⟨[], serDumpC5 revs⟩, rev0, idx0, er0, out0⟩
        = .ok (serDumpC5R [] base revs))
    ∧ (∀ (m : List (Bytes × Int)) (path : Bytes) (lo hi : Nat),
      '\n' ∉ path → ':' ∉ path →
      renumberMergeInfo (path ++ [':'] ++ natDigits lo ++ ['-'] ++ natDigits hi) m
        = path ++ [':'] ++ intDigits ((mapGetI m (natDigits lo)).getD 0)
          ++ ['-'] ++ intDigits ((mapGetI m (natDigits hi)).getD 0) ++ ['\n'])
    ∧ (renumber 10
          ⟨⟨[], serDumpC5 [(0, []), (1, []), (2, []), (3, [(bytes "a", some 2)])]⟩,
           0, 0, [], []⟩).map
          (fun o => (containsSeq (bytes "Revision-number: 10") o,
                     containsSeq (bytes "Revision-number: 11") o,
                     containsSeq (bytes "Revision-number: 12") o,
                     containsSeq (bytes "Revision-number: 13") o,
                     containsSeq (bytes "Node-copyfrom-rev: 12") o,
                     containsSeq (bytes "Node-copyfrom-rev: 2") o))
        = .ok (true, true, true, true, true, false) := by
  refine ⟨?_, renumberMergeInfo_range, by rfl⟩
  intro revs base rev0 idx0 er0 out0 hcl
  unfold renumber
  show renumberLoop ((serDumpC5 revs).length + List.length ([] : Bytes) + 1)
      ⟨[], base, .AwaitingHeader, .awaitingNext, 0, 0⟩ ⟨[], serDumpC5 revs⟩ []
    = .ok (serDumpC5R [] base revs)
  rw [rnl_revs revs _ [] base .awaitingNext 0 [] hcl
    (by have := dumpLines_le revs
        simp only [List.length_nil]
        omega)]
  rfl

/-- Witness for `C5_renumber_consecutive_and_copyfrom` at a concrete
dump and a concrete mergeinfo range. -/
theorem C5_witness :
    ((∀ b ∈ [((7 : Nat), [(bytes "a", some 7), (bytes "b", (none : Option Nat))])],
        ∀ n ∈ b.2, pathClean n.1)
      ∧ ('\n' ∉ bytes "/trunk") ∧ (':' ∉ bytes "/trunk"))
    ∧ renumber 3 ⟨⟨[], serDumpC5
          [(7, [(bytes "a", some 7), (bytes "b", none)])]⟩, 0, 0, [], []⟩
      = .ok (serDumpC5R [] 3 [(7, [(bytes "a", some 7), (bytes "b", none)])])
    ∧ renumberMergeInfo
        (bytes "/trunk" ++ [':'] ++ natDigits 4 ++ ['-'] ++ natDigits 9)
        [(natDigits 4, 11), (natDigits 9, 16)]
      = bytes "/trunk" ++ [':']
        ++ intDigits ((mapGetI [(natDigits 4, 11), (natDigits 9, 16)]
            (natDigits 4)).getD 0)
        ++ ['-'] ++ intDigits ((mapGetI [(natDigits 4, 11), (natDigits 9, 16)]
            (natDigits 9)).getD 0) ++ ['\n'] :=
  ⟨⟨by decide, by decide, by decide⟩,
   C5_renumber_consecutive_and_copyfrom.1
     [(7, [(bytes "a", some 7), (bytes "b", none)])] 3 0 0 [] [] (by decide),
   C5_renumber_consecutive_and_copyfrom.2.1
     [(natDigits 4, 11), (natDigits 9, 16)] (bytes "/trunk") 4 9
     (by decide) (by decide)⟩

end Repocutter
